import Mathlib

/-!
A shallow embedding of the mdbook-grammar front-end: the lexer
(crates/grammar-syntax/src/lexer.rs), the marker-based recursive-descent
parser (crates/mdbook-grammar-syntax/src/parser.rs), the syntax-tree node
model (crates/mdbook-grammar-syntax/src/node.rs and kind.rs), the document
segmenter (crates/grammar-runner/src/book.rs), the rule extractor and the
renderer (crates/mdbook-grammar-runner/src/code.rs), together with theorems
checking the specification's claims against these definitions.

Machine integers are modelled as Nat (usize never overflows on the inputs
the code can reach; the one checked overflow, u64::from_str_radix, is
modelled explicitly).  Rust panics (unwrap, index out of bounds) and loops
are modelled by Option: a panic or an exhausted step budget is `none`, and
the totality theorems show the budgets chosen in the wrappers suffice.
Strings are lists of characters; byte offsets become character offsets.
-/

namespace MdbookGrammar

/-- A plain character string (the kind enum has a constructor named String,
so declarations in its namespace need an unambiguous name for this type). -/
abbrev Str := String

/-- The closed token/node tag set, from kind.rs. -/
inductive SyntaxKind where
  | Root
  | Comment
  | Whitespace
  | End
  | Error
  | Identifier
  | String
  | Integer
  | Meta
  | Operation
  | If
  | Colon
  | SemiColon
  | Arrow
  | LeftBracket
  | RightBracket
  | LeftParen
  | RightParen
  | LeftBrace
  | RightBrace
  | Comma
  | Bar
  | Tilde
  | Dot
  | Question
  | Star
  | Plus
  | Dots
  | LookAheadPos
  | LookAheadNeg
  | LookBehindPos
  | LookBehindNeg
  | Rule
  | Param
  | Definition
  | Group
  | Converse
  | Range
  | Repeating
  | BraceIndicator
  | Looking
  | Action
  | Reference
deriving DecidableEq, Repr

namespace SyntaxKind

def isError : SyntaxKind → Bool
  | .Error => true
  | _ => false

def isEnd : SyntaxKind → Bool
  | .End => true
  | _ => false

def isTrivia : SyntaxKind → Bool
  | .Whitespace => true
  | .Comment => true
  | _ => false

def isLooking : SyntaxKind → Bool
  | .LookAheadPos => true
  | .LookAheadNeg => true
  | .LookBehindPos => true
  | .LookBehindNeg => true
  | _ => false

/-- kind.rs `is_prefix`: the kinds that may start a repetition indicator. -/
def isPrefixKind : SyntaxKind → Bool
  | .Question => true
  | .Star => true
  | .Plus => true
  | .LeftBrace => true
  | _ => false

def isOperator : SyntaxKind → Bool
  | .Colon => true
  | .SemiColon => true
  | .Arrow => true
  | .LeftParen => true
  | .RightParen => true
  | .LeftBrace => true
  | .RightBrace => true
  | .Comma => true
  | .Bar => true
  | .Tilde => true
  | .Dot => true
  | .Question => true
  | .Star => true
  | .Plus => true
  | .Dots => true
  | .LookAheadPos => true
  | .LookAheadNeg => true
  | .LookBehindPos => true
  | .LookBehindNeg => true
  | _ => false

end SyntaxKind

def SyntaxKind.name : SyntaxKind → Str
  | .Root => "root"
  | .Comment => "comment"
  | .Whitespace => "whitespace"
  | .End => "end"
  | .Error => "error"
  | .Identifier => "identifier"
  | .String => "string"
  | .Integer => "integer"
  | .Meta => "meta"
  | .Operation => "operation"
  | .If => "if"
  | .Colon => "`:`"
  | .SemiColon => "`;`"
  | .Arrow => "`->`"
  | .LeftBracket => "`[`"
  | .RightBracket => "`]`"
  | .LeftParen => "`(`"
  | .RightParen => "`)`"
  | .LeftBrace => "`\x7b`"
  | .RightBrace => "`\x7d`"
  | .Comma => "`,`"
  | .Bar => "`|`"
  | .Tilde => "`~`"
  | .Dot => "`.`"
  | .Question => "`?`"
  | .Star => "`*`"
  | .Plus => "`+`"
  | .Dots => "`..`"
  | .LookAheadPos => "`?=`"
  | .LookAheadNeg => "`?!`"
  | .LookBehindPos => "`?<=`"
  | .LookBehindNeg => "`?<!`"
  | .Rule => "rule"
  | .Param => "param"
  | .Definition => "definition"
  | .Group => "group"
  | .Converse => "converse"
  | .Range => "range"
  | .Repeating => "repeating"
  | .BraceIndicator => "brace_indicator"
  | .Looking => "looking"
  | .Action => "action"
  | .Reference => "reference"

/-- A syntactical error: message plus ordered hints (node.rs `SyntaxError`). -/
structure SyntaxError where
  message : String
  hints : List String
deriving DecidableEq, Repr

/-- node.rs `SyntaxError::new`. -/
def SyntaxError.new (message : String) : SyntaxError :=
  ⟨message, []⟩

/-- node.rs `SyntaxError::hint`. -/
def SyntaxError.addHint (e : SyntaxError) (hint : String) : SyntaxError :=
  ⟨e.message, e.hints ++ [hint]⟩

/-- The node representation of node.rs: leaf / inner / error, with the inner
node's span and erroneous flag cached exactly as `InnerNode` caches them. -/
inductive SyntaxNode where
  | leaf (kind : SyntaxKind) (text : List Char) (span : Nat × Nat)
  | inner (kind : SyntaxKind) (span : Nat × Nat) (erroneous : Bool)
      (children : List SyntaxNode)
  | error (err : SyntaxError) (text : List Char) (span : Nat × Nat)
deriving Repr

namespace SyntaxNode

/-- node.rs `SyntaxNode::kind`: an error node reports `Error` whatever it
failed to become. -/
def kind : SyntaxNode → SyntaxKind
  | .leaf k _ _ => k
  | .inner k _ _ _ => k
  | .error _ _ _ => SyntaxKind.Error

/-- node.rs `SyntaxNode::text`: inner nodes answer the empty string. -/
def text : SyntaxNode → List Char
  | .leaf _ t _ => t
  | .inner _ _ _ _ => []
  | .error _ t _ => t

def spanStart : SyntaxNode → Nat
  | .leaf _ _ sp => sp.1
  | .inner _ sp _ _ => sp.1
  | .error _ _ sp => sp.1

def spanEnd : SyntaxNode → Nat
  | .leaf _ _ sp => sp.2
  | .inner _ sp _ _ => sp.2
  | .error _ _ sp => sp.2

def children : SyntaxNode → List SyntaxNode
  | .leaf _ _ _ => []
  | .inner _ _ _ cs => cs
  | .error _ _ _ => []

/-- node.rs `SyntaxNode::erroneous` (the inner node's cached flag). -/
def erroneous : SyntaxNode → Bool
  | .leaf _ _ _ => false
  | .inner _ _ er _ => er
  | .error _ _ _ => true

/-- node.rs `InnerNode::new`: span from the first and last child (0..0 when
childless), erroneous = some child is erroneous. -/
def mkInner (kind : SyntaxKind) (cs : List SyntaxNode) : SyntaxNode :=
  let er := cs.any erroneous
  let st := match cs.head? with
    | some c => c.spanStart
    | none => 0
  let en := match cs.getLast? with
    | some c => c.spanEnd
    | none => 0
  .inner kind (st, en) er cs

/-- node.rs `SyntaxNode::convert_kind`: reassign a non-error node's kind. -/
def convertKind (n : SyntaxNode) (k : SyntaxKind) : SyntaxNode :=
  match n with
  | .leaf _ t sp => .leaf k t sp
  | .inner _ sp er cs => .inner k sp er cs
  | .error e t sp => .error e t sp

/-- node.rs `SyntaxNode::convert_to_error`: an error node is left unchanged,
any other node is replaced by an error holding its text and span. -/
def convertToError (n : SyntaxNode) (message : String) : SyntaxNode :=
  match n with
  | .error e t sp => .error e t sp
  | n => .error (SyntaxError.new message) n.text
      (n.spanStart, n.spanEnd)

/-- node.rs `SyntaxNode::hints`: add a hint when the node is an error. -/
def addHint (n : SyntaxNode) (hint : String) : SyntaxNode :=
  match n with
  | .error e t sp => .error (e.addHint hint) t sp
  | n => n

/-- node.rs `SyntaxNode::as_error`. -/
def asError : SyntaxNode → Option SyntaxError
  | .error e _ _ => some e
  | _ => none

end SyntaxNode

mutual

/-- The source text a tree covers: the concatenated text of every leaf and
error node in pre-order (the `text` recursion of the parser's test suite). -/
def SyntaxNode.fullText : SyntaxNode → List Char
  | .leaf _ t _ => t
  | .error _ t _ => t
  | .inner _ _ _ cs => SyntaxNode.fullTextList cs

def SyntaxNode.fullTextList : List SyntaxNode → List Char
  | [] => []
  | n :: ns => n.fullText ++ SyntaxNode.fullTextList ns

end

mutual

/-- Representation honesty: the `Error` kind belongs to error nodes alone
(node.rs debug-asserts this for every constructed leaf and inner node). -/
def SyntaxNode.honest : SyntaxNode → Bool
  | .leaf k _ _ => !k.isError
  | .error _ _ _ => true
  | .inner k _ _ cs => !k.isError && SyntaxNode.honestList cs

def SyntaxNode.honestList : List SyntaxNode → Bool
  | [] => true
  | n :: ns => n.honest && SyntaxNode.honestList ns

end

/-- Representation honesty as an inductive predicate (for the totality
proof): the `Error` kind belongs to error nodes alone, at every level. -/
inductive HonestN : SyntaxNode → Prop where
  | leaf : ∀ (k : SyntaxKind) (t : List Char) (sp : Nat × Nat),
      k.isError = false → HonestN (.leaf k t sp)
  | error : ∀ (e : SyntaxError) (t : List Char) (sp : Nat × Nat),
      HonestN (.error e t sp)
  | inner : ∀ (k : SyntaxKind) (sp : Nat × Nat) (er : Bool)
      (cs : List SyntaxNode), k.isError = false →
      (∀ c ∈ cs, HonestN c) → HonestN (.inner k sp er cs)

/-! ## The scanner (the unscanny cursor the lexer drives) -/

/-- A cursor into the immutable input, as unscanny's `Scanner`: offsets count
characters rather than bytes. -/
structure Scanner where
  input : List Char
  cursor : Nat
deriving Repr

/-- The characters still ahead of the cursor. -/
def Scanner.rest (s : Scanner) : List Char := s.input.drop s.cursor

/-- unscanny `Scanner::done`. -/
def Scanner.done (s : Scanner) : Bool := s.rest.isEmpty

/-- unscanny `Scanner::jump` (the parser only jumps to token starts, which
are valid positions). -/
def Scanner.jump (s : Scanner) (target : Nat) : Scanner := ⟨s.input, target⟩

/-! ## Character classes used by the lexer -/

/-- Rust `char::is_whitespace`: the Unicode White_Space property. -/
def rustIsWhitespace (c : Char) : Bool :=
  let n := c.toNat
  (9 ≤ n && n ≤ 13) || n == 32 || n == 0x85 || n == 0xA0 || n == 0x1680 ||
  (0x2000 ≤ n && n ≤ 0x200A) || n == 0x2028 || n == 0x2029 || n == 0x202F ||
  n == 0x205F || n == 0x3000

/-- The Unicode 14.0.0 `Alphabetic` property, as an ordered list of
inclusive code-point ranges: the table behind Rust `char::is_alphabetic`
for code points above ASCII. -/
def alphabeticRanges : List (Nat × Nat) := [
  (65, 90), (97, 122), (170, 170), (181, 181), (186, 186), (192, 214),
  (216, 246), (248, 705), (710, 721), (736, 740), (748, 748), (750, 750),
  (837, 837), (880, 884), (886, 887), (890, 893), (895, 895), (902, 902),
  (904, 906), (908, 908), (910, 929), (931, 1013), (1015, 1153),
  (1162, 1327), (1329, 1366), (1369, 1369), (1376, 1416), (1456, 1469),
  (1471, 1471), (1473, 1474), (1476, 1477), (1479, 1479), (1488, 1514),
  (1519, 1522), (1552, 1562), (1568, 1623), (1625, 1631), (1646, 1747),
  (1749, 1756), (1761, 1768), (1773, 1775), (1786, 1788), (1791, 1791),
  (1808, 1855), (1869, 1969), (1994, 2026), (2036, 2037), (2042, 2042),
  (2048, 2071), (2074, 2092), (2112, 2136), (2144, 2154), (2160, 2183),
  (2185, 2190), (2208, 2249), (2260, 2271), (2275, 2281), (2288, 2363),
  (2365, 2380), (2382, 2384), (2389, 2403), (2417, 2435), (2437, 2444),
  (2447, 2448), (2451, 2472), (2474, 2480), (2482, 2482), (2486, 2489),
  (2493, 2500), (2503, 2504), (2507, 2508), (2510, 2510), (2519, 2519),
  (2524, 2525), (2527, 2531), (2544, 2545), (2556, 2556), (2561, 2563),
  (2565, 2570), (2575, 2576), (2579, 2600), (2602, 2608), (2610, 2611),
  (2613, 2614), (2616, 2617), (2622, 2626), (2631, 2632), (2635, 2636),
  (2641, 2641), (2649, 2652), (2654, 2654), (2672, 2677), (2689, 2691),
  (2693, 2701), (2703, 2705), (2707, 2728), (2730, 2736), (2738, 2739),
  (2741, 2745), (2749, 2757), (2759, 2761), (2763, 2764), (2768, 2768),
  (2784, 2787), (2809, 2812), (2817, 2819), (2821, 2828), (2831, 2832),
  (2835, 2856), (2858, 2864), (2866, 2867), (2869, 2873), (2877, 2884),
  (2887, 2888), (2891, 2892), (2902, 2903), (2908, 2909), (2911, 2915),
  (2929, 2929), (2946, 2947), (2949, 2954), (2958, 2960), (2962, 2965),
  (2969, 2970), (2972, 2972), (2974, 2975), (2979, 2980), (2984, 2986),
  (2990, 3001), (3006, 3010), (3014, 3016), (3018, 3020), (3024, 3024),
  (3031, 3031), (3072, 3075), (3077, 3084), (3086, 3088), (3090, 3112),
  (3114, 3129), (3133, 3140), (3142, 3144), (3146, 3148), (3157, 3158),
  (3160, 3162), (3165, 3165), (3168, 3171), (3200, 3203), (3205, 3212),
  (3214, 3216), (3218, 3240), (3242, 3251), (3253, 3257), (3261, 3268),
  (3270, 3272), (3274, 3276), (3285, 3286), (3293, 3294), (3296, 3299),
  (3313, 3314), (3328, 3340), (3342, 3344), (3346, 3386), (3389, 3396),
  (3398, 3400), (3402, 3404), (3406, 3406), (3412, 3415), (3423, 3427),
  (3450, 3455), (3457, 3459), (3461, 3478), (3482, 3505), (3507, 3515),
  (3517, 3517), (3520, 3526), (3535, 3540), (3542, 3542), (3544, 3551),
  (3570, 3571), (3585, 3642), (3648, 3654), (3661, 3661), (3713, 3714),
  (3716, 3716), (3718, 3722), (3724, 3747), (3749, 3749), (3751, 3769),
  (3771, 3773), (3776, 3780), (3782, 3782), (3789, 3789), (3804, 3807),
  (3840, 3840), (3904, 3911), (3913, 3948), (3953, 3969), (3976, 3991),
  (3993, 4028), (4096, 4150), (4152, 4152), (4155, 4159), (4176, 4239),
  (4250, 4253), (4256, 4293), (4295, 4295), (4301, 4301), (4304, 4346),
  (4348, 4680), (4682, 4685), (4688, 4694), (4696, 4696), (4698, 4701),
  (4704, 4744), (4746, 4749), (4752, 4784), (4786, 4789), (4792, 4798),
  (4800, 4800), (4802, 4805), (4808, 4822), (4824, 4880), (4882, 4885),
  (4888, 4954), (4992, 5007), (5024, 5109), (5112, 5117), (5121, 5740),
  (5743, 5759), (5761, 5786), (5792, 5866), (5870, 5880), (5888, 5907),
  (5919, 5939), (5952, 5971), (5984, 5996), (5998, 6000), (6002, 6003),
  (6016, 6067), (6070, 6088), (6103, 6103), (6108, 6108), (6176, 6264),
  (6272, 6314), (6320, 6389), (6400, 6430), (6432, 6443), (6448, 6456),
  (6480, 6509), (6512, 6516), (6528, 6571), (6576, 6601), (6656, 6683),
  (6688, 6750), (6753, 6772), (6823, 6823), (6847, 6848), (6860, 6862),
  (6912, 6963), (6965, 6979), (6981, 6988), (7040, 7081), (7084, 7087),
  (7098, 7141), (7143, 7153), (7168, 7222), (7245, 7247), (7258, 7293),
  (7296, 7304), (7312, 7354), (7357, 7359), (7401, 7404), (7406, 7411),
  (7413, 7414), (7418, 7418), (7424, 7615), (7655, 7668), (7680, 7957),
  (7960, 7965), (7968, 8005), (8008, 8013), (8016, 8023), (8025, 8025),
  (8027, 8027), (8029, 8029), (8031, 8061), (8064, 8116), (8118, 8124),
  (8126, 8126), (8130, 8132), (8134, 8140), (8144, 8147), (8150, 8155),
  (8160, 8172), (8178, 8180), (8182, 8188), (8305, 8305), (8319, 8319),
  (8336, 8348), (8450, 8450), (8455, 8455), (8458, 8467), (8469, 8469),
  (8473, 8477), (8484, 8484), (8486, 8486), (8488, 8488), (8490, 8493),
  (8495, 8505), (8508, 8511), (8517, 8521), (8526, 8526), (8544, 8584),
  (9398, 9449), (11264, 11492), (11499, 11502), (11506, 11507),
  (11520, 11557), (11559, 11559), (11565, 11565), (11568, 11623),
  (11631, 11631), (11648, 11670), (11680, 11686), (11688, 11694),
  (11696, 11702), (11704, 11710), (11712, 11718), (11720, 11726),
  (11728, 11734), (11736, 11742), (11744, 11775), (11823, 11823),
  (12293, 12295), (12321, 12329), (12337, 12341), (12344, 12348),
  (12353, 12438), (12445, 12447), (12449, 12538), (12540, 12543),
  (12549, 12591), (12593, 12686), (12704, 12735), (12784, 12799),
  (13312, 19903), (19968, 42124), (42192, 42237), (42240, 42508),
  (42512, 42527), (42538, 42539), (42560, 42606), (42612, 42619),
  (42623, 42735), (42775, 42783), (42786, 42888), (42891, 42954),
  (42960, 42961), (42963, 42963), (42965, 42969), (42994, 43013),
  (43015, 43047), (43072, 43123), (43136, 43203), (43205, 43205),
  (43250, 43255), (43259, 43259), (43261, 43263), (43274, 43306),
  (43312, 43346), (43360, 43388), (43392, 43442), (43444, 43455),
  (43471, 43471), (43488, 43503), (43514, 43518), (43520, 43574),
  (43584, 43597), (43616, 43638), (43642, 43710), (43712, 43712),
  (43714, 43714), (43739, 43741), (43744, 43759), (43762, 43765),
  (43777, 43782), (43785, 43790), (43793, 43798), (43808, 43814),
  (43816, 43822), (43824, 43866), (43868, 43881), (43888, 44010),
  (44032, 55203), (55216, 55238), (55243, 55291), (63744, 64109),
  (64112, 64217), (64256, 64262), (64275, 64279), (64285, 64296),
  (64298, 64310), (64312, 64316), (64318, 64318), (64320, 64321),
  (64323, 64324), (64326, 64433), (64467, 64829), (64848, 64911),
  (64914, 64967), (65008, 65019), (65136, 65140), (65142, 65276),
  (65313, 65338), (65345, 65370), (65382, 65470), (65474, 65479),
  (65482, 65487), (65490, 65495), (65498, 65500), (65536, 65547),
  (65549, 65574), (65576, 65594), (65596, 65597), (65599, 65613),
  (65616, 65629), (65664, 65786), (65856, 65908), (66176, 66204),
  (66208, 66256), (66304, 66335), (66349, 66378), (66384, 66426),
  (66432, 66461), (66464, 66499), (66504, 66511), (66513, 66517),
  (66560, 66717), (66736, 66771), (66776, 66811), (66816, 66855),
  (66864, 66915), (66928, 66938), (66940, 66954), (66956, 66962),
  (66964, 66965), (66967, 66977), (66979, 66993), (66995, 67001),
  (67003, 67004), (67072, 67382), (67392, 67413), (67424, 67431),
  (67456, 67461), (67463, 67504), (67506, 67514), (67584, 67589),
  (67592, 67592), (67594, 67637), (67639, 67640), (67644, 67644),
  (67647, 67669), (67680, 67702), (67712, 67742), (67808, 67826),
  (67828, 67829), (67840, 67861), (67872, 67897), (67968, 68023),
  (68030, 68031), (68096, 68099), (68101, 68102), (68108, 68115),
  (68117, 68119), (68121, 68149), (68192, 68220), (68224, 68252),
  (68288, 68295), (68297, 68324), (68352, 68405), (68416, 68437),
  (68448, 68466), (68480, 68497), (68608, 68680), (68736, 68786),
  (68800, 68850), (68864, 68903), (69248, 69289), (69291, 69292),
  (69296, 69297), (69376, 69404), (69415, 69415), (69424, 69445),
  (69488, 69505), (69552, 69572), (69600, 69622), (69632, 69701),
  (69745, 69749), (69762, 69816), (69826, 69826), (69840, 69864),
  (69888, 69938), (69956, 69959), (69968, 70002), (70006, 70006),
  (70016, 70079), (70081, 70084), (70094, 70095), (70106, 70106),
  (70108, 70108), (70144, 70161), (70163, 70196), (70199, 70199),
  (70206, 70206), (70272, 70278), (70280, 70280), (70282, 70285),
  (70287, 70301), (70303, 70312), (70320, 70376), (70400, 70403),
  (70405, 70412), (70415, 70416), (70419, 70440), (70442, 70448),
  (70450, 70451), (70453, 70457), (70461, 70468), (70471, 70472),
  (70475, 70476), (70480, 70480), (70487, 70487), (70493, 70499),
  (70656, 70721), (70723, 70725), (70727, 70730), (70751, 70753),
  (70784, 70849), (70852, 70853), (70855, 70855), (71040, 71093),
  (71096, 71102), (71128, 71133), (71168, 71230), (71232, 71232),
  (71236, 71236), (71296, 71349), (71352, 71352), (71424, 71450),
  (71453, 71466), (71488, 71494), (71680, 71736), (71840, 71903),
  (71935, 71942), (71945, 71945), (71948, 71955), (71957, 71958),
  (71960, 71989), (71991, 71992), (71995, 71996), (71999, 72002),
  (72096, 72103), (72106, 72151), (72154, 72159), (72161, 72161),
  (72163, 72164), (72192, 72242), (72245, 72254), (72272, 72343),
  (72349, 72349), (72368, 72440), (72704, 72712), (72714, 72758),
  (72760, 72766), (72768, 72768), (72818, 72847), (72850, 72871),
  (72873, 72886), (72960, 72966), (72968, 72969), (72971, 73014),
  (73018, 73018), (73020, 73021), (73023, 73025), (73027, 73027),
  (73030, 73031), (73056, 73061), (73063, 73064), (73066, 73102),
  (73104, 73105), (73107, 73110), (73112, 73112), (73440, 73462),
  (73648, 73648), (73728, 74649), (74752, 74862), (74880, 75075),
  (77712, 77808), (77824, 78894), (82944, 83526), (92160, 92728),
  (92736, 92766), (92784, 92862), (92880, 92909), (92928, 92975),
  (92992, 92995), (93027, 93047), (93053, 93071), (93760, 93823),
  (93952, 94026), (94031, 94087), (94095, 94111), (94176, 94177),
  (94179, 94179), (94192, 94193), (94208, 100343), (100352, 101589),
  (101632, 101640), (110576, 110579), (110581, 110587), (110589, 110590),
  (110592, 110882), (110928, 110930), (110948, 110951), (110960, 111355),
  (113664, 113770), (113776, 113788), (113792, 113800), (113808, 113817),
  (113822, 113822), (119808, 119892), (119894, 119964), (119966, 119967),
  (119970, 119970), (119973, 119974), (119977, 119980), (119982, 119993),
  (119995, 119995), (119997, 120003), (120005, 120069), (120071, 120074),
  (120077, 120084), (120086, 120092), (120094, 120121), (120123, 120126),
  (120128, 120132), (120134, 120134), (120138, 120144), (120146, 120485),
  (120488, 120512), (120514, 120538), (120540, 120570), (120572, 120596),
  (120598, 120628), (120630, 120654), (120656, 120686), (120688, 120712),
  (120714, 120744), (120746, 120770), (120772, 120779), (122624, 122654),
  (122880, 122886), (122888, 122904), (122907, 122913), (122915, 122916),
  (122918, 122922), (123136, 123180), (123191, 123197), (123214, 123214),
  (123536, 123565), (123584, 123627), (124896, 124902), (124904, 124907),
  (124909, 124910), (124912, 124926), (124928, 125124), (125184, 125251),
  (125255, 125255), (125259, 125259), (126464, 126467), (126469, 126495),
  (126497, 126498), (126500, 126500), (126503, 126503), (126505, 126514),
  (126516, 126519), (126521, 126521), (126523, 126523), (126530, 126530),
  (126535, 126535), (126537, 126537), (126539, 126539), (126541, 126543),
  (126545, 126546), (126548, 126548), (126551, 126551), (126553, 126553),
  (126555, 126555), (126557, 126557), (126559, 126559), (126561, 126562),
  (126564, 126564), (126567, 126570), (126572, 126578), (126580, 126583),
  (126585, 126588), (126590, 126590), (126592, 126601), (126603, 126619),
  (126625, 126627), (126629, 126633), (126635, 126651), (127280, 127305),
  (127312, 127337), (127344, 127369), (131072, 173791), (173824, 177976),
  (177984, 178205), (178208, 183969), (183984, 191456), (194560, 195101),
  (196608, 201546)]

/-- The Unicode 14.0.0 general categories `Nd`, `Nl` and `No` (merged), as
an ordered list of inclusive code-point ranges: the table behind Rust
`char::is_numeric` for code points above ASCII. -/
def numericRanges : List (Nat × Nat) := [
  (48, 57), (178, 179), (185, 185), (188, 190), (1632, 1641), (1776, 1785),
  (1984, 1993), (2406, 2415), (2534, 2543), (2548, 2553), (2662, 2671),
  (2790, 2799), (2918, 2927), (2930, 2935), (3046, 3058), (3174, 3183),
  (3192, 3198), (3302, 3311), (3416, 3422), (3430, 3448), (3558, 3567),
  (3664, 3673), (3792, 3801), (3872, 3891), (4160, 4169), (4240, 4249),
  (4969, 4988), (5870, 5872), (6112, 6121), (6128, 6137), (6160, 6169),
  (6470, 6479), (6608, 6618), (6784, 6793), (6800, 6809), (6992, 7001),
  (7088, 7097), (7232, 7241), (7248, 7257), (8304, 8304), (8308, 8313),
  (8320, 8329), (8528, 8578), (8581, 8585), (9312, 9371), (9450, 9471),
  (10102, 10131), (11517, 11517), (12295, 12295), (12321, 12329),
  (12344, 12346), (12690, 12693), (12832, 12841), (12872, 12879),
  (12881, 12895), (12928, 12937), (12977, 12991), (42528, 42537),
  (42726, 42735), (43056, 43061), (43216, 43225), (43264, 43273),
  (43472, 43481), (43504, 43513), (43600, 43609), (44016, 44025),
  (65296, 65305), (65799, 65843), (65856, 65912), (65930, 65931),
  (66273, 66299), (66336, 66339), (66369, 66369), (66378, 66378),
  (66513, 66517), (66720, 66729), (67672, 67679), (67705, 67711),
  (67751, 67759), (67835, 67839), (67862, 67867), (68028, 68029),
  (68032, 68047), (68050, 68095), (68160, 68168), (68221, 68222),
  (68253, 68255), (68331, 68335), (68440, 68447), (68472, 68479),
  (68521, 68527), (68858, 68863), (68912, 68921), (69216, 69246),
  (69405, 69414), (69457, 69460), (69573, 69579), (69714, 69743),
  (69872, 69881), (69942, 69951), (70096, 70105), (70113, 70132),
  (70384, 70393), (70736, 70745), (70864, 70873), (71248, 71257),
  (71360, 71369), (71472, 71483), (71904, 71922), (72016, 72025),
  (72784, 72812), (73040, 73049), (73120, 73129), (73664, 73684),
  (74752, 74862), (92768, 92777), (92864, 92873), (93008, 93017),
  (93019, 93025), (93824, 93846), (119520, 119539), (119648, 119672),
  (120782, 120831), (123200, 123209), (123632, 123641), (125127, 125135),
  (125264, 125273), (126065, 126123), (126125, 126127), (126129, 126132),
  (126209, 126253), (126255, 126269), (127232, 127244), (130032, 130041)]

/-- Membership of a code point in a range table. -/
def inRanges (rs : List (Nat × Nat)) (n : Nat) : Bool :=
  rs.any (fun r => r.1 ≤ n && n ≤ r.2)

/-- Rust `char::is_alphabetic`: the ASCII letters, or (above ASCII) the
Unicode `Alphabetic` property. -/
def rustIsAlphabetic (c : Char) : Bool :=
  let n := c.toNat
  (0x61 ≤ n && n ≤ 0x7a) || (0x41 ≤ n && n ≤ 0x5a) ||
  (0x7f < n && inRanges alphabeticRanges n)

/-- Rust `char::is_numeric`: the ASCII digits, or (above ASCII) the Unicode
`Nd`/`Nl`/`No` categories. -/
def rustIsNumeric (c : Char) : Bool :=
  let n := c.toNat
  (0x30 ≤ n && n ≤ 0x39) || (0x7f < n && inRanges numericRanges n)

/-- Rust `char::is_alphanumeric`. -/
def rustIsAlphanumeric (c : Char) : Bool :=
  rustIsAlphabetic c || rustIsNumeric c

/-- lexer.rs `is_newline`. -/
def isNewline (c : Char) : Bool :=
  c == '\n' || c == '\x0B' || c == '\x0C' || c == '\r' ||
  c.toNat == 0x85 || c.toNat == 0x2028 || c.toNat == 0x2029

/-- lexer.rs `is_id_start`: ASCII letter or underscore. -/
def isIdStart (c : Char) : Bool := c.isAlpha || c == '_'

/-- lexer.rs `is_id_continue`: ASCII alphanumeric or underscore. -/
def isIdContinue (c : Char) : Bool := c.isAlpha || c.isDigit || c == '_'

/-! ## Lexer helpers -/

/-- Characters a maximal run satisfying `p` occupies (`Scanner::eat_while`). -/
def countWhile (p : Char → Bool) (l : List Char) : Nat :=
  (l.takeWhile p).length

/-- lexer.rs `Lexer::block_comment`: characters consumed after the opening
`/*`, and whether the closing `*/` was found.  Note the Rust loop consumes
the character after every `*` it sees, so `**` followed by `/` does not
close the comment. -/
def blockCommentRun : List Char → Nat × Bool
  | [] => (0, false)
  | '*' :: l =>
    match l with
    | '/' :: _ => (2, true)
    | [] => (1, false)
    | _ :: l2 =>
      let r := blockCommentRun l2
      (r.1 + 2, r.2)
  | _ :: l =>
    let r := blockCommentRun l
    (r.1 + 1, r.2)

/-- One hexadecimal digit's value. -/
def hexDigitVal? (c : Char) : Option Nat :=
  if c.isDigit then some (c.toNat - 48)
  else if 'a' ≤ c && c ≤ 'f' then some (c.toNat - 87)
  else if 'A' ≤ c && c ≤ 'F' then some (c.toNat - 55)
  else none

/-- The value of a non-empty all-hex digit string. -/
def hexVal? : List Char → Option Nat
  | [] => none
  | [c] => hexDigitVal? c
  | c :: l => do
    let d ← hexDigitVal? c
    let v ← hexVal? l
    pure (d * 16 ^ l.length + v)

/-- Rust `u64::from_str_radix(s, 16).is_ok()`: an optional leading `+`, one
or more hex digits, and a value that fits in 64 bits. -/
def fromStrRadix16Ok (l : List Char) : Bool :=
  let digits := match l with
    | '+' :: r => r
    | r => r
  match hexVal? digits with
  | some v => v < 2 ^ 64
  | none => false

def unclosedStringErr : SyntaxError :=
  ⟨"unclosed string literal", ["consider closing the string literal with `\"`"]⟩

def invalidUnicodeErr : SyntaxError :=
  ⟨"invalid unicode escape", ["unicode must be a hex number"]⟩

def unclosedUnicodeErr : SyntaxError :=
  ⟨"unclosed unicode escape", ["consider closing the unicode escape with `\x7d`"]⟩

def invalidEscapeErr : SyntaxError :=
  ⟨"invalid escape sequence", []⟩

/-- One iteration of lexer.rs `Lexer::string`'s scan loop, after the
opening quote: either the loop ends (`inl`: characters consumed by the
final step and the error cell as the loop leaves it) or it goes on (`inr`:
characters this iteration consumed, the error cell after it — a later
error overwrites an earlier one, exactly as `Lexer::error` assigns the
cell — and the remaining input).  `lexStringEsc` is the `'\\'` arm of the
loop body, handed the input after the backslash. -/
def lexStringEsc (l1 : List Char) (err : Option SyntaxError) :
    (Nat × Option SyntaxError) ⊕ (Nat × Option SyntaxError × List Char) :=
  match l1 with
  | [] =>
    -- the escape's `eat` finds nothing; the loop then exits unterminated
    .inl (1, some unclosedStringErr)
  | c2 :: l2 =>
    if c2 == 'n' || c2 == 'r' || c2 == 't' || c2 == 'b' || c2 == 'f' ||
        c2 == '\\' || c2 == '"' then
      .inr (2, err, l2)
    else if c2 == 'u' then
      if l2.head? == some '\x7b' then
        if ((l2.drop 1).drop
            (countWhile rustIsAlphanumeric (l2.drop 1))).head? ==
            some '\x7d' then
          .inr (countWhile rustIsAlphanumeric (l2.drop 1) + 4,
            (if fromStrRadix16Ok ((l2.drop 1).take
                (countWhile rustIsAlphanumeric (l2.drop 1))) then err
              else some invalidUnicodeErr),
            (l2.drop 1).drop
              (countWhile rustIsAlphanumeric (l2.drop 1) + 1))
        else
          .inr (countWhile rustIsAlphanumeric (l2.drop 1) + 3,
            some unclosedUnicodeErr,
            (l2.drop 1).drop (countWhile rustIsAlphanumeric (l2.drop 1)))
      else
        .inr (2 + (l2.take 4).length,
          (if fromStrRadix16Ok (l2.take 4) then err
            else some invalidUnicodeErr),
          l2.drop 4)
    else .inr (2, some invalidEscapeErr, l2)

def lexStringStep (l : List Char) (err : Option SyntaxError) :
    (Nat × Option SyntaxError) ⊕ (Nat × Option SyntaxError × List Char) :=
  match l with
  | [] => .inl (0, some unclosedStringErr)
  | c :: l1 =>
    if c == '"' then .inl (1, err)
    else if c == '\\' then lexStringEsc l1 err
    else .inr (1, err, l1)

/-- lexer.rs `Lexer::string`'s loop: iterate `lexStringStep`, accumulating
the consumed count.  One budget step per iteration; every continuing
iteration consumes at least one character, so the wrapper's budget
(length + 1) is never exhausted (`lexStringGoF_congr` proves the
budget-zero line unreachable). -/
def lexStringGoF : Nat → List Char → Option SyntaxError →
    Nat × Option SyntaxError
  | 0, _, err => (0, err)
  | fuel + 1, l, err =>
    match lexStringStep l err with
    | .inl r => r
    | .inr (n, e2, l2) =>
      let r := lexStringGoF fuel l2 e2
      (r.1 + n, r.2)

/-- lexer.rs `Lexer::string` after the opening quote, with the proven
budget: the characters the loop consumes and the lexer's error cell when
it returns. -/
def lexStringGo (l : List Char) (err : Option SyntaxError) :
    Nat × Option SyntaxError :=
  lexStringGoF (l.length + 1) l err

/-- lexer.rs `Lexer::action`, `If` variant: stop at end of input, at `;`, or
at `->`. -/
def actionIfCount : List Char → Nat
  | [] => 0
  | ';' :: _ => 0
  | '-' :: '>' :: _ => 0
  | _ :: l => actionIfCount l + 1

/-- lexer.rs `Lexer::action`: the trigger leaf (`If` or `Arrow`) plus an
`Operation` leaf holding the free-form text, wrapped as one `Action` node.
`start..cursor` spans the trigger token already consumed. -/
def lexAction (input : List Char) (start cursor : Nat) (kind : SyntaxKind) :
    SyntaxNode × Scanner :=
  let text := (input.take cursor).drop start
  let rest := input.drop cursor
  let n := if kind == SyntaxKind.Arrow
    then countWhile (fun c => !(c == ';')) rest
    else actionIfCount rest
  let action := rest.take n
  (SyntaxNode.mkInner SyntaxKind.Action
      [SyntaxNode.leaf kind text (start, cursor),
       SyntaxNode.leaf SyntaxKind.Operation action (cursor, cursor + n)],
    ⟨input, cursor + n⟩)

/-- One consumed token of `n` characters: an error node when the lexer's
error cell holds an error, a leaf otherwise (the tail of `Lexer::next`). -/
def mkTok (s : Scanner) (kind : SyntaxKind) (n : Nat) (e : Option SyntaxError) :
    SyntaxNode × Scanner :=
  let text := s.rest.take n
  let s2 : Scanner := ⟨s.input, s.cursor + n⟩
  match e with
  | some err => (SyntaxNode.error err text (s.cursor, s.cursor + n), s2)
  | none => (SyntaxNode.leaf kind text (s.cursor, s.cursor + n), s2)

/-- lexer.rs `Lexer::next` on non-empty remaining input `c :: l`: classify
and consume one token.  The guards run in the order of the Rust `match`
arms. -/
def lexNextCons (s : Scanner) (c : Char) (l : List Char) :
    SyntaxNode × Scanner :=
    if rustIsWhitespace c then
      mkTok s SyntaxKind.Whitespace (1 + countWhile rustIsWhitespace l) none
    else if c == '/' && l.head? == some '/' then
      mkTok s SyntaxKind.Comment
        (2 + countWhile (fun c2 => !isNewline c2) (l.drop 1)) none
    else if c == '/' && l.head? == some '*' then
      if (blockCommentRun (l.drop 1)).2 then
        mkTok s SyntaxKind.Comment (2 + (blockCommentRun (l.drop 1)).1) none
      else
        mkTok s SyntaxKind.Error (2 + (blockCommentRun (l.drop 1)).1)
          (some ⟨"unclosed block comment",
            ["consider closing the block comment with `*/`"]⟩)
    else if c == '*' && l.head? == some '/' then
      mkTok s SyntaxKind.Error 2
        (some ⟨"unexpected end of block comment",
          ["consider opening the block comment with `/*`"]⟩)
    else if c == '"' then
      mkTok s SyntaxKind.String (1 + (lexStringGo l none).1)
        (lexStringGo l none).2
    else if rustIsNumeric c then
      mkTok s SyntaxKind.Integer (1 + countWhile rustIsNumeric l) none
    else if c == '<' then
      if (l.drop (countWhile (fun c2 => !(c2 == '>')) l)).isEmpty then
        mkTok s SyntaxKind.Error (1 + countWhile (fun c2 => !(c2 == '>')) l)
          (some ⟨"unclosed meta", ["consider closing the meta with `>`"]⟩)
      else
        mkTok s SyntaxKind.Meta
          (1 + countWhile (fun c2 => !(c2 == '>')) l + 1) none
    else if isIdStart c then
      if c :: l.take (countWhile isIdContinue l) = ['i', 'f'] then
        lexAction s.input s.cursor
          (s.cursor + 1 + countWhile isIdContinue l) SyntaxKind.If
      else
        (SyntaxNode.leaf SyntaxKind.Identifier
          (c :: l.take (countWhile isIdContinue l))
          (s.cursor, s.cursor + 1 + countWhile isIdContinue l),
         ⟨s.input, s.cursor + 1 + countWhile isIdContinue l⟩)
    else if c == '-' && l.head? == some '>' then
      lexAction s.input s.cursor (s.cursor + 2) SyntaxKind.Arrow
    else if c == ':' then mkTok s SyntaxKind.Colon 1 none
    else if c == ';' then mkTok s SyntaxKind.SemiColon 1 none
    else if c == '(' then mkTok s SyntaxKind.LeftParen 1 none
    else if c == ')' then mkTok s SyntaxKind.RightParen 1 none
    else if c == '\x7b' then mkTok s SyntaxKind.LeftBrace 1 none
    else if c == '\x7d' then mkTok s SyntaxKind.RightBrace 1 none
    else if c == ',' then mkTok s SyntaxKind.Comma 1 none
    else if c == '|' then mkTok s SyntaxKind.Bar 1 none
    else if c == '~' then mkTok s SyntaxKind.Tilde 1 none
    else if c == '.' && l.head? == some '.' then mkTok s SyntaxKind.Dots 2 none
    else if c == '.' then mkTok s SyntaxKind.Dot 1 none
    else if c == '*' then mkTok s SyntaxKind.Star 1 none
    else if c == '+' then mkTok s SyntaxKind.Plus 1 none
    else if c == '?' && l.head? == some '=' then
      mkTok s SyntaxKind.LookAheadPos 2 none
    else if c == '?' && l.head? == some '!' then
      mkTok s SyntaxKind.LookAheadNeg 2 none
    else if c == '?' && l.take 2 = ['<', '='] then
      mkTok s SyntaxKind.LookBehindPos 3 none
    else if c == '?' && l.take 2 = ['<', '!'] then
      mkTok s SyntaxKind.LookBehindNeg 3 none
    else if c == '?' then mkTok s SyntaxKind.Question 1 none
    else
      mkTok s SyntaxKind.Error 1
        (some ⟨"unexpected character `" ++ c.toString ++ "`", []⟩)

/-- lexer.rs `Lexer::next`: one classified token, or a zero-width `End`
leaf at the end of input. -/
def lexNext (s : Scanner) : SyntaxNode × Scanner :=
  match s.rest with
  | [] => (SyntaxNode.leaf SyntaxKind.End [] (s.cursor, s.cursor), s)
  | c :: l => lexNextCons s c l

/-! ## The parser (parser.rs): flat node list, markers, wrap

Rust panics (`unwrap`, the unreachable function-pattern name) and the step
budgets of the loops are modelled by `Option`: `none` is a panic or an
exhausted budget, and the totality theorem shows `parse`'s budget always
suffices and no unwrap fails. -/

def Scanner.remaining (s : Scanner) : Nat := s.input.length - s.cursor

/-- parser.rs `Parser::eat`'s loop: pull tokens, keeping trivia, until the
first non-trivia token; returns the trivia run, that token and the cursor
after it.  One budget step per token; the wrapper grants more steps than
the remaining input holds characters, which the liveness lemmas show is
never exhausted. -/
def eatGoF : Nat → Scanner → Option (List SyntaxNode × SyntaxNode × Scanner)
  | 0, _ => none
  | fuel + 1, s =>
    if (lexNext s).1.kind.isTrivia then
      (eatGoF fuel (lexNext s).2).map
        (fun r2 => ((lexNext s).1 :: r2.1, r2.2.1, r2.2.2))
    else
      some ([], (lexNext s).1, (lexNext s).2)

/-- parser.rs `Parser`: the lexer plus the flat, append-only node list. -/
structure PState where
  lx : Scanner
  nodes : List SyntaxNode
deriving Repr

/-- parser.rs `Parser::eat`: append the pulled tokens, answer the first
non-trivia kind. -/
def PState.eat (p : PState) : Option (SyntaxKind × PState) :=
  (eatGoF (p.lx.remaining + 1) p.lx).map fun r =>
    (r.2.1.kind, ⟨r.2.2, p.nodes ++ r.1 ++ [r.2.1]⟩)

/-- parser.rs `Parser::uneat`: pop the last node (panic when there is none)
and jump the lexer back to its start. -/
def PState.uneat (p : PState) : Option PState :=
  match p.nodes.getLast? with
  | none => none
  | some n => some ⟨p.lx.jump n.spanStart, p.nodes.dropLast⟩

/-- parser.rs `Pattern`: a kind test plus the name `expected` prints; a
function pattern has no name (naming it panics in the source). -/
structure Pattern where
  test : SyntaxKind → Bool
  nameStr : Option String

def patKind (k : SyntaxKind) : Pattern :=
  ⟨fun k2 => k2 == k, some k.name⟩

def patKinds (ks : List SyntaxKind) : Pattern :=
  ⟨fun k2 => ks.contains k2,
    some (String.intercalate " or " (ks.map SyntaxKind.name))⟩

def patFn (f : SyntaxKind → Bool) : Pattern := ⟨f, none⟩

/-- parser.rs `Parser::eat_if`. -/
def PState.eatIf (p : PState) (pat : Pattern) : Option (Bool × PState) := do
  let (k, p1) ← p.eat
  if pat.test k then pure (true, p1)
  else do
    let p2 ← p1.uneat
    pure (false, p2)

/-- parser.rs `Parser::eat_while`. -/
def eatWhileF : Nat → Pattern → PState → Option PState
  | 0, _, _ => none
  | fuel + 1, pat, p => do
    let (k, p1) ← p.eat
    if pat.test k then eatWhileF fuel pat p1
    else p1.uneat

/-- `self.nodes.last_mut().unwrap()` followed by an in-place update. -/
def PState.modifyLast (p : PState) (f : SyntaxNode → SyntaxNode) :
    Option PState :=
  match p.nodes.getLast? with
  | none => none
  | some n => some ⟨p.lx, p.nodes.dropLast ++ [f n]⟩

/-- parser.rs `Parser::convert`. -/
def PState.convert (p : PState) (k : SyntaxKind) : Option PState :=
  p.modifyLast (fun n => n.convertKind k)

/-- parser.rs `Parser::error`. -/
def PState.errorLast (p : PState) (msg : String) : Option PState :=
  p.modifyLast (fun n => n.convertToError msg)

/-- parser.rs `Parser::kind`: the kind of the last node. -/
def PState.lastKind (p : PState) : Option SyntaxKind :=
  p.nodes.getLast?.map SyntaxNode.kind

/-- parser.rs `Parser::hint`: add a hint to the last node when it is an
error node (no panic: the source uses `if let`). -/
def PState.hintLast (p : PState) (h : String) : PState :=
  match p.nodes.getLast? with
  | none => p
  | some n => ⟨p.lx, p.nodes.dropLast ++ [n.addHint h]⟩

/-- parser.rs `Parser::marker`. -/
def PState.marker (p : PState) : Nat := p.nodes.length

/-- parser.rs `Parser::wrap`: group every node appended since the marker
into one new node of the given kind. -/
def PState.wrap (p : PState) (fr : Nat) (kind : SyntaxKind) : PState :=
  let fr2 := min fr p.nodes.length
  ⟨p.lx, p.nodes.take fr2 ++ [SyntaxNode.mkInner kind (p.nodes.drop fr2)]⟩

/-- parser.rs `Parser::expected`. -/
def PState.expected (p : PState) (pat : Pattern) : Option PState := do
  let nm ← pat.nameStr
  let k ← p.lastKind
  p.errorLast ("expected " ++ nm ++ ", found " ++ k.name)

/-- parser.rs `Parser::expect`. -/
def PState.expect (p : PState) (pat : Pattern) : Option PState := do
  let (k, p1) ← p.eat
  if pat.test k then pure p1
  else p1.expected pat

/-- parser.rs `Parser::unexpected`. -/
def PState.unexpected (p : PState) : Option PState := do
  let k ← p.lastKind
  p.errorLast ("unexpected " ++ k.name)

/-- parser.rs `item`, after the leading-token match: the optional wrapper
wrap, then the postfix repetition indicator.  `start - 1` is `Marker::prev`
(the source debug-asserts the marker is positive, which it is here: the
item's token was appended below it). -/
def itemRestBrace (p1 : PState) (start : Nat) : Option PState := do
  let p ← p1.expect (patKind SyntaxKind.Integer)
  let (b2, p) ← p.eatIf (patKind SyntaxKind.Comma)
  let p ← (if b2 then do
      let r ← p.eatIf (patKind SyntaxKind.Integer)
      pure r.2
    else pure p)
  let p ← p.expect (patKind SyntaxKind.RightBrace)
  let p := p.hintLast "consider closing the range with `\x7d`"
  pure (p.wrap start SyntaxKind.BraceIndicator)

def itemResolveWrapper (p0 : PState) :
    Option (Nat × SyntaxKind) → PState
  | some (m, k) => p0.wrap m k
  | none => p0

def itemRest (p0 : PState) (wrapper : Option (Nat × SyntaxKind)) :
    Option (Bool × PState) := do
  let p := itemResolveWrapper p0 wrapper
  let start := p.marker
  let (b, p) ← p.eatIf (patFn SyntaxKind.isPrefixKind)
  if b then do
    let k ← p.lastKind
    let p ← (if k == SyntaxKind.LeftBrace then itemRestBrace p start
      else pure p)
    let r ← p.eatIf (patKind SyntaxKind.Question)
    pure (true, r.2.wrap (start - 1) SyntaxKind.Repeating)
  else pure (true, p)

mutual

/-- parser.rs `item`: one expression unit; `false` means no item was
produced and the terminator was pushed back. -/
def itemF : Nat → PState → Option (Nat × SyntaxKind) → Option (Bool × PState)
  | 0, _, _ => none
  | fuel + 1, p0, wrapper => do
    let start := p0.marker
    let (k, p) ← p0.eat
    match k with
    | .Meta | .Identifier | .Dot | .Bar => itemRest p wrapper
    | .String => do
      let (b, p) ← p.eatIf (patKind SyntaxKind.Dots)
      if b then do
        let p ← p.expect (patKind SyntaxKind.String)
        let p := p.hintLast "`..` can only connect two string literals"
        itemRest (p.wrap start SyntaxKind.Range) wrapper
      else itemRest p wrapper
    | .Tilde => do
      let (b, p) ← itemF fuel p (some (start, SyntaxKind.Converse))
      if b then itemRest p wrapper
      else do
        let p ← p.unexpected
        let p := p.hintLast
          "consider using converse indicator `~` before an expression"
        itemRest p wrapper
    | .LeftParen => do
      let (b, p) ← p.eatIf (patFn SyntaxKind.isLooking)
      let kd := if b then SyntaxKind.Looking else SyntaxKind.Group
      let p ← expressionF fuel p
      let p ← p.expect (patKind SyntaxKind.RightParen)
      itemRest (p.wrap start kd) wrapper
    | .LeftBrace => do
      let p ← p.unexpected
      itemRest (p.hintLast "range should be attached to an expression") wrapper
    | .RightBrace => do
      let p ← p.unexpected
      itemRest (p.hintLast "consider starting a range with `\x7b`") wrapper
    | .RightParen | .Action | .End | .SemiColon => do
      let p ← p.uneat
      pure (false, p)
    | _ => do
      let p ← p.unexpected
      itemRest p wrapper

/-- parser.rs `expression`: items until one reports no more work. -/
def expressionF : Nat → PState → Option PState
  | 0, _ => none
  | fuel + 1, p => do
    let (b, p) ← itemF fuel p none
    if b then expressionF fuel p else pure p

end

/-- parser.rs `rule`. -/
def ruleF (fuel : Nat) (p0 : PState) : Option PState := do
  let start := p0.marker
  let p ← p0.expect (patKinds [SyntaxKind.Identifier, SyntaxKind.If])
  let p ← p.convert SyntaxKind.Identifier
  let p ← p.expect (patKind SyntaxKind.Colon)
  let m := p.marker
  let p ← expressionF fuel p
  let p := p.wrap m SyntaxKind.Definition
  let p ← eatWhileF fuel (patKind SyntaxKind.Action) p
  let p ← p.expect (patKind SyntaxKind.SemiColon)
  let p := p.hintLast "consider ending the rule with `;`"
  pure (p.wrap start SyntaxKind.Rule)

/-- parser.rs `parse`'s loop: skip trivia, stop at the end of input, parse
one rule, repeat; wrap everything as `Root`. -/
def parseLoopF : Nat → PState → Option SyntaxNode
  | 0, _ => none
  | fuel + 1, p => do
    let p ← eatWhileF fuel (patFn SyntaxKind.isTrivia) p
    if p.lx.done then pure (SyntaxNode.mkInner SyntaxKind.Root p.nodes)
    else do
      let p ← ruleF fuel p
      parseLoopF fuel p

/-- parser.rs `parse`: the budget covers the whole input (the totality
theorem proves it is never exhausted). -/
def parse (input : List Char) : Option SyntaxNode :=
  parseLoopF (2 * input.length + 4) ⟨⟨input, 0⟩, []⟩

/-- Totality-proof bookkeeping: the nodes above `base` are honest and not
`Rule`-kinded (rule nodes appear only at the root level, where
`parseLoopF`'s own invariant tracks them). -/
def GoodSt (base : Nat) (p : PState) : Prop :=
  base ≤ p.nodes.length ∧
  ∀ n ∈ p.nodes.drop base, HonestN n ∧ n.kind ≠ SyntaxKind.Rule

/-- Totality-proof bookkeeping: one parser step keeps the input and never
moves the cursor backwards. -/
def Step (p q : PState) : Prop :=
  q.lx.input = p.lx.input ∧ p.lx.cursor ≤ q.lx.cursor

/-- Totality-proof bookkeeping for the root level: every node is honest,
and every non-erroneous `Rule` node carries the `Identifier` child the
renderer's `parse_rule` unwraps. -/
def NodesOk (l : List SyntaxNode) : Prop :=
  ∀ n ∈ l, HonestN n ∧ (n.kind = SyntaxKind.Rule → n.erroneous = false →
    (n.children.find?
      (fun c => c.kind == SyntaxKind.Identifier)).isSome = true)

/-! ## The document segmenter (grammar-runner book.rs `parse_content`) -/

/-- book.rs `Item`: a verbatim text span or a parsed grammar snippet. -/
inductive Item where
  | text (t : List Char)
  | code (tree : SyntaxNode)
deriving Repr

/-- book.rs `Page`. -/
structure Page where
  href : String
  items : List Item
deriving Repr

/-- unscanny `Scanner::eat_until` with a string pattern: the characters
before the first occurrence of `pat`, or everything when `pat` does not
occur. -/
def countUntilStr (pat : List Char) : List Char → Nat
  | [] => 0
  | c :: rest =>
    if pat.isPrefixOf (c :: rest) then 0 else countUntilStr pat rest + 1

/-- book.rs `parse_content`, the fence guard's pieces: the backtick run at
the head of the unscanned suffix, the text after the opening marker, the
length of the fence's inner content (up to the first occurrence of a
backtick run of the opening run's length), and the suffix after the
closing marker. -/
def fenceTicks (rem : List Char) : Nat :=
  countWhile (fun x => x == '\x60') rem

def fenceAfterOpen (rem : List Char) : List Char :=
  (rem.drop (fenceTicks rem)).drop 7

def fenceInnerLen (rem : List Char) : Nat :=
  countUntilStr (List.replicate (fenceTicks rem) '\x60') (fenceAfterOpen rem)

def fenceInner (rem : List Char) : List Char :=
  (fenceAfterOpen rem).take (fenceInnerLen rem)

def fenceAfterClose (rem : List Char) : List Char :=
  if (List.replicate (fenceTicks rem) '\x60').isPrefixOf
      ((fenceAfterOpen rem).drop (fenceInnerLen rem))
  then ((fenceAfterOpen rem).drop (fenceInnerLen rem)).drop (fenceTicks rem)
  else (fenceAfterOpen rem).drop (fenceInnerLen rem)

/-- One iteration of book.rs `parse_content`'s scan loop: `none` at the end
of input, a fence (its inner content and the suffix after the closing
marker) when the guard fires — a run of three or more backticks followed by
the literal `syntax` and a newline — and one plain character otherwise. -/
def parseContentStep (rem : List Char) :
    Option ((List Char × List Char) ⊕ (Char × List Char)) :=
  match rem with
  | [] => none
  | c :: rest =>
    if 3 ≤ fenceTicks (c :: rest) &&
        "syntax\n".data.isPrefixOf ((c :: rest).drop (fenceTicks (c :: rest)))
    then some (.inl (fenceInner (c :: rest), fenceAfterClose (c :: rest)))
    else some (.inr (c, rest))

/-- book.rs `parse_content`'s scan loop: `rem` is the unscanned suffix and
`acc` the pending text span (reversed).  One budget step per loop
iteration; the wrapper's budget is proven sufficient. -/
def parseContentGo : Nat → List Char → List Char → Option (List Item)
  | 0, _, _ => none
  | fuel + 1, rem, acc =>
    match parseContentStep rem with
    | none => some [Item.text acc.reverse]
    | some (.inl (inner, afterClose)) => do
      let tr ← parse inner
      let items ← parseContentGo fuel afterClose []
      pure (Item.text acc.reverse :: Item.code tr :: items)
    | some (.inr (c, rest)) => parseContentGo fuel rest (c :: acc)

/-- book.rs `parse_content`. -/
def parseContent (content : List Char) : Option (List Item) :=
  parseContentGo (content.length + 1) content []

/-! ## The rule extractor (mdbook-grammar-runner code.rs `find_rules`) -/

/-- The rule table: name to the locations defining it, in insertion order
(the `HashMap<EcoString, Vec<EcoString>>`, as an association list — key
order never affects a lookup). -/
abbrev Rules := List (String × List String)

def rulesGet (rules : Rules) (name : String) : Option (List String) :=
  (rules.find? (fun e => e.1 == name)).map (fun e => e.2)

/-- The map update of find_rules: push onto the present entry, else insert
a one-element vector. -/
def rulesAdd (rules : Rules) (name href : String) : Rules :=
  if (rules.find? (fun e => e.1 == name)).isSome then
    rules.map (fun e => if e.1 == name then (e.1, e.2 ++ [href]) else e)
  else
    rules ++ [(name, [href])]

/-- code.rs `rule_hash`. -/
def ruleHash (name : String) : String := "syntax-rule-" ++ name

/-- mdbook-grammar-runner code.rs `find_rules`, the body of the innermost
loop: a non-erroneous `Rule` node contributes, under the name of its first
`Identifier` child, the location root ++ href ++ "#" ++ hash. -/
def findRulesNode (page : Page) (root : String) (t : Rules)
    (node : SyntaxNode) : Rules :=
  if node.kind == SyntaxKind.Rule && !node.erroneous then
    match node.children.find?
        (fun sub => sub.kind == SyntaxKind.Identifier) with
    | some sub =>
      let name : String := ⟨sub.text⟩
      rulesAdd t name (root ++ page.href ++ "#" ++ ruleHash name)
    | none => t
  else t

/-- `find_rules`, one item: only `Code` items hold trees to walk. -/
def findRulesItem (page : Page) (root : String) (t : Rules)
    (item : Item) : Rules :=
  match item with
  | .code code => code.children.foldl (findRulesNode page root) t
  | _ => t

def findRulesPage (root : String) (t : Rules) (page : Page) : Rules :=
  page.items.foldl (findRulesItem page root) t

/-- mdbook-grammar-runner code.rs `find_rules`: every non-erroneous
top-level `Rule` child of a `Code` item's tree contributes, under the name
of its first `Identifier` child, the location root ++ href ++ "#" ++ hash. -/
def findRules (pages : List Page) (root : String) : Rules :=
  pages.foldl (findRulesPage root) []

/-- Claim side (C4), from the spec's words: does this node count as a
definition of `name` — a non-erroneous `Rule` whose first `Identifier`
child reads `name`? -/
def c4RuleMatches (name : String) (node : SyntaxNode) : Bool :=
  node.kind == SyntaxKind.Rule && !node.erroneous &&
    match node.children.find?
        (fun sub => sub.kind == SyntaxKind.Identifier) with
    | some sub => (⟨sub.text⟩ : String) == name
    | none => false

/-- Claim side (C4): the locations one item owes `name`. -/
def c4ItemLocs (page : Page) (root name : String) (item : Item) :
    List String :=
  match item with
  | .code code =>
    (code.children.filter (c4RuleMatches name)).map
      (fun _ => root ++ page.href ++ "#" ++ ruleHash name)
  | _ => []

/-- Claim side (C4), from the spec's words: one location per matching rule
of every page, in page/item/rule order, each reading
root-prefix ++ href ++ "#" ++ rule-hash(name). -/
def c4SpecLocations (pages : List Page) (root name : String) :
    List String :=
  (pages.map (fun page =>
    (page.items.map (c4ItemLocs page root name)).flatten)).flatten

/-- How one fold step changes a lookup: nothing to add keeps the lookup,
anything to add appends to the (possibly fresh) entry. -/
def rulesCombine (o : Option (List String)) (l : List String) :
    Option (List String) :=
  match l with
  | [] => o
  | _ => some (o.getD [] ++ l)

/-- Totality-proof bookkeeping: no rule-table entry is empty (so the
renderer's `hrefs[0]` cannot panic). -/
def RulesOk (rules : Rules) : Prop := ∀ e ∈ rules, e.2 ≠ []

/-! ## The renderer (mdbook-grammar-runner code.rs) -/

def hexDigitChar (n : Nat) : Char :=
  if n < 10 then Char.ofNat (48 + n) else Char.ofNat (87 + n)

def natToHex (n : Nat) : List Char :=
  if n < 16 then [hexDigitChar n]
  else natToHex (n / 16) ++ [hexDigitChar (n % 16)]
decreasing_by exact Nat.div_lt_self (by omega) (by omega)

/-- Rust `char::escape_default` of one character. -/
def escDefChar (c : Char) : List Char :=
  if c == '\t' then ['\\', 't']
  else if c == '\r' then ['\\', 'r']
  else if c == '\n' then ['\\', 'n']
  else if c == '\\' then ['\\', '\\']
  else if c == '\'' then ['\\', '\'']
  else if c == '"' then ['\\', '"']
  else if 0x20 ≤ c.toNat && c.toNat ≤ 0x7e then [c]
  else ('\\' :: 'u' :: '\x7b' :: natToHex c.toNat) ++ ['\x7d']

/-- Rust `str::escape_default`. -/
def escapeDefault (s : String) : String :=
  ⟨(s.data.map escDefChar).flatten⟩

/-- html_escape `encode_safe` of one character: the crate's SAFE set
(ampersand, angle brackets, quotes, backquote, slash, equals); every other
character passes through. -/
def encSafeChar (c : Char) : List Char :=
  if c == '&' then "&amp;".data
  else if c == '<' then "&lt;".data
  else if c == '>' then "&gt;".data
  else if c == '"' then "&quot;".data
  else if c == '\'' then "&#x27;".data
  else if c == '\x60' then "&#x60;".data
  else if c == '/' then "&#x2F;".data
  else if c == '=' then "&#x3D;".data
  else [c]

def encodeSafe (s : String) : String :=
  ⟨(s.data.map encSafeChar).flatten⟩

/-- code.rs `wrap_node_raw`. -/
def wrapNodeRaw (code : String) (cls : String) : String :=
  "<span class=\"syntax-" ++ cls ++ "\">" ++ encodeSafe code ++ "</span>"

/-- code.rs `wrap_error_raw`: the literal source text (or `[error]` when it
is empty or whitespace-only) inside a span carrying the escaped message and
the escaped, JSON-list-encoded hints. -/
def wrapErrorRaw (code : String) (e : SyntaxError) : String :=
  let text := if code.data.all rustIsWhitespace then "[error]" else code
  let hints := String.intercalate ","
    (e.hints.map (fun h => "\"" ++ escapeDefault h ++ "\""))
  "<span class=\"syntax-error\" message=\"" ++ escapeDefault e.message ++
    "\" hints=\"[" ++ hints ++ "]\">" ++ text ++ "</span>"

/-- code.rs `wrap_identifier`: resolve the name in the rule table.  Indexing
`hrefs[0]` of an empty entry would panic; `find_rules` never stores one. -/
def wrapIdentifier (rules : Rules) (node : SyntaxNode) : Option String :=
  let name : String := ⟨node.text⟩
  match rulesGet rules name with
  | some hrefs =>
    if hrefs.length > 1 then
      some (wrapErrorRaw name
        (SyntaxError.new ("found multiple definitions for rule `" ++ name ++ "`")))
    else
      hrefs.head?.map (fun href =>
        "<a class=\"syntax-link\" href=\"" ++ href ++ "\">" ++
          wrapNodeRaw name "identifier" ++ "</a>")
  | none =>
    some (wrapErrorRaw name
      (SyntaxError.new ("rule `" ++ name ++ "` does not exist")))

/-- code.rs `wrap_error` (`as_error().unwrap()` is the Option bind). -/
def wrapError (node : SyntaxNode) : Option String :=
  node.asError.map (fun e => wrapErrorRaw ⟨node.text⟩ e)

/-- code.rs `wrap`'s branch selection over one node; the children's
renderings are passed lazily, since the source computes them only in the
default pass-through branch. -/
def wrapDispatch (rules : Rules) (node : SyntaxNode)
    (sub : Unit → Option (List String)) : Option String :=
  if node.kind == SyntaxKind.Error then wrapError node
  else if node.kind == SyntaxKind.Comment then
    some (wrapNodeRaw ⟨node.text⟩ "comment")
  else if node.kind == SyntaxKind.Whitespace then some ⟨node.text⟩
  else if node.kind == SyntaxKind.Identifier then wrapIdentifier rules node
  else if node.kind == SyntaxKind.String then
    some (wrapNodeRaw ⟨node.text⟩ "string")
  else if node.kind == SyntaxKind.Integer then
    some (wrapNodeRaw ⟨node.text⟩ "integer")
  else if node.kind == SyntaxKind.Meta then
    some (wrapNodeRaw ⟨node.text⟩ "meta")
  else if node.kind == SyntaxKind.Operation then
    some (wrapNodeRaw ⟨node.text⟩ "action")
  else if node.kind == SyntaxKind.If then
    some (wrapNodeRaw ⟨node.text⟩ "keyword")
  else if node.kind.isOperator then
    some (wrapNodeRaw ⟨node.text⟩ "operator")
  else (sub ()).map String.join

mutual

/-- code.rs `wrap`: one node rendered against the rule table; a composite
kind with no specialized branch concatenates its rendered children (a leaf
reaching the default branch has none and renders as the empty string). -/
def wrapN (rules : Rules) (node : SyntaxNode) : Option String :=
  wrapDispatch rules node (fun _ =>
    match node with
    | .inner _ _ _ cs => wrapList rules cs
    | _ => some [])

/-- The children's renderings in order (`children().map(wrap).collect()`). -/
def wrapList (rules : Rules) : List SyntaxNode → Option (List String)
  | [] => some []
  | n :: ns => do
    let h ← wrapN rules n
    let t ← wrapList rules ns
    pure (h :: t)

end

/-- code.rs `parse_rule`: a non-erroneous rule rendered with its hash as a
`rule` attribute and a named anchor (the `find` unwrap is the Option
bind). -/
def parseRule (rules : Rules) (rule : SyntaxNode) : Option String := do
  let idn ← rule.children.find? (fun n => n.kind == SyntaxKind.Identifier)
  let content ← wrapN rules rule
  let nm := ruleHash ⟨idn.text⟩
  pure ("<span class=\"syntax-rule\" rule=\"" ++ nm ++ "\"><a name=\"#" ++
    nm ++ "\"></a>" ++ content ++ "</span>")

/-- code.rs `parse_code`. -/
def parseCode (rules : Rules) (code : SyntaxNode) : Option String := do
  let parts ← code.children.mapM (fun node =>
    if node.kind == SyntaxKind.Rule && !node.erroneous then
      parseRule rules node
    else wrapN rules node)
  pure ("<pre><code class=\"syntax\">" ++ String.join parts ++
    "</code></pre>")

/-- Substring test (used to state facts about rendered markup). -/
def substrB (pat : List Char) : List Char → Bool
  | [] => pat.isEmpty
  | c :: rest => pat.isPrefixOf (c :: rest) || substrB pat rest

/-! ## Lexer lemmas -/

theorem mkTok_snd (s : Scanner) (k : SyntaxKind) (n : Nat)
    (e : Option SyntaxError) : (mkTok s k n e).2 = ⟨s.input, s.cursor + n⟩ := by
  cases e <;> rfl

theorem mkTok_spanStart (s : Scanner) (k : SyntaxKind) (n : Nat)
    (e : Option SyntaxError) : (mkTok s k n e).1.spanStart = s.cursor := by
  cases e <;> rfl

theorem mkTok_kind (s : Scanner) (k : SyntaxKind) (n : Nat)
    (e : Option SyntaxError) :
    (mkTok s k n e).1.kind = if e.isSome then SyntaxKind.Error else k := by
  cases e <;> rfl

theorem lexAction_snd (inp : List Char) (st cu : Nat) (k : SyntaxKind) :
    ∃ n, (lexAction inp st cu k).2 = ⟨inp, cu + n⟩ :=
  ⟨_, rfl⟩

theorem lexAction_spanStart (inp : List Char) (st cu : Nat) (k : SyntaxKind) :
    (lexAction inp st cu k).1.spanStart = st := rfl

theorem lexAction_kind (inp : List Char) (st cu : Nat) (k : SyntaxKind) :
    (lexAction inp st cu k).1.kind = SyntaxKind.Action := rfl

/-! ### String-scanner lemmas -/

theorem countWhile_append (p : Char → Bool) (body : List Char) (c : Char)
    (rest : List Char) (hb : ∀ x, x ∈ body → p x = true) (hc : p c = false) :
    countWhile p (body ++ c :: rest) = body.length := by
  induction body with
  | nil => simp [countWhile, List.takeWhile_cons, hc]
  | cons y ys ih =>
    have hy : p y = true := hb y (by simp)
    have ih2 := ih (fun x hx => hb x (by simp [hx]))
    simp only [countWhile, List.cons_append, List.takeWhile_cons, hy,
      List.length_cons, if_true] at ih2 ⊢
    simp [ih2]

theorem lexStringEsc_inl (l1 : List Char) (err : Option SyntaxError)
    (r : Nat × Option SyntaxError) (h : lexStringEsc l1 err = Sum.inl r) :
    l1 = [] ∧ r = (1, some unclosedStringErr) := by
  rcases l1 with _ | ⟨c2, l2⟩
  · rw [lexStringEsc] at h
    exact ⟨rfl, (Sum.inl.inj h).symm⟩
  rw [lexStringEsc] at h
  by_cases h1 : (c2 == 'n' || c2 == 'r' || c2 == 't' || c2 == 'b' ||
      c2 == 'f' || c2 == '\\' || c2 == '"') = true
  · rw [if_pos h1] at h; exact absurd h (by simp)
  rw [if_neg h1] at h
  by_cases h2 : (c2 == 'u') = true
  · rw [if_pos h2] at h
    by_cases h3 : (l2.head? == some '\x7b') = true
    · rw [if_pos h3] at h
      by_cases h4 : (((l2.drop 1).drop
          (countWhile rustIsAlphanumeric (l2.drop 1))).head? ==
          some '\x7d') = true
      · rw [if_pos h4] at h; exact absurd h (by simp)
      · rw [if_neg h4] at h; exact absurd h (by simp)
    · rw [if_neg h3] at h; exact absurd h (by simp)
  · rw [if_neg h2] at h; exact absurd h (by simp)

theorem lexStringEsc_inr (l1 : List Char) (err : Option SyntaxError)
    (n : Nat) (e2 : Option SyntaxError) (l2 : List Char)
    (h : lexStringEsc l1 err = Sum.inr (n, e2, l2)) :
    l2.length ≤ l1.length ∧ 1 ≤ n ∧ ∀ x, x ∈ l2 → x ∈ l1 := by
  rcases l1 with _ | ⟨c2, l3⟩
  · rw [lexStringEsc] at h; exact absurd h (by simp)
  rw [lexStringEsc] at h
  by_cases h1 : (c2 == 'n' || c2 == 'r' || c2 == 't' || c2 == 'b' ||
      c2 == 'f' || c2 == '\\' || c2 == '"') = true
  · rw [if_pos h1] at h
    simp only [Sum.inr.injEq, Prod.mk.injEq] at h
    obtain ⟨hn, he, hl⟩ := h
    subst hn; subst hl
    exact ⟨by rw [List.length_cons]; omega, by omega,
      fun x hx => List.mem_cons_of_mem _ hx⟩
  rw [if_neg h1] at h
  by_cases h2 : (c2 == 'u') = true
  · rw [if_pos h2] at h
    by_cases h3 : (l3.head? == some '\x7b') = true
    · rw [if_pos h3] at h
      by_cases h4 : (((l3.drop 1).drop
          (countWhile rustIsAlphanumeric (l3.drop 1))).head? ==
          some '\x7d') = true
      · rw [if_pos h4] at h
        simp only [Sum.inr.injEq, Prod.mk.injEq] at h
        obtain ⟨hn, he, hl⟩ := h
        subst hn; subst hl
        refine ⟨?_, by omega, ?_⟩
        · simp only [List.length_cons, List.length_drop]
          omega
        · exact fun x hx => List.mem_cons_of_mem _
            (List.mem_of_mem_drop (List.mem_of_mem_drop hx))
      · rw [if_neg h4] at h
        simp only [Sum.inr.injEq, Prod.mk.injEq] at h
        obtain ⟨hn, he, hl⟩ := h
        subst hn; subst hl
        refine ⟨?_, by omega, ?_⟩
        · simp only [List.length_cons, List.length_drop]
          omega
        · exact fun x hx => List.mem_cons_of_mem _
            (List.mem_of_mem_drop (List.mem_of_mem_drop hx))
    · rw [if_neg h3] at h
      simp only [Sum.inr.injEq, Prod.mk.injEq] at h
      obtain ⟨hn, he, hl⟩ := h
      subst hn; subst hl
      refine ⟨?_, by omega, ?_⟩
      · simp only [List.length_cons, List.length_drop]
        omega
      · exact fun x hx => List.mem_cons_of_mem _ (List.mem_of_mem_drop hx)
  · rw [if_neg h2] at h
    simp only [Sum.inr.injEq, Prod.mk.injEq] at h
    obtain ⟨hn, he, hl⟩ := h
    subst hn; subst hl
    exact ⟨by rw [List.length_cons]; omega, by omega,
      fun x hx => List.mem_cons_of_mem _ hx⟩

theorem lexStringStep_inl (l : List Char) (err : Option SyntaxError)
    (r : Nat × Option SyntaxError) (h : lexStringStep l err = Sum.inl r) :
    r.2 = some unclosedStringErr ∨ '"' ∈ l := by
  rcases l with _ | ⟨c, l1⟩
  · rw [lexStringStep] at h
    left; rw [← Sum.inl.inj h]
  rw [lexStringStep] at h
  by_cases hq : (c == '"') = true
  · right
    have : c = '"' := by simpa using hq
    simp [this]
  rw [if_neg hq] at h
  by_cases hb : (c == '\\') = true
  · rw [if_pos hb] at h
    left
    obtain ⟨-, hr⟩ := lexStringEsc_inl l1 err r h
    rw [hr]
  · rw [if_neg hb] at h
    exact absurd h (by simp)

theorem lexStringStep_inr (l : List Char) (err : Option SyntaxError)
    (n : Nat) (e2 : Option SyntaxError) (l2 : List Char)
    (h : lexStringStep l err = Sum.inr (n, e2, l2)) :
    l2.length < l.length ∧ 1 ≤ n ∧ ∀ x, x ∈ l2 → x ∈ l := by
  rcases l with _ | ⟨c, l1⟩
  · rw [lexStringStep] at h; exact absurd h (by simp)
  rw [lexStringStep] at h
  by_cases hq : (c == '"') = true
  · rw [if_pos hq] at h; exact absurd h (by simp)
  rw [if_neg hq] at h
  by_cases hb : (c == '\\') = true
  · rw [if_pos hb] at h
    obtain ⟨h1, h2, h3⟩ := lexStringEsc_inr l1 err n e2 l2 h
    exact ⟨by rw [List.length_cons]; omega, h2,
      fun x hx => List.mem_cons_of_mem _ (h3 x hx)⟩
  · rw [if_neg hb] at h
    simp only [Sum.inr.injEq, Prod.mk.injEq] at h
    obtain ⟨hn, he, hl⟩ := h
    subst hn; subst hl
    exact ⟨by rw [List.length_cons]; omega, by omega,
      fun x hx => List.mem_cons_of_mem _ hx⟩

/-- The wrapper budget suffices: any budget beyond the input length gives
the same result, so the budget-zero line of `lexStringGoF` is unreachable
from `lexStringGo`. -/
theorem lexStringGoF_congr (f : Nat) :
    ∀ (g : Nat) (l : List Char) (err : Option SyntaxError),
    l.length < f → l.length < g →
    lexStringGoF f l err = lexStringGoF g l err := by
  induction f with
  | zero => intro g l err hf _; omega
  | succ f ih =>
    intro g l err hf hg
    rcases g with _ | g
    · omega
    simp only [lexStringGoF]
    rcases hstep : lexStringStep l err with r | ⟨n, e2, l2⟩
    · rfl
    · obtain ⟨h1, -, -⟩ := lexStringStep_inr l err n e2 l2 hstep
      show ((lexStringGoF f l2 e2).1 + n, (lexStringGoF f l2 e2).2) =
        ((lexStringGoF g l2 e2).1 + n, (lexStringGoF g l2 e2).2)
      rw [ih g l2 e2 (by omega) (by omega)]

theorem lexStringGoF_unclosed (f : Nat) :
    ∀ (l : List Char) (err : Option SyntaxError), l.length < f → '"' ∉ l →
    (lexStringGoF f l err).2 = some unclosedStringErr := by
  induction f with
  | zero => intro l err hf _; omega
  | succ f ih =>
    intro l err hf hq
    simp only [lexStringGoF]
    rcases hstep : lexStringStep l err with r | ⟨n, e2, l2⟩
    · rcases lexStringStep_inl l err r hstep with h | h
      · exact h
      · exact absurd h hq
    · obtain ⟨h1, -, h3⟩ := lexStringStep_inr l err n e2 l2 hstep
      show (lexStringGoF f l2 e2).2 = some unclosedStringErr
      exact ih l2 e2 (by omega) (fun hx => hq (h3 _ hx))

set_option maxHeartbeats 1000000

theorem lexNext_eq_cons (s : Scanner) (c : Char) (l : List Char)
    (hr : s.rest = c :: l) : lexNext s = lexNextCons s c l := by
  unfold lexNext
  rw [hr]

/-- Every cons-step of the lexer is a consuming `mkTok`, a `lexAction`
whose trigger ends past the cursor, or an identifier leaf: the one case
split over the classifier's arms that the liveness lemmas share. -/
theorem lexNextCons_shape (s : Scanner) (c : Char) (l : List Char) :
    (∃ k n e, lexNextCons s c l = mkTok s k n e ∧ 1 ≤ n ∧
      k ≠ SyntaxKind.If ∧ k ≠ SyntaxKind.End ∧ k ≠ SyntaxKind.Rule ∧
      (k.isError = true → e.isSome = true)) ∨
    (∃ cu k2, lexNextCons s c l = lexAction s.input s.cursor cu k2 ∧
      s.cursor < cu ∧ k2.isError = false) ∨
    (∃ kl, lexNextCons s c l =
      (SyntaxNode.leaf SyntaxKind.Identifier (c :: l.take kl)
        (s.cursor, s.cursor + 1 + kl),
       (⟨s.input, s.cursor + 1 + kl⟩ : Scanner))) := by
  suffices h : ∀ out, out = lexNextCons s c l →
      ((∃ k n e, out = mkTok s k n e ∧ 1 ≤ n ∧
        k ≠ SyntaxKind.If ∧ k ≠ SyntaxKind.End ∧ k ≠ SyntaxKind.Rule ∧
        (k.isError = true → e.isSome = true)) ∨
      (∃ cu k2, out = lexAction s.input s.cursor cu k2 ∧ s.cursor < cu ∧
        k2.isError = false) ∨
      (∃ kl, out =
        (SyntaxNode.leaf SyntaxKind.Identifier (c :: l.take kl)
          (s.cursor, s.cursor + 1 + kl),
         (⟨s.input, s.cursor + 1 + kl⟩ : Scanner)))) by
    exact h _ rfl
  intro out hout
  unfold lexNextCons at hout
  by_cases h1 : rustIsWhitespace c = true
  · rw [if_pos h1] at hout
    exact Or.inl ⟨_, _, _, hout, by omega, by decide, by decide, by decide,
      by intro hh; first | rfl | exact absurd hh (by decide)⟩
  rw [if_neg h1] at hout
  by_cases h2 : (c == '/' && l.head? == some '/') = true
  · rw [if_pos h2] at hout
    exact Or.inl ⟨_, _, _, hout, by omega, by decide, by decide, by decide,
      by intro hh; first | rfl | exact absurd hh (by decide)⟩
  rw [if_neg h2] at hout
  by_cases h3 : (c == '/' && l.head? == some '*') = true
  · rw [if_pos h3] at hout
    split_ifs at hout <;>
      exact Or.inl ⟨_, _, _, hout, by omega, by decide, by decide, by decide,
      by intro hh; first | rfl | exact absurd hh (by decide)⟩
  rw [if_neg h3] at hout
  by_cases h4 : (c == '*' && l.head? == some '/') = true
  · rw [if_pos h4] at hout
    exact Or.inl ⟨_, _, _, hout, by omega, by decide, by decide, by decide,
      by intro hh; first | rfl | exact absurd hh (by decide)⟩
  rw [if_neg h4] at hout
  by_cases h5 : (c == '"') = true
  · rw [if_pos h5] at hout
    exact Or.inl ⟨_, _, _, hout, by omega, by decide, by decide, by decide,
      by intro hh; first | rfl | exact absurd hh (by decide)⟩
  rw [if_neg h5] at hout
  by_cases h6 : rustIsNumeric c = true
  · rw [if_pos h6] at hout
    exact Or.inl ⟨_, _, _, hout, by omega, by decide, by decide, by decide,
      by intro hh; first | rfl | exact absurd hh (by decide)⟩
  rw [if_neg h6] at hout
  by_cases h7 : (c == '<') = true
  · rw [if_pos h7] at hout
    split_ifs at hout <;>
      exact Or.inl ⟨_, _, _, hout, by omega, by decide, by decide, by decide,
      by intro hh; first | rfl | exact absurd hh (by decide)⟩
  rw [if_neg h7] at hout
  by_cases h8 : isIdStart c = true
  · rw [if_pos h8] at hout
    split_ifs at hout
    · exact Or.inr (Or.inl ⟨_, _, hout, by omega, by decide⟩)
    · exact Or.inr (Or.inr ⟨_, hout⟩)
  rw [if_neg h8] at hout
  by_cases h9 : (c == '-' && l.head? == some '>') = true
  · rw [if_pos h9] at hout
    exact Or.inr (Or.inl ⟨_, _, hout, by omega, by decide⟩)
  rw [if_neg h9] at hout
  by_cases h10 : (c == ':') = true
  · rw [if_pos h10] at hout
    exact Or.inl ⟨_, _, _, hout, by omega, by decide, by decide, by decide,
      by intro hh; first | rfl | exact absurd hh (by decide)⟩
  rw [if_neg h10] at hout
  by_cases h11 : (c == ';') = true
  · rw [if_pos h11] at hout
    exact Or.inl ⟨_, _, _, hout, by omega, by decide, by decide, by decide,
      by intro hh; first | rfl | exact absurd hh (by decide)⟩
  rw [if_neg h11] at hout
  by_cases h12 : (c == '(') = true
  · rw [if_pos h12] at hout
    exact Or.inl ⟨_, _, _, hout, by omega, by decide, by decide, by decide,
      by intro hh; first | rfl | exact absurd hh (by decide)⟩
  rw [if_neg h12] at hout
  by_cases h13 : (c == ')') = true
  · rw [if_pos h13] at hout
    exact Or.inl ⟨_, _, _, hout, by omega, by decide, by decide, by decide,
      by intro hh; first | rfl | exact absurd hh (by decide)⟩
  rw [if_neg h13] at hout
  by_cases h14 : (c == '\x7b') = true
  · rw [if_pos h14] at hout
    exact Or.inl ⟨_, _, _, hout, by omega, by decide, by decide, by decide,
      by intro hh; first | rfl | exact absurd hh (by decide)⟩
  rw [if_neg h14] at hout
  by_cases h15 : (c == '\x7d') = true
  · rw [if_pos h15] at hout
    exact Or.inl ⟨_, _, _, hout, by omega, by decide, by decide, by decide,
      by intro hh; first | rfl | exact absurd hh (by decide)⟩
  rw [if_neg h15] at hout
  by_cases h16 : (c == ',') = true
  · rw [if_pos h16] at hout
    exact Or.inl ⟨_, _, _, hout, by omega, by decide, by decide, by decide,
      by intro hh; first | rfl | exact absurd hh (by decide)⟩
  rw [if_neg h16] at hout
  by_cases h17 : (c == '|') = true
  · rw [if_pos h17] at hout
    exact Or.inl ⟨_, _, _, hout, by omega, by decide, by decide, by decide,
      by intro hh; first | rfl | exact absurd hh (by decide)⟩
  rw [if_neg h17] at hout
  by_cases h18 : (c == '~') = true
  · rw [if_pos h18] at hout
    exact Or.inl ⟨_, _, _, hout, by omega, by decide, by decide, by decide,
      by intro hh; first | rfl | exact absurd hh (by decide)⟩
  rw [if_neg h18] at hout
  by_cases h19 : (c == '.' && l.head? == some '.') = true
  · rw [if_pos h19] at hout
    exact Or.inl ⟨_, _, _, hout, by omega, by decide, by decide, by decide,
      by intro hh; first | rfl | exact absurd hh (by decide)⟩
  rw [if_neg h19] at hout
  by_cases h20 : (c == '.') = true
  · rw [if_pos h20] at hout
    exact Or.inl ⟨_, _, _, hout, by omega, by decide, by decide, by decide,
      by intro hh; first | rfl | exact absurd hh (by decide)⟩
  rw [if_neg h20] at hout
  by_cases h21 : (c == '*') = true
  · rw [if_pos h21] at hout
    exact Or.inl ⟨_, _, _, hout, by omega, by decide, by decide, by decide,
      by intro hh; first | rfl | exact absurd hh (by decide)⟩
  rw [if_neg h21] at hout
  by_cases h22 : (c == '+') = true
  · rw [if_pos h22] at hout
    exact Or.inl ⟨_, _, _, hout, by omega, by decide, by decide, by decide,
      by intro hh; first | rfl | exact absurd hh (by decide)⟩
  rw [if_neg h22] at hout
  by_cases h23 : (c == '?' && l.head? == some '=') = true
  · rw [if_pos h23] at hout
    exact Or.inl ⟨_, _, _, hout, by omega, by decide, by decide, by decide,
      by intro hh; first | rfl | exact absurd hh (by decide)⟩
  rw [if_neg h23] at hout
  by_cases h24 : (c == '?' && l.head? == some '!') = true
  · rw [if_pos h24] at hout
    exact Or.inl ⟨_, _, _, hout, by omega, by decide, by decide, by decide,
      by intro hh; first | rfl | exact absurd hh (by decide)⟩
  rw [if_neg h24] at hout
  by_cases h25 : (c == '?' && l.take 2 = ['<', '=']) = true
  · rw [if_pos h25] at hout
    exact Or.inl ⟨_, _, _, hout, by omega, by decide, by decide, by decide,
      by intro hh; first | rfl | exact absurd hh (by decide)⟩
  rw [if_neg h25] at hout
  by_cases h26 : (c == '?' && l.take 2 = ['<', '!']) = true
  · rw [if_pos h26] at hout
    exact Or.inl ⟨_, _, _, hout, by omega, by decide, by decide, by decide,
      by intro hh; first | rfl | exact absurd hh (by decide)⟩
  rw [if_neg h26] at hout
  by_cases h27 : (c == '?') = true
  · rw [if_pos h27] at hout
    exact Or.inl ⟨_, _, _, hout, by omega, by decide, by decide, by decide,
      by intro hh; first | rfl | exact absurd hh (by decide)⟩
  rw [if_neg h27] at hout
  exact Or.inl ⟨_, _, _, hout, by omega, by decide, by decide, by decide,
      by intro hh; first | rfl | exact absurd hh (by decide)⟩

theorem lexNextCons_input (s : Scanner) (c : Char) (l : List Char) :
    (lexNextCons s c l).2.input = s.input := by
  rcases lexNextCons_shape s c l with ⟨k, n, e, he, -, -, -, -, -⟩ |
      ⟨cu, k2, he, -, -⟩ | ⟨kl, he⟩ <;> rw [he] <;>
    simp [mkTok_snd, lexAction]

theorem lexNextCons_progress (s : Scanner) (c : Char) (l : List Char) :
    s.cursor < (lexNextCons s c l).2.cursor := by
  rcases lexNextCons_shape s c l with ⟨k, n, e, he, hn, -, -, -, -⟩ |
      ⟨cu, k2, he, hcu, -⟩ | ⟨kl, he⟩ <;> rw [he] <;>
    simp [mkTok_snd, lexAction] <;> omega

theorem lexNextCons_spanStart (s : Scanner) (c : Char) (l : List Char) :
    (lexNextCons s c l).1.spanStart = s.cursor := by
  rcases lexNextCons_shape s c l with ⟨k, n, e, he, -, -, -, -, -⟩ |
      ⟨cu, k2, he, -, -⟩ | ⟨kl, he⟩ <;> rw [he]
  · rw [mkTok_spanStart]
  · rw [lexAction_spanStart]
  · rfl

theorem lexNextCons_kind_ne_if (s : Scanner) (c : Char) (l : List Char) :
    (lexNextCons s c l).1.kind ≠ SyntaxKind.If := by
  rcases lexNextCons_shape s c l with ⟨k, n, e, he, -, hk, -, -, -⟩ |
      ⟨cu, k2, he, -, -⟩ | ⟨kl, he⟩ <;> rw [he]
  · rw [mkTok_kind]
    cases e <;> simp <;> exact hk
  · rw [lexAction_kind]
    decide
  · simp [SyntaxNode.kind]

theorem lexNextCons_kind_ne_end (s : Scanner) (c : Char) (l : List Char) :
    (lexNextCons s c l).1.kind ≠ SyntaxKind.End := by
  rcases lexNextCons_shape s c l with ⟨k, n, e, he, -, -, hk, -, -⟩ |
      ⟨cu, k2, he, -, -⟩ | ⟨kl, he⟩ <;> rw [he]
  · rw [mkTok_kind]
    cases e <;> simp <;> exact hk
  · rw [lexAction_kind]
    decide
  · simp [SyntaxNode.kind]

/-- At the end of input the lexer answers a zero-width `End` leaf and stays
put. -/
theorem lexNext_end (s : Scanner) (h : s.rest = []) :
    lexNext s = (SyntaxNode.leaf SyntaxKind.End [] (s.cursor, s.cursor), s) := by
  unfold lexNext
  rw [h]

/-- On non-empty remaining input the lexer consumes at least one
character. -/
theorem lexNext_progress (s : Scanner) (h : s.rest ≠ []) :
    s.cursor < (lexNext s).2.cursor := by
  rcases hr : s.rest with _ | ⟨c, l⟩
  · exact absurd hr h
  · rw [lexNext_eq_cons s c l hr]
    exact lexNextCons_progress s c l

/-- The lexer leaves the input alone. -/
theorem lexNext_input (s : Scanner) : (lexNext s).2.input = s.input := by
  rcases hr : s.rest with _ | ⟨c, l⟩
  · rw [lexNext_end s hr]
  · rw [lexNext_eq_cons s c l hr]
    exact lexNextCons_input s c l

/-- Every token starts where the lexer stood. -/
theorem lexNext_spanStart (s : Scanner) :
    (lexNext s).1.spanStart = s.cursor := by
  rcases hr : s.rest with _ | ⟨c, l⟩
  · rw [lexNext_end s hr]
    rfl
  · rw [lexNext_eq_cons s c l hr]
    exact lexNextCons_spanStart s c l

/-- The lexer never produces a bare `If` token: `if` always arrives inside
an `Action` composite whose own kind is `Action`. -/
theorem lexNext_kind_ne_if (s : Scanner) :
    (lexNext s).1.kind ≠ SyntaxKind.If := by
  rcases hr : s.rest with _ | ⟨c, l⟩
  · rw [lexNext_end s hr]
    simp [SyntaxNode.kind]
  · rw [lexNext_eq_cons s c l hr]
    exact lexNextCons_kind_ne_if s c l

/-- Only the end of input produces an `End` token. -/
theorem lexNext_end_kind (s : Scanner)
    (h : (lexNext s).1.kind = SyntaxKind.End) : s.rest = [] := by
  rcases hr : s.rest with _ | ⟨c, l⟩
  · rfl
  · rw [lexNext_eq_cons s c l hr] at h
    exact absurd h (lexNextCons_kind_ne_end s c l)

/-! ### Node honesty lemmas -/

theorem HonestN.asError_of_kind {n : SyntaxNode} (hn : HonestN n)
    (hk : n.kind = SyntaxKind.Error) : n.asError.isSome = true := by
  cases hn with
  | leaf k t sp hk2 =>
    rw [show (SyntaxNode.leaf k t sp).kind = k from rfl] at hk
    rw [hk] at hk2
    exact absurd hk2 (by decide)
  | error e t sp => rfl
  | inner k sp er cs hk2 _ =>
    rw [show (SyntaxNode.inner k sp er cs).kind = k from rfl] at hk
    rw [hk] at hk2
    exact absurd hk2 (by decide)

theorem mkTok_good (s : Scanner) (k : SyntaxKind) (n : Nat)
    (e : Option SyntaxError) (he : k.isError = true → e.isSome = true)
    (hk : k ≠ SyntaxKind.Rule) :
    HonestN (mkTok s k n e).1 ∧ (mkTok s k n e).1.kind ≠ SyntaxKind.Rule := by
  cases e with
  | some err =>
    exact ⟨HonestN.error _ _ _, by rw [mkTok_kind]; simp⟩
  | none =>
    refine ⟨HonestN.leaf k _ _ ?_, by rw [mkTok_kind]; simpa using hk⟩
    cases hq : k.isError
    · rfl
    · exact absurd (he hq) (by decide)

theorem lexAction_good (inp : List Char) (st cu : Nat) (k : SyntaxKind)
    (hk : k.isError = false) :
    HonestN (lexAction inp st cu k).1 ∧
    (lexAction inp st cu k).1.kind ≠ SyntaxKind.Rule := by
  refine ⟨HonestN.inner _ _ _ _ (by decide) ?_, by rw [lexAction_kind]; decide⟩
  intro c hc
  simp only [List.mem_cons, List.not_mem_nil, or_false] at hc
  rcases hc with hc | hc
  · subst hc
    exact HonestN.leaf _ _ _ hk
  · subst hc
    exact HonestN.leaf _ _ _ (by decide)

theorem mkInner_honest (k : SyntaxKind) (cs : List SyntaxNode)
    (hk : k.isError = false) (hcs : ∀ c ∈ cs, HonestN c) :
    HonestN (SyntaxNode.mkInner k cs) :=
  HonestN.inner _ _ _ _ hk hcs

theorem mkInner_kind (k : SyntaxKind) (cs : List SyntaxNode) :
    (SyntaxNode.mkInner k cs).kind = k := rfl

theorem mkInner_children (k : SyntaxKind) (cs : List SyntaxNode) :
    (SyntaxNode.mkInner k cs).children = cs := rfl

theorem mkInner_erroneous (k : SyntaxKind) (cs : List SyntaxNode) :
    (SyntaxNode.mkInner k cs).erroneous = cs.any SyntaxNode.erroneous := rfl

theorem convertKind_honest (n : SyntaxNode) (k : SyntaxKind)
    (hn : HonestN n) (hk : k.isError = false) :
    HonestN (n.convertKind k) := by
  cases hn with
  | leaf k2 t sp hk2 => exact HonestN.leaf _ _ _ hk
  | error e t sp => exact HonestN.error _ _ _
  | inner k2 sp er cs hk2 hcs => exact HonestN.inner _ _ _ _ hk hcs

theorem convertKind_kind (n : SyntaxNode) (k : SyntaxKind)
    (h : n.kind ≠ SyntaxKind.Error) : (n.convertKind k).kind = k := by
  cases n with
  | leaf k2 t sp => rfl
  | inner k2 sp er cs => rfl
  | error e t sp => exact absurd rfl h

theorem convertKind_erroneous (n : SyntaxNode) (k : SyntaxKind) :
    (n.convertKind k).erroneous = n.erroneous := by
  cases n <;> rfl

theorem convertToError_honest (n : SyntaxNode) (msg : String) :
    HonestN (n.convertToError msg) := by
  cases n with
  | leaf k t sp => exact HonestN.error _ _ _
  | inner k sp er cs => exact HonestN.error _ _ _
  | error e t sp => exact HonestN.error _ _ _

theorem convertToError_kind (n : SyntaxNode) (msg : String) :
    (n.convertToError msg).kind = SyntaxKind.Error := by
  cases n <;> rfl

theorem convertToError_erroneous (n : SyntaxNode) (msg : String) :
    (n.convertToError msg).erroneous = true := by
  cases n <;> rfl

theorem addHint_honest (n : SyntaxNode) (h : String) (hn : HonestN n) :
    HonestN (n.addHint h) := by
  cases hn with
  | leaf k t sp hk => exact HonestN.leaf _ _ _ hk
  | error e t sp => exact HonestN.error _ _ _
  | inner k sp er cs hk hcs => exact HonestN.inner _ _ _ _ hk hcs

theorem addHint_kind (n : SyntaxNode) (h : String) :
    (n.addHint h).kind = n.kind := by
  cases n <;> rfl

theorem addHint_erroneous (n : SyntaxNode) (h : String) :
    (n.addHint h).erroneous = n.erroneous := by
  cases n <;> rfl

theorem lexNextCons_good (s : Scanner) (c : Char) (l : List Char) :
    HonestN (lexNextCons s c l).1 ∧
    (lexNextCons s c l).1.kind ≠ SyntaxKind.Rule := by
  rcases lexNextCons_shape s c l with ⟨k, n, e, he, -, -, -, hr, herr⟩ |
      ⟨cu, k2, he, -, hk2⟩ | ⟨kl, he⟩ <;> rw [he]
  · exact mkTok_good s k n e herr hr
  · exact lexAction_good s.input s.cursor cu k2 hk2
  · exact ⟨HonestN.leaf _ _ _ (by decide), by simp [SyntaxNode.kind]⟩

theorem lexNext_good (s : Scanner) :
    HonestN (lexNext s).1 ∧ (lexNext s).1.kind ≠ SyntaxKind.Rule := by
  rcases hr : s.rest with _ | ⟨c, l⟩
  · rw [lexNext_end s hr]
    exact ⟨HonestN.leaf _ _ _ (by decide), by simp [SyntaxNode.kind]⟩
  · rw [lexNext_eq_cons s c l hr]
    exact lexNextCons_good s c l

/-- The remaining-input count and the rest list. -/
theorem Scanner.rest_ne_nil_iff (s : Scanner) :
    s.rest ≠ [] ↔ s.cursor < s.input.length := by
  rw [Scanner.rest]
  constructor
  · intro h
    by_contra hc
    exact h (List.drop_eq_nil_of_le (by omega))
  · intro h hc
    have := congrArg List.length hc
    rw [List.length_drop] at this
    simp at this
    omega

/-! ### Parser-eat lemmas -/

theorem eatGoF_spec (f : Nat) : ∀ (s : Scanner), s.remaining < f →
    ∃ tr tok s2, eatGoF f s = some (tr, tok, s2) ∧
      s2.input = s.input ∧
      s.cursor ≤ tok.spanStart ∧ tok.spanStart ≤ s2.cursor ∧
      (s.rest ≠ [] → s.cursor < s2.cursor) ∧
      (tok.kind ≠ SyntaxKind.End → s.cursor < s2.cursor) ∧
      (s.rest = [] → tok.kind = SyntaxKind.End) ∧
      (tok.kind = SyntaxKind.End → tok.spanStart = s2.cursor ∧
        s2.rest = []) ∧
      HonestN tok ∧ tok.kind ≠ SyntaxKind.Rule ∧ tok.kind ≠ SyntaxKind.If ∧
      tok.kind.isTrivia = false ∧
      (∀ n ∈ tr, n.kind.isTrivia = true ∧ HonestN n) := by
  induction f with
  | zero => intro s h; omega
  | succ f ih =>
    intro s hf
    by_cases ht : (lexNext s).1.kind.isTrivia = true
    · have hrne : s.rest ≠ [] := by
        intro hr
        rw [lexNext_end s hr] at ht
        simp [SyntaxNode.kind, SyntaxKind.isTrivia] at ht
      have hprog := lexNext_progress s hrne
      have hinput := lexNext_input s
      have hcur : s.cursor < s.input.length := (Scanner.rest_ne_nil_iff s).mp hrne
      have hrem : (lexNext s).2.remaining < f := by
        rw [Scanner.remaining] at hf ⊢
        rw [hinput]
        omega
      obtain ⟨tr2, tok, s2, hgo, h1, h2, h3, h4, h5, h6, h7, h8, h9, h10,
        h11, h12⟩ := ih (lexNext s).2 hrem
      refine ⟨(lexNext s).1 :: tr2, tok, s2, ?_, h1.trans hinput, by omega,
        h3, fun _ => by omega, fun _ => by omega,
        fun hr => absurd hr hrne, h7, h8, h9, h10, h11, ?_⟩
      · rw [eatGoF, if_pos ht, hgo]
        rfl
      · intro n hn
        rcases List.mem_cons.mp hn with hn | hn
        · subst hn
          exact ⟨ht, (lexNext_good s).1⟩
        · exact h12 n hn
    · have hstart := lexNext_spanStart s
      refine ⟨[], (lexNext s).1, (lexNext s).2, ?_, lexNext_input s,
        le_of_eq hstart.symm, ?_, ?_, ?_, ?_, ?_, (lexNext_good s).1,
        (lexNext_good s).2, lexNext_kind_ne_if s,
        by cases hq : (lexNext s).1.kind.isTrivia
           · rfl
           · exact absurd hq ht,
        by intro n hn; exact absurd hn (List.not_mem_nil n)⟩
      · rw [eatGoF, if_neg ht]
      · rcases hr : s.rest with _ | ⟨c, l⟩
        · rw [lexNext_end s hr]
          exact Nat.le_refl s.cursor
        · have := lexNext_progress s (by rw [hr]; simp)
          omega
      · intro hr
        exact lexNext_progress s hr
      · intro hk
        rcases hr : s.rest with _ | ⟨c, l⟩
        · rw [lexNext_end s hr] at hk
          exact absurd rfl hk
        · exact lexNext_progress s (by rw [hr]; simp)
      · intro hr
        rw [lexNext_end s hr]
        rfl
      · intro hk
        have hr := lexNext_end_kind s hk
        rw [lexNext_end s hr]
        exact ⟨rfl, hr⟩

theorem eat_spec (p : PState) :
    ∃ k q tr tok, p.eat = some (k, q) ∧
      q.lx.input = p.lx.input ∧
      p.lx.cursor ≤ q.lx.cursor ∧
      (p.lx.rest ≠ [] → p.lx.cursor < q.lx.cursor) ∧
      (k ≠ SyntaxKind.End → p.lx.cursor < q.lx.cursor) ∧
      (p.lx.rest = [] → k = SyntaxKind.End) ∧
      (k = SyntaxKind.End → tok.spanStart = q.lx.cursor ∧ q.lx.rest = []) ∧
      q.nodes = p.nodes ++ tr ++ [tok] ∧ tok.kind = k ∧
      p.lx.cursor ≤ tok.spanStart ∧ tok.spanStart ≤ q.lx.cursor ∧
      HonestN tok ∧ k ≠ SyntaxKind.Rule ∧ k ≠ SyntaxKind.If ∧
      k.isTrivia = false ∧
      (∀ n ∈ tr, n.kind.isTrivia = true ∧ HonestN n) := by
  obtain ⟨tr, tok, s2, hgo, h1, h2, h3, h4, h5, h6, h7, h8, h9, h10, h11,
    h12⟩ := eatGoF_spec (p.lx.remaining + 1) p.lx (by omega)
  refine ⟨tok.kind, ⟨s2, p.nodes ++ tr ++ [tok]⟩, tr, tok, ?_, h1, ?_, h4,
    h5, h6, h7, rfl, rfl, h2, h3, h8, h9, h10, h11, h12⟩
  · rw [PState.eat, hgo]
    rfl
  · exact le_trans h2 h3

theorem uneat_after_eat (p : PState) (base : List SyntaxNode)
    (tr : List SyntaxNode) (tok : SyntaxNode)
    (hq : p.nodes = base ++ tr ++ [tok]) :
    p.uneat = some ⟨p.lx.jump tok.spanStart, base ++ tr⟩ := by
  rw [PState.uneat, hq, show ((base ++ tr ++ [tok]).getLast?) = some tok from
    List.getLast?_concat _]
  simp [List.dropLast_concat]

theorem Step.trans2 {p q r : PState} (h1 : Step p q) (h2 : Step q r) :
    Step p r :=
  ⟨h2.1.trans h1.1, le_trans h1.2 h2.2⟩

theorem isTrivia_ne_rule (k : SyntaxKind) (h : k.isTrivia = true) :
    k ≠ SyntaxKind.Rule := by
  intro hk
  subst hk
  exact absurd h (by decide)

theorem GoodSt_append (base : Nat) (p : PState) (hg : GoodSt base p)
    (lx2 : Scanner) (d : List SyntaxNode)
    (hd : ∀ n ∈ d, HonestN n ∧ n.kind ≠ SyntaxKind.Rule) :
    GoodSt base ⟨lx2, p.nodes ++ d⟩ ∧
      (p.nodes ++ d).take base = p.nodes.take base := by
  obtain ⟨hb, hn⟩ := hg
  refine ⟨⟨by simp only [List.length_append]; omega, ?_⟩,
    List.take_append_of_le_length hb⟩
  intro n hmem
  rw [show (⟨lx2, p.nodes ++ d⟩ : PState).nodes = p.nodes ++ d from rfl,
    List.drop_append_of_le_length hb] at hmem
  rcases List.mem_append.mp hmem with h | h
  · exact hn n h
  · exact hd n h

theorem modifyLast_concat (p : PState) (X : List SyntaxNode)
    (tok : SyntaxNode) (f : SyntaxNode → SyntaxNode)
    (h : p.nodes = X ++ [tok]) :
    p.modifyLast f = some ⟨p.lx, X ++ [f tok]⟩ := by
  rw [PState.modifyLast, h, List.getLast?_concat]
  simp [List.dropLast_concat]

theorem lastKind_concat (p : PState) (X : List SyntaxNode)
    (tok : SyntaxNode) (h : p.nodes = X ++ [tok]) :
    p.lastKind = some tok.kind := by
  rw [PState.lastKind, h, List.getLast?_concat]
  rfl

theorem hintLast_concat (p : PState) (X : List SyntaxNode)
    (tok : SyntaxNode) (hint : String) (h : p.nodes = X ++ [tok]) :
    p.hintLast hint = ⟨p.lx, X ++ [tok.addHint hint]⟩ := by
  rw [PState.hintLast, h, List.getLast?_concat]
  simp [List.dropLast_concat]

theorem eatIf_spec (p : PState) (pat : Pattern) (base : Nat)
    (hg : GoodSt base p) :
    ∃ b q, p.eatIf pat = some (b, q) ∧ Step p q ∧ GoodSt base q ∧
      q.nodes.take base = p.nodes.take base ∧
      p.nodes.length ≤ q.nodes.length ∧
      (b = true → ∃ tr tok, q.nodes = p.nodes ++ tr ++ [tok] ∧
        pat.test tok.kind = true ∧ HonestN tok ∧
        tok.kind ≠ SyntaxKind.Rule ∧
        (∀ n ∈ tr, n.kind.isTrivia = true ∧ HonestN n)) ∧
      (b = false → ∃ tr, q.nodes = p.nodes ++ tr ∧
        (∀ n ∈ tr, n.kind.isTrivia = true ∧ HonestN n)) := by
  obtain ⟨k, q1, tr, tok, heat, hin, hcur, hstr, hstr2, hrk, hek, hnodes,
    hkind, hsp1, hsp2, hht, hkr, hki, hkt, htr⟩ := eat_spec p
  rw [PState.eatIf, heat]
  by_cases hp : pat.test k = true
  · refine ⟨true, q1, ?_, ⟨hin, hcur⟩, ?_, ?_, ?_, ?_, ?_⟩
    · simp [Option.bind, hp]
    · have := GoodSt_append base p hg q1.lx (tr ++ [tok]) ?_
      · rcases q1 with ⟨lxq, nodesq⟩
        have hn : nodesq = p.nodes ++ (tr ++ [tok]) := by
          simpa [List.append_assoc] using hnodes
        subst hn
        exact this.1
      · intro n hn
        rcases List.mem_append.mp hn with h | h
        · exact ⟨(htr n h).2, isTrivia_ne_rule _ (htr n h).1⟩
        · rcases List.mem_singleton.mp h with rfl
          exact ⟨hht, by rw [hkind]; exact hkr⟩
    · rw [hnodes]
      have hb := hg.1
      rw [List.append_assoc, List.take_append_of_le_length hb]
    · rw [hnodes]
      simp [List.length_append]
    · intro _
      exact ⟨tr, tok, hnodes, by rw [hkind]; exact hp, hht,
        by rw [hkind]; exact hkr, htr⟩
    · intro hfalse
      exact absurd hfalse (by simp)
  · have hun := uneat_after_eat q1 p.nodes tr tok hnodes
    refine ⟨false, ⟨q1.lx.jump tok.spanStart, p.nodes ++ tr⟩, ?_, ?_, ?_,
      ?_, ?_, ?_, ?_⟩
    · simp [Option.bind, hp, hun]
    · exact ⟨hin, hsp1⟩
    · exact (GoodSt_append base p hg _ tr
        (fun n h => ⟨(htr n h).2, isTrivia_ne_rule _ (htr n h).1⟩)).1
    · exact (GoodSt_append base p hg (q1.lx.jump tok.spanStart) tr
        (fun n h => ⟨(htr n h).2, isTrivia_ne_rule _ (htr n h).1⟩)).2
    · simp [List.length_append]
    · intro htrue
      exact absurd htrue (by simp)
    · intro _
      exact ⟨tr, rfl, htr⟩

theorem expect_spec (p : PState) (pat : Pattern) (base : Nat)
    (hname : pat.nameStr.isSome = true) (hg : GoodSt base p) :
    ∃ q tr tok2, p.expect pat = some q ∧ Step p q ∧ GoodSt base q ∧
      q.nodes.take base = p.nodes.take base ∧
      (p.lx.rest ≠ [] → p.lx.cursor < q.lx.cursor) ∧
      q.nodes = p.nodes ++ tr ++ [tok2] ∧
      (∀ n ∈ tr, n.kind.isTrivia = true ∧ HonestN n) ∧
      HonestN tok2 ∧ tok2.kind ≠ SyntaxKind.Rule ∧
      ((pat.test tok2.kind = true ∧ tok2.kind ≠ SyntaxKind.If) ∨
        tok2.erroneous = true) := by
  obtain ⟨k, q1, tr, tok, heat, hin, hcur, hstr, hstr2, hrk, hek, hnodes,
    hkind, hsp1, hsp2, hht, hkr, hki, hkt, htr⟩ := eat_spec p
  by_cases hp : pat.test k = true
  · have hval : p.expect pat = some q1 := by
      rw [PState.expect, heat]
      simp [Option.bind, hp]
    have hgq1 := GoodSt_append base p hg q1.lx (tr ++ [tok])
      (fun n hn => by
        rcases List.mem_append.mp hn with h | h
        · exact ⟨(htr n h).2, isTrivia_ne_rule _ (htr n h).1⟩
        · rcases List.mem_singleton.mp h with rfl
          exact ⟨hht, by rw [hkind]; exact hkr⟩)
    have hq1eq : q1 = ⟨q1.lx, p.nodes ++ (tr ++ [tok])⟩ := by
      rcases q1 with ⟨lxq, nodesq⟩
      have hn : nodesq = p.nodes ++ (tr ++ [tok]) := by
        simpa [List.append_assoc] using hnodes
      rw [hn]
    refine ⟨q1, tr, tok, hval, ⟨hin, hcur⟩, ?_, ?_, hstr, hnodes, htr, hht,
      by rw [hkind]; exact hkr,
      Or.inl ⟨by rw [hkind]; exact hp, by rw [hkind]; exact hki⟩⟩
    · rw [hq1eq]
      exact hgq1.1
    · rw [hq1eq]
      exact hgq1.2
  · obtain ⟨nm, hnm⟩ := Option.isSome_iff_exists.mp hname
    have hlk : q1.lastKind = some tok.kind :=
      lastKind_concat q1 (p.nodes ++ tr) tok hnodes
    have hml := modifyLast_concat q1 (p.nodes ++ tr) tok
      (fun n => n.convertToError
        ("expected " ++ nm ++ ", found " ++ tok.kind.name)) hnodes
    have hval : p.expect pat = some ⟨q1.lx, p.nodes ++ tr ++
        [tok.convertToError
          ("expected " ++ nm ++ ", found " ++ tok.kind.name)]⟩ := by
      rw [PState.expect, heat]
      simp [Option.bind, hp, PState.expected, hnm, hlk, PState.errorLast,
        hml]
    refine ⟨_, tr, tok.convertToError
      ("expected " ++ nm ++ ", found " ++ tok.kind.name), hval,
      ⟨hin, hcur⟩, ?_, ?_, hstr, rfl, htr, convertToError_honest tok _,
      by rw [convertToError_kind]; simp,
      Or.inr (convertToError_erroneous tok _)⟩
    · have := GoodSt_append base p hg q1.lx
        (tr ++ [tok.convertToError
          ("expected " ++ nm ++ ", found " ++ tok.kind.name)])
        (fun n hn => by
          rcases List.mem_append.mp hn with h | h
          · exact ⟨(htr n h).2, isTrivia_ne_rule _ (htr n h).1⟩
          · rcases List.mem_singleton.mp h with rfl
            exact ⟨convertToError_honest tok _,
              by rw [convertToError_kind]; simp⟩)
      have heq : (⟨q1.lx, p.nodes ++ (tr ++ [tok.convertToError
          ("expected " ++ nm ++ ", found " ++ tok.kind.name)])⟩ : PState) =
          ⟨q1.lx, p.nodes ++ tr ++ [tok.convertToError
            ("expected " ++ nm ++ ", found " ++ tok.kind.name)]⟩ := by
        rw [List.append_assoc]
      rw [heq] at this
      exact this.1
    · have hb := hg.1
      rw [show (⟨q1.lx, p.nodes ++ tr ++ [tok.convertToError
          ("expected " ++ nm ++ ", found " ++ tok.kind.name)]⟩ :
          PState).nodes = p.nodes ++ (tr ++ [tok.convertToError
            ("expected " ++ nm ++ ", found " ++ tok.kind.name)]) from by
          rw [List.append_assoc],
        List.take_append_of_le_length hb]

theorem eatWhileF_spec (f : Nat) : ∀ (pat : Pattern) (p : PState)
    (base : Nat), pat.test SyntaxKind.End = false →
    p.lx.remaining < f → GoodSt base p →
    ∃ q, eatWhileF f pat p = some q ∧ Step p q ∧ GoodSt base q ∧
      q.nodes.take base = p.nodes.take base ∧
      ∃ tr, q.nodes = p.nodes ++ tr ∧
        (∀ n ∈ tr, HonestN n ∧ n.kind ≠ SyntaxKind.Rule) := by
  induction f with
  | zero => intro pat p base _ hf _; omega
  | succ f ih =>
    intro pat p base hpe hf hg
    obtain ⟨k, q1, tr, tok, heat, hin, hcur, hstr, hstr2, hrk, hek, hnodes,
      hkind, hsp1, hsp2, hht, hkr, hki, hkt, htr⟩ := eat_spec p
    by_cases hp : pat.test k = true
    · have hkE : k ≠ SyntaxKind.End := by
        intro h
        rw [h, hpe] at hp
        exact absurd hp (by simp)
      have hrne : p.lx.rest ≠ [] := fun h => hkE (hrk h)
      have hlen : p.lx.cursor < p.lx.input.length :=
        (Scanner.rest_ne_nil_iff p.lx).mp hrne
      have hstrict := hstr2 hkE
      have hrem : q1.lx.remaining < f := by
        rw [Scanner.remaining] at hf ⊢
        rw [hin]
        omega
      have hgq1 := GoodSt_append base p hg q1.lx (tr ++ [tok])
        (fun n hn => by
          rcases List.mem_append.mp hn with h | h
          · exact ⟨(htr n h).2, isTrivia_ne_rule _ (htr n h).1⟩
          · rcases List.mem_singleton.mp h with rfl
            exact ⟨hht, by rw [hkind]; exact hkr⟩)
      have hq1eq : q1 = ⟨q1.lx, p.nodes ++ (tr ++ [tok])⟩ := by
        rcases q1 with ⟨lxq, nodesq⟩
        have hn : nodesq = p.nodes ++ (tr ++ [tok]) := by
          simpa [List.append_assoc] using hnodes
        rw [hn]
      obtain ⟨q2, hrec, hstep2, hg2, htake2, tr2, hn2, htr2⟩ :=
        ih pat q1 base hpe hrem (by rw [hq1eq]; exact hgq1.1)
      have hval : eatWhileF (f + 1) pat p = some q2 := by
        rw [eatWhileF, heat]
        simp [Option.bind, hp, hrec]
      refine ⟨q2, hval, Step.trans2 ⟨hin, hcur⟩ hstep2, hg2, ?_,
        tr ++ [tok] ++ tr2, ?_, ?_⟩
      · rw [htake2, hq1eq]
        exact hgq1.2
      · rw [hn2, hnodes]
        simp [List.append_assoc]
      · intro n hn
        rcases List.mem_append.mp hn with h | h
        · rcases List.mem_append.mp h with h2 | h2
          · exact ⟨(htr n h2).2, isTrivia_ne_rule _ (htr n h2).1⟩
          · rcases List.mem_singleton.mp h2 with rfl
            exact ⟨hht, by rw [hkind]; exact hkr⟩
        · exact htr2 n h
    · have hun := uneat_after_eat q1 p.nodes tr tok hnodes
      have hval : eatWhileF (f + 1) pat p =
          some ⟨q1.lx.jump tok.spanStart, p.nodes ++ tr⟩ := by
        rw [eatWhileF, heat]
        simp [Option.bind, hp, hun]
      have hgq := GoodSt_append base p hg (q1.lx.jump tok.spanStart) tr
        (fun n h => ⟨(htr n h).2, isTrivia_ne_rule _ (htr n h).1⟩)
      exact ⟨_, hval, ⟨hin, hsp1⟩, hgq.1, hgq.2, tr, rfl,
        fun n h => ⟨(htr n h).2, isTrivia_ne_rule _ (htr n h).1⟩⟩

theorem Step.remaining_le {p q : PState} (h : Step p q) :
    q.lx.remaining ≤ p.lx.remaining := by
  rw [Scanner.remaining, Scanner.remaining, h.1]
  have := h.2
  omega

theorem wrap_good (p : PState) (m : Nat) (k : SyntaxKind) (base : Nat)
    (hg : GoodSt base p) (hbm : base ≤ m) (hm : m ≤ p.nodes.length)
    (hk : k.isError = false) (hkr : k ≠ SyntaxKind.Rule) :
    (p.wrap m k).lx = p.lx ∧
    (p.wrap m k).nodes = p.nodes.take m ++
      [SyntaxNode.mkInner k (p.nodes.drop m)] ∧
    GoodSt base (p.wrap m k) ∧
    (p.wrap m k).nodes.take base = p.nodes.take base ∧
    (p.wrap m k).nodes.length = m + 1 := by
  obtain ⟨hb, hn⟩ := hg
  have hmin : min m p.nodes.length = m := Nat.min_eq_left hm
  have hlx : (p.wrap m k).lx = p.lx := by
    rw [PState.wrap]
  have hnodes : (p.wrap m k).nodes = p.nodes.take m ++
      [SyntaxNode.mkInner k (p.nodes.drop m)] := by
    rw [PState.wrap]
    simp [hmin]
  have htklen : (p.nodes.take m).length = m := by
    rw [List.length_take, hmin]
  have hinner : HonestN (SyntaxNode.mkInner k (p.nodes.drop m)) := by
    apply mkInner_honest k _ hk
    intro c hc
    have hd : List.drop (m - base) (List.drop base p.nodes) =
        List.drop m p.nodes := by
      rw [List.drop_drop]
      congr 1
      omega
    have hc2 : c ∈ List.drop (m - base) (List.drop base p.nodes) := by
      rw [hd]
      exact hc
    exact (hn c (List.mem_of_mem_drop hc2)).1
  refine ⟨hlx, hnodes, ⟨?_, ?_⟩, ?_, ?_⟩
  · rw [hnodes]
    simp only [List.length_append, List.length_cons, List.length_nil,
      htklen]
    omega
  · intro n hmem
    rw [hnodes, List.drop_append_of_le_length (by omega)] at hmem
    rcases List.mem_append.mp hmem with h | h
    · have hdt : List.drop base (List.take m p.nodes) =
          List.take (m - base) (List.drop base p.nodes) := List.drop_take m base _
      exact hn n (List.mem_of_mem_take (by rw [← hdt]; exact h))
    · rcases List.mem_singleton.mp h with rfl
      exact ⟨hinner, by rw [mkInner_kind]; exact hkr⟩
  · rw [hnodes, List.take_append_of_le_length (by omega), List.take_take,
      Nat.min_eq_left hbm]
  · rw [hnodes]
    simp only [List.length_append, List.length_cons, List.length_nil,
      htklen]

theorem replaceLast_good (lx lx2 : Scanner) (X : List SyntaxNode)
    (tok tok2 : SyntaxNode) (base : Nat)
    (hg : GoodSt base (⟨lx, X ++ [tok]⟩ : PState)) (hbX : base ≤ X.length)
    (h2 : HonestN tok2) (hk2 : tok2.kind ≠ SyntaxKind.Rule) :
    GoodSt base (⟨lx2, X ++ [tok2]⟩ : PState) ∧
    (X ++ [tok2]).take base = (X ++ [tok]).take base := by
  obtain ⟨hb, hn⟩ := hg
  refine ⟨⟨by simp only [List.length_append]; omega, ?_⟩,
    by rw [List.take_append_of_le_length hbX,
      List.take_append_of_le_length hbX]⟩
  intro n hmem
  rw [show (⟨lx2, X ++ [tok2]⟩ : PState).nodes = X ++ [tok2] from rfl,
    List.drop_append_of_le_length hbX] at hmem
  rcases List.mem_append.mp hmem with h | h
  · refine hn n ?_
    rw [show (⟨lx, X ++ [tok]⟩ : PState).nodes = X ++ [tok] from rfl,
      List.drop_append_of_le_length hbX]
    exact List.mem_append_left _ h
  · rcases List.mem_singleton.mp h with rfl
    exact ⟨h2, hk2⟩

theorem last_good (lx : Scanner) (X : List SyntaxNode) (tok : SyntaxNode)
    (base : Nat) (hg : GoodSt base (⟨lx, X ++ [tok]⟩ : PState))
    (hbX : base ≤ X.length) :
    HonestN tok ∧ tok.kind ≠ SyntaxKind.Rule := by
  apply hg.2
  rw [show (⟨lx, X ++ [tok]⟩ : PState).nodes = X ++ [tok] from rfl,
    List.drop_append_of_le_length hbX]
  simp

theorem convert_concat (p : PState) (X : List SyntaxNode)
    (tok : SyntaxNode) (k : SyntaxKind) (h : p.nodes = X ++ [tok]) :
    p.convert k = some ⟨p.lx, X ++ [tok.convertKind k]⟩ :=
  modifyLast_concat p X tok _ h

theorem unexpected_concat (p : PState) (X : List SyntaxNode)
    (tok : SyntaxNode) (h : p.nodes = X ++ [tok]) :
    p.unexpected = some ⟨p.lx, X ++
      [tok.convertToError ("unexpected " ++ tok.kind.name)]⟩ := by
  rw [PState.unexpected]
  simp [Option.bind, lastKind_concat p X tok h, PState.errorLast,
    modifyLast_concat p X tok _ h]

theorem unexpected_good (p : PState) (base : Nat) (hg : GoodSt base p)
    (hlen : base + 1 ≤ p.nodes.length) :
    ∃ q, p.unexpected = some q ∧ q.lx = p.lx ∧
      GoodSt base q ∧ q.nodes.take base = p.nodes.take base ∧
      q.nodes.length = p.nodes.length ∧
      ∃ X tok2, q.nodes = X ++ [tok2] ∧ base ≤ X.length := by
  have hne : p.nodes ≠ [] := by
    intro h
    rw [h] at hlen
    simp at hlen
  have hdec : p.nodes.dropLast ++ [p.nodes.getLast hne] = p.nodes :=
    List.dropLast_append_getLast hne
  have hbX : base ≤ p.nodes.dropLast.length := by
    rw [List.length_dropLast]
    omega
  have hun := unexpected_concat p p.nodes.dropLast (p.nodes.getLast hne)
    hdec.symm
  have hpform : p = ⟨p.lx, p.nodes.dropLast ++ [p.nodes.getLast hne]⟩ := by
    rcases p with ⟨lxp, nodesp⟩
    simp only [PState.mk.injEq, true_and]
    exact hdec.symm
  have hrg := replaceLast_good p.lx p.lx p.nodes.dropLast
    (p.nodes.getLast hne)
    ((p.nodes.getLast hne).convertToError
      ("unexpected " ++ (p.nodes.getLast hne).kind.name)) base
    (by rw [← hpform]; exact hg) hbX
    (convertToError_honest _ _) (by rw [convertToError_kind]; simp)
  refine ⟨_, hun, rfl, hrg.1, ?_, ?_, p.nodes.dropLast, _, rfl, hbX⟩
  · rw [show (⟨p.lx, p.nodes.dropLast ++
        [((p.nodes.getLast hne).convertToError
          ("unexpected " ++ (p.nodes.getLast hne).kind.name))]⟩ :
        PState).nodes = p.nodes.dropLast ++ [_] from rfl]
    rw [hrg.2]
    conv_rhs => rw [hpform]
  · simp only [List.length_append, List.length_cons, List.length_nil,
      List.length_dropLast]
    omega

theorem itemRestBrace_spec (p1 : PState) (start base : Nat)
    (hg : GoodSt base p1) (hbs : base ≤ start)
    (hs : start ≤ p1.nodes.length) :
    ∃ q, itemRestBrace p1 start = some q ∧ Step p1 q ∧ GoodSt base q ∧
      q.nodes.take base = p1.nodes.take base ∧
      q.nodes.length = start + 1 := by
  obtain ⟨p2, tr2, tk2, he1, hst1, hg2, htk1, -, hn2, -, -, -, -⟩ :=
    expect_spec p1 (patKind SyntaxKind.Integer) base rfl hg
  obtain ⟨b3, p3, he2, hst2, hg3, htk2, hlm3, -, -⟩ :=
    eatIf_spec p2 (patKind SyntaxKind.Comma) base hg2
  have hlen2 : p1.nodes.length + 1 ≤ p2.nodes.length := by
    rw [hn2]
    simp [List.length_append]
  -- the optional second integer
  have hmid : ∃ p4, (if b3 = true then do
        let r ← p3.eatIf (patKind SyntaxKind.Integer)
        pure r.2
      else pure p3) = some p4 ∧ Step p3 p4 ∧ GoodSt base p4 ∧
      p4.nodes.take base = p3.nodes.take base ∧
      p3.nodes.length ≤ p4.nodes.length := by
    cases b3 with
    | false =>
      exact ⟨p3, rfl, ⟨rfl, le_refl _⟩, hg3, rfl, le_refl _⟩
    | true =>
      obtain ⟨b4, p4, he3, hst3, hg4, htk3, hlm4, -, -⟩ :=
        eatIf_spec p3 (patKind SyntaxKind.Integer) base hg3
      exact ⟨p4, by simp [Option.bind, he3], hst3, hg4, htk3, hlm4⟩
  obtain ⟨p4, he3, hst3, hg4, htk3, hlm4⟩ := hmid
  obtain ⟨p5, tr5, tk5, he4, hst4, hg5, htk4, -, hn5, -, hht5, hkr5, -⟩ :=
    expect_spec p4 (patKind SyntaxKind.RightBrace) base rfl hg4
  have hbX : base ≤ (p4.nodes ++ tr5).length := by
    simp only [List.length_append]
    have := hg4.1
    omega
  have hhint := hintLast_concat p5 (p4.nodes ++ tr5) tk5
    "consider closing the range with `\x7d`" hn5
  have hp5form : p5 = ⟨p5.lx, p4.nodes ++ tr5 ++ [tk5]⟩ := by
    rcases p5 with ⟨lx5, n5⟩
    simp only [PState.mk.injEq, true_and]
    exact hn5
  have hrg := replaceLast_good p5.lx p5.lx (p4.nodes ++ tr5) tk5
    (tk5.addHint "consider closing the range with `\x7d`") base
    (by rw [← hp5form]; exact hg5) hbX
    (addHint_honest _ _ hht5) (by rw [addHint_kind]; exact hkr5)
  have hlen5 : start ≤ (p4.nodes ++ tr5 ++
      [tk5.addHint "consider closing the range with `\x7d`"]).length := by
    simp only [List.length_append, List.length_cons, List.length_nil]
    omega
  have hwrap := wrap_good ⟨p5.lx, p4.nodes ++ tr5 ++
      [tk5.addHint "consider closing the range with `\x7d`"]⟩ start
    SyntaxKind.BraceIndicator base hrg.1 hbs hlen5 (by decide) (by decide)
  refine ⟨_, ?_, ?_, hwrap.2.2.1, ?_, hwrap.2.2.2.2⟩
  · rw [itemRestBrace]
    cases b3 with
    | false =>
      have hp43 : p3 = p4 := by simpa using he3
      subst hp43
      simp [Option.bind, he1, he2, he4, hhint, List.append_assoc]
    | true =>
      rcases hq2 : p3.eatIf (patKind SyntaxKind.Integer) with _ | r5
      · rw [if_pos rfl, hq2] at he3
        simp [Option.bind] at he3
      · rw [if_pos rfl, hq2] at he3
        have hp4 : r5.2 = p4 := by
          simpa [Option.bind] using he3
        simp [Option.bind, he1, he2, hq2, he4, hhint, hp4,
          List.append_assoc]
  · refine Step.trans2 hst1 (Step.trans2 hst2 (Step.trans2 hst3
      (Step.trans2 hst4 ?_)))
    constructor
    · rw [hwrap.1]
    · rw [hwrap.1]
  · rw [hwrap.2.2.2.1]
    calc ((⟨p5.lx, p4.nodes ++ tr5 ++
          [tk5.addHint "consider closing the range with `\x7d`"]⟩ :
          PState).nodes).take base
        = (p4.nodes ++ tr5 ++ [tk5]).take base := hrg.2
      _ = p5.nodes.take base := by rw [← hn5]
      _ = p1.nodes.take base := by rw [htk4, htk3, htk2, htk1]

theorem itemRest_spec (p0 : PState) (wrapper : Option (Nat × SyntaxKind))
    (base : Nat) (hg : GoodSt base p0)
    (hlen : base + 1 ≤ p0.nodes.length)
    (hw : ∀ m k, wrapper = some (m, k) → base ≤ m ∧ m ≤ p0.nodes.length ∧
      k.isError = false ∧ k ≠ SyntaxKind.Rule) :
    ∃ q, itemRest p0 wrapper = some (true, q) ∧ Step p0 q ∧
      GoodSt base q ∧ q.nodes.take base = p0.nodes.take base ∧
      base + 1 ≤ q.nodes.length ∧
      (∀ m k, wrapper = some (m, k) → m + 1 ≤ q.nodes.length) ∧
      (wrapper = none → p0.nodes.length ≤ q.nodes.length) := by
  obtain ⟨p1, hp1eq, hp1lx, hg1, htake1, hlen1, hlenw⟩ :
      ∃ p1, itemResolveWrapper p0 wrapper = p1 ∧ p1.lx = p0.lx ∧
        GoodSt base p1 ∧
        p1.nodes.take base = p0.nodes.take base ∧
        base + 1 ≤ p1.nodes.length ∧
        ((∀ m k, wrapper = some (m, k) → p1.nodes.length = m + 1) ∧
          (wrapper = none → p1 = p0)) := by
    rcases wrapper with _ | ⟨m, k⟩
    · refine ⟨p0, rfl, rfl, hg, rfl, hlen, ⟨?_, fun _ => rfl⟩⟩
      intro m k h
      exact absurd h (by simp)
    · obtain ⟨hm1, hm2, hm3, hm4⟩ := hw m k rfl
      have hwg := wrap_good p0 m k base hg hm1 hm2 hm3 hm4
      refine ⟨p0.wrap m k, rfl, hwg.1, hwg.2.2.1, hwg.2.2.2.1,
        by rw [hwg.2.2.2.2]; omega, ⟨?_, fun h => absurd h (by simp)⟩⟩
      intro m2 k2 h
      have h2 := Option.some.inj h
      have hm' : m = m2 := congrArg Prod.fst h2
      rw [hwg.2.2.2.2, hm']
  obtain ⟨b2, p2, he2, hst2, hg2, htake2, hlm2, hbt, hbf⟩ :=
    eatIf_spec p1 (patFn SyntaxKind.isPrefixKind) base hg1
  have hstep01 : ∀ q2 : PState, Step p1 q2 → Step p0 q2 := by
    intro q2 hs
    exact ⟨by rw [hs.1, hp1lx], by rw [← hp1lx]; exact hs.2⟩
  cases b2 with
  | false =>
    refine ⟨p2, ?_, hstep01 p2 hst2, hg2, htake2.trans htake1, by omega,
      ?_, ?_⟩
    · rw [itemRest]
      simp [hp1eq, Option.bind, he2]
    · intro m k h
      have := (hlenw.1) m k h
      omega
    · intro h
      have := hlenw.2 h
      subst this
      omega
  | true =>
    obtain ⟨tr, tok, hn2, htst, hht, hkr, htrv⟩ := hbt rfl
    have hlk := lastKind_concat p2 (p1.nodes ++ tr) tok hn2
    have hlenp2 : p1.nodes.length + 1 ≤ p2.nodes.length := by
      rw [hn2]
      simp [List.length_append]
    obtain ⟨p3, he3, hst3, hg3, htake3, hlen3⟩ :
        ∃ p3, (if tok.kind = SyntaxKind.LeftBrace then
            itemRestBrace p2 p1.marker
          else some p2) = some p3 ∧ Step p2 p3 ∧ GoodSt base p3 ∧
          p3.nodes.take base = p2.nodes.take base ∧
          p1.nodes.length ≤ p3.nodes.length := by
      by_cases hlb : tok.kind = SyntaxKind.LeftBrace
      · obtain ⟨p3, he3, hst3, hg3, htake3, hlen3⟩ :=
          itemRestBrace_spec p2 p1.marker base hg2 (by
            rw [PState.marker]
            omega) (by
            rw [PState.marker]
            omega)
        refine ⟨p3, by rw [if_pos hlb]; exact he3, hst3, hg3, htake3, ?_⟩
        rw [hlen3, PState.marker]
        omega
      · exact ⟨p2, by rw [if_neg hlb], ⟨rfl, le_refl _⟩, hg2, rfl,
          by omega⟩
    obtain ⟨b4, p4, he4, hst4, hg4, htake4, hlm4, -, -⟩ :=
      eatIf_spec p3 (patKind SyntaxKind.Question) base hg3
    have hwg := wrap_good p4 (p1.marker - 1) SyntaxKind.Repeating base hg4
      (by rw [PState.marker]; omega)
      (by rw [PState.marker]; omega)
      (by decide) (by decide)
    refine ⟨p4.wrap (p1.marker - 1) SyntaxKind.Repeating, ?_, ?_, hwg.2.2.1,
      ?_, ?_, ?_, ?_⟩
    · rw [itemRest]
      simp [hp1eq, Option.bind, he2, hlk, he3, he4]
    · refine hstep01 _ (Step.trans2 hst2 (Step.trans2 hst3
        (Step.trans2 hst4 ⟨by rw [hwg.1], by rw [hwg.1]⟩)))
    · rw [hwg.2.2.2.1, htake4, htake3, htake2, htake1]
    · rw [hwg.2.2.2.2, PState.marker]
      omega
    · intro m k h
      have := hlenw.1 m k h
      rw [hwg.2.2.2.2, PState.marker]
      omega
    · intro h
      have := hlenw.2 h
      subst this
      rw [hwg.2.2.2.2, PState.marker]
      omega

theorem itemF_arm_rest (p q1 : PState)
    (wrapper : Option (Nat × SyntaxKind)) (base : Nat)
    (hrd : q1.lx.remaining < p.lx.remaining)
    (hst : Step p q1) (hg1 : GoodSt base q1)
    (htk : q1.nodes.take base = p.nodes.take base)
    (hlen1 : p.nodes.length + 1 ≤ q1.nodes.length)
    (hw1 : ∀ m k, wrapper = some (m, k) → base ≤ m ∧
      m ≤ q1.nodes.length ∧ k.isError = false ∧ k ≠ SyntaxKind.Rule)
    (hg : GoodSt base p) :
    ∃ q, itemRest q1 wrapper = some (true, q) ∧ Step p q ∧
      GoodSt base q ∧ q.nodes.take base = p.nodes.take base ∧
      q.lx.remaining < p.lx.remaining ∧
      (∀ m k, wrapper = some (m, k) → m + 1 ≤ q.nodes.length) ∧
      (wrapper = none → p.nodes.length + 1 ≤ q.nodes.length) := by
  obtain ⟨q, hval, hst2, hg2, htk2, hlen2, hwlen, hnlen⟩ :=
    itemRest_spec q1 wrapper base hg1 (by have := hg.1; omega) hw1
  refine ⟨q, hval, Step.trans2 hst hst2, hg2, htk2.trans htk, ?_, hwlen,
    ?_⟩
  · have h1 := Step.remaining_le hst2
    omega
  · intro hn
    have := hnlen hn
    omega

theorem itemF_arm_unx (p q1 : PState)
    (wrapper : Option (Nat × SyntaxKind)) (base : Nat)
    (hrd : q1.lx.remaining < p.lx.remaining)
    (hst : Step p q1) (hg1 : GoodSt base q1)
    (htk : q1.nodes.take base = p.nodes.take base)
    (hlen1 : p.nodes.length + 1 ≤ q1.nodes.length)
    (hw1 : ∀ m k, wrapper = some (m, k) → base ≤ m ∧
      m ≤ q1.nodes.length ∧ k.isError = false ∧ k ≠ SyntaxKind.Rule)
    (hg : GoodSt base p) :
    ∃ q2 q, q1.unexpected = some q2 ∧
      itemRest q2 wrapper = some (true, q) ∧ Step p q ∧
      GoodSt base q ∧ q.nodes.take base = p.nodes.take base ∧
      q.lx.remaining < p.lx.remaining ∧
      (∀ m k, wrapper = some (m, k) → m + 1 ≤ q.nodes.length) ∧
      (wrapper = none → p.nodes.length + 1 ≤ q.nodes.length) := by
  obtain ⟨q2, hun, hlx2, hg2, htk2, hlen2, X, tok2, hX, hbX⟩ :=
    unexpected_good q1 base hg1 (by have := hg.1; omega)
  have hrem2 : q2.lx.remaining = q1.lx.remaining := by rw [hlx2]
  obtain ⟨q, hval, hst2, hg3, htk3, hlen3, hwlen, hnlen⟩ :=
    itemRest_spec q2 wrapper base hg2 (by have := hg.1; omega)
      (fun m k h => ⟨(hw1 m k h).1, by
        have := (hw1 m k h).2.1
        omega, (hw1 m k h).2.2.1, (hw1 m k h).2.2.2⟩)
  refine ⟨q2, q, hun, hval, ?_, hg3, ?_, ?_, hwlen, ?_⟩
  · refine Step.trans2 hst (Step.trans2
      ⟨by rw [hlx2], le_of_eq (congrArg Scanner.cursor hlx2).symm⟩ hst2)
  · rw [htk3, htk2, htk]
  · have h1 := Step.remaining_le hst2
    omega
  · intro hn
    have := hnlen hn
    omega

theorem itemF_arm_unx_hint (p q1 : PState)
    (wrapper : Option (Nat × SyntaxKind)) (base : Nat) (hint : String)
    (hrd : q1.lx.remaining < p.lx.remaining)
    (hst : Step p q1) (hg1 : GoodSt base q1)
    (htk : q1.nodes.take base = p.nodes.take base)
    (hlen1 : p.nodes.length + 1 ≤ q1.nodes.length)
    (hw1 : ∀ m k, wrapper = some (m, k) → base ≤ m ∧
      m ≤ q1.nodes.length ∧ k.isError = false ∧ k ≠ SyntaxKind.Rule)
    (hg : GoodSt base p) :
    ∃ q2 q, q1.unexpected = some q2 ∧
      itemRest (q2.hintLast hint) wrapper = some (true, q) ∧ Step p q ∧
      GoodSt base q ∧ q.nodes.take base = p.nodes.take base ∧
      q.lx.remaining < p.lx.remaining ∧
      (∀ m k, wrapper = some (m, k) → m + 1 ≤ q.nodes.length) ∧
      (wrapper = none → p.nodes.length + 1 ≤ q.nodes.length) := by
  obtain ⟨q2, hun, hlx2, hg2, htk2, hlen2, X, tok2, hX, hbX⟩ :=
    unexpected_good q1 base hg1 (by have := hg.1; omega)
  have hq2form : q2 = ⟨q2.lx, X ++ [tok2]⟩ := by
    rcases q2 with ⟨lq, nq⟩
    simp only [PState.mk.injEq, true_and]
    exact hX
  have hlast := last_good q2.lx X tok2 base (by rw [← hq2form]; exact hg2)
    hbX
  have hhint := hintLast_concat q2 X tok2 hint hX
  have hrg := replaceLast_good q2.lx q2.lx X tok2 (tok2.addHint hint) base
    (by rw [← hq2form]; exact hg2) hbX
    (addHint_honest _ _ hlast.1) (by rw [addHint_kind]; exact hlast.2)
  have hlenX : (X ++ [tok2.addHint hint]).length = q1.nodes.length := by
    have h1 : (X ++ [tok2.addHint hint]).length =
        (X ++ [tok2]).length := by simp
    rw [h1, ← hX, hlen2]
  obtain ⟨q, hval, hst2, hg3, htk3, hlenq, hwlen, hnlen⟩ :=
    itemRest_spec ⟨q2.lx, X ++ [tok2.addHint hint]⟩ wrapper base hrg.1
      (by
        show base + 1 ≤ (X ++ [tok2.addHint hint]).length
        have := hg.1
        omega)
      (fun m k h => ⟨(hw1 m k h).1, by
        show m ≤ (X ++ [tok2.addHint hint]).length
        have := (hw1 m k h).2.1
        omega, (hw1 m k h).2.2.1, (hw1 m k h).2.2.2⟩)
  refine ⟨q2, q, hun, by rw [hhint]; exact hval, ?_, hg3, ?_, ?_, hwlen,
    ?_⟩
  · refine Step.trans2 hst (Step.trans2
      ⟨by rw [hlx2], le_of_eq (congrArg Scanner.cursor hlx2).symm⟩
      (Step.trans2 ⟨rfl, le_refl _⟩ hst2))
  · rw [htk3]
    show (X ++ [tok2.addHint hint]).take base = p.nodes.take base
    rw [hrg.2, ← hX, htk2, htk]
  · have h1 := Step.remaining_le hst2
    have h2 : (⟨q2.lx, X ++ [tok2.addHint hint]⟩ : PState).lx.remaining =
        q1.lx.remaining := by
      show q2.lx.remaining = q1.lx.remaining
      rw [hlx2]
    omega
  · intro hn
    have h3 := hnlen hn
    have h4 : (⟨q2.lx, X ++ [tok2.addHint hint]⟩ :
        PState).nodes.length = q1.nodes.length := hlenX
    omega

theorem itemF_expressionF_spec (f : Nat) :
    (∀ (p : PState) (wrapper : Option (Nat × SyntaxKind)) (base : Nat),
      2 * p.lx.remaining + 1 ≤ f → GoodSt base p →
      (∀ m k, wrapper = some (m, k) → base ≤ m ∧ m ≤ p.nodes.length ∧
        k.isError = false ∧ k ≠ SyntaxKind.Rule) →
      ∃ b q, itemF f p wrapper = some (b, q) ∧ Step p q ∧ GoodSt base q ∧
        q.nodes.take base = p.nodes.take base ∧
        (b = true → q.lx.remaining < p.lx.remaining ∧
          (∀ m k, wrapper = some (m, k) → m + 1 ≤ q.nodes.length) ∧
          (wrapper = none → p.nodes.length + 1 ≤ q.nodes.length)) ∧
        (b = false → ∃ tr, q.nodes = p.nodes ++ tr)) ∧
    (∀ (p : PState) (base : Nat),
      2 * p.lx.remaining + 2 ≤ f → GoodSt base p →
      ∃ q, expressionF f p = some q ∧ Step p q ∧ GoodSt base q ∧
        q.nodes.take base = p.nodes.take base ∧
        p.nodes.length ≤ q.nodes.length) := by
  induction f with
  | zero =>
    constructor
    · intro p _ _ hf _ _
      omega
    · intro p _ hf _
      omega
  | succ f ih =>
    obtain ⟨ihI, ihE⟩ := ih
    constructor
    · intro p wrapper base hf hg hw
      obtain ⟨k, q1, tr, tok, heat, hin, hcur, hstr, hstr2, hrk, hek,
        hnodes, hkind, hsp1, hsp2, hht, hkr2, hki, hkt, htr⟩ := eat_spec p
      have hgpair := GoodSt_append base p hg q1.lx (tr ++ [tok])
        (fun n hn => by
          rcases List.mem_append.mp hn with h | h
          · exact ⟨(htr n h).2, isTrivia_ne_rule _ (htr n h).1⟩
          · rcases List.mem_singleton.mp h with rfl
            exact ⟨hht, by rw [hkind]; exact hkr2⟩)
      have hq1form : q1 = ⟨q1.lx, p.nodes ++ (tr ++ [tok])⟩ := by
        rcases q1 with ⟨lxq, nodesq⟩
        simp only [PState.mk.injEq, true_and]
        simpa [List.append_assoc] using hnodes
      have hgq1 : GoodSt base q1 := by
        rw [hq1form]
        exact hgpair.1
      have htakeq1 : q1.nodes.take base = p.nodes.take base := by
        rw [hq1form]
        exact hgpair.2
      have hlenq1 : p.nodes.length + 1 ≤ q1.nodes.length := by
        rw [hnodes]
        simp [List.length_append]
      have hwq1 : ∀ m k2, wrapper = some (m, k2) → base ≤ m ∧
          m ≤ q1.nodes.length ∧ k2.isError = false ∧
          k2 ≠ SyntaxKind.Rule := fun m k2 h =>
        ⟨(hw m k2 h).1, by have := (hw m k2 h).2.1; omega,
          (hw m k2 h).2.2.1, (hw m k2 h).2.2.2⟩
      have hstq1 : Step p q1 := ⟨hin, hcur⟩
      have hremdec : k ≠ SyntaxKind.End →
          q1.lx.remaining < p.lx.remaining := by
        intro hkE
        have hrne : p.lx.rest ≠ [] := fun h => hkE (hrk h)
        have hlt := (Scanner.rest_ne_nil_iff p.lx).mp hrne
        have h2 := hstr2 hkE
        rw [Scanner.remaining, Scanner.remaining, hin]
        omega
      cases k with
      | Root =>
        obtain ⟨q2, q, hun, hrest, h2, h3, h4, h5, h6, h7⟩ :=
          itemF_arm_unx p q1 wrapper base (hremdec (by decide)) hstq1
            hgq1 htakeq1 hlenq1 hwq1 hg
        have hval : itemF (f + 1) p wrapper = itemRest q2 wrapper := by
          rw [itemF, heat]
          simp [Option.bind, hun]
        refine ⟨true, q, by rw [hval]; exact hrest, h2, h3, h4, ?_, ?_⟩
        · intro _
          exact ⟨h5, h6, h7⟩
        · intro hq
          exact absurd hq (by simp)
      | Comment =>
        obtain ⟨q2, q, hun, hrest, h2, h3, h4, h5, h6, h7⟩ :=
          itemF_arm_unx p q1 wrapper base (hremdec (by decide)) hstq1
            hgq1 htakeq1 hlenq1 hwq1 hg
        have hval : itemF (f + 1) p wrapper = itemRest q2 wrapper := by
          rw [itemF, heat]
          simp [Option.bind, hun]
        refine ⟨true, q, by rw [hval]; exact hrest, h2, h3, h4, ?_, ?_⟩
        · intro _
          exact ⟨h5, h6, h7⟩
        · intro hq
          exact absurd hq (by simp)
      | Whitespace =>
        obtain ⟨q2, q, hun, hrest, h2, h3, h4, h5, h6, h7⟩ :=
          itemF_arm_unx p q1 wrapper base (hremdec (by decide)) hstq1
            hgq1 htakeq1 hlenq1 hwq1 hg
        have hval : itemF (f + 1) p wrapper = itemRest q2 wrapper := by
          rw [itemF, heat]
          simp [Option.bind, hun]
        refine ⟨true, q, by rw [hval]; exact hrest, h2, h3, h4, ?_, ?_⟩
        · intro _
          exact ⟨h5, h6, h7⟩
        · intro hq
          exact absurd hq (by simp)
      | End =>
        have hun := uneat_after_eat q1 p.nodes tr tok hnodes
        have hval : itemF (f + 1) p wrapper = some (false,
            ⟨q1.lx.jump tok.spanStart, p.nodes ++ tr⟩) := by
          rw [itemF, heat]
          simp [Option.bind, hun]
        have hgp := GoodSt_append base p hg (q1.lx.jump tok.spanStart) tr
          (fun n h => ⟨(htr n h).2, isTrivia_ne_rule _ (htr n h).1⟩)
        refine ⟨false, _, hval, ⟨hin, hsp1⟩, hgp.1, hgp.2, ?_, ?_⟩
        · intro hq
          exact absurd hq (by simp)
        · intro _
          exact ⟨tr, rfl⟩
      | Error =>
        obtain ⟨q2, q, hun, hrest, h2, h3, h4, h5, h6, h7⟩ :=
          itemF_arm_unx p q1 wrapper base (hremdec (by decide)) hstq1
            hgq1 htakeq1 hlenq1 hwq1 hg
        have hval : itemF (f + 1) p wrapper = itemRest q2 wrapper := by
          rw [itemF, heat]
          simp [Option.bind, hun]
        refine ⟨true, q, by rw [hval]; exact hrest, h2, h3, h4, ?_, ?_⟩
        · intro _
          exact ⟨h5, h6, h7⟩
        · intro hq
          exact absurd hq (by simp)
      | Identifier =>
        have hval : itemF (f + 1) p wrapper = itemRest q1 wrapper := by
          rw [itemF, heat]
          simp [Option.bind]
        obtain ⟨q, h1, h2, h3, h4, h5, h6, h7⟩ := itemF_arm_rest p q1
          wrapper base (hremdec (by decide)) hstq1 hgq1 htakeq1 hlenq1
          hwq1 hg
        refine ⟨true, q, by rw [hval]; exact h1, h2, h3, h4, ?_, ?_⟩
        · intro _
          exact ⟨h5, h6, h7⟩
        · intro hq
          exact absurd hq (by simp)
      | String =>
        obtain ⟨b5, p5, he5, hst5, hg5, htk5, hlm5, hbt5, hbf5⟩ :=
          eatIf_spec q1 (patKind SyntaxKind.Dots) base hgq1
        have hrdq1 := hremdec (by decide)
        have hrd5 : p5.lx.remaining < p.lx.remaining := by
          have := Step.remaining_le hst5
          omega
        cases b5 with
        | false =>
          have hval : itemF (f + 1) p wrapper = itemRest p5 wrapper := by
            rw [itemF, heat]
            simp [Option.bind, he5]
          obtain ⟨q, h1, h2, h3, h4, h5, h6, h7⟩ := itemF_arm_rest p p5
            wrapper base hrd5 (Step.trans2 hstq1 hst5) hg5
            (htk5.trans htakeq1) (by omega)
            (fun m k2 h => ⟨(hwq1 m k2 h).1,
              by have := (hwq1 m k2 h).2.1; omega,
              (hwq1 m k2 h).2.2.1, (hwq1 m k2 h).2.2.2⟩) hg
          refine ⟨true, q, by rw [hval]; exact h1, h2, h3, h4, ?_, ?_⟩
          · intro _
            exact ⟨h5, h6, h7⟩
          · intro hq
            exact absurd hq (by simp)
        | true =>
          obtain ⟨p6, tr6, tk6, he6, hst6, hg6, htk6, -, hn6, -, hht6,
            hkrr6, -⟩ := expect_spec p5 (patKind SyntaxKind.String) base
            rfl hg5
          have hbX6 : base ≤ (p5.nodes ++ tr6).length := by
            simp only [List.length_append]
            have := hg5.1
            omega
          have hhint6 := hintLast_concat p6 (p5.nodes ++ tr6) tk6
            "`..` can only connect two string literals" hn6
          have hp6form : p6 = ⟨p6.lx, p5.nodes ++ tr6 ++ [tk6]⟩ := by
            rcases p6 with ⟨l6, n6⟩
            simp only [PState.mk.injEq, true_and]
            exact hn6
          have hrg6 := replaceLast_good p6.lx p6.lx (p5.nodes ++ tr6) tk6
            (tk6.addHint "`..` can only connect two string literals") base
            (by rw [← hp6form]; exact hg6) hbX6
            (addHint_honest _ _ hht6) (by rw [addHint_kind]; exact hkrr6)
          have hlen7 : p.nodes.length ≤ (p5.nodes ++ tr6 ++
              [tk6.addHint "`..` can only connect two string literals"]).length := by
            simp only [List.length_append, List.length_cons,
              List.length_nil]
            omega
          have hwrap := wrap_good ⟨p6.lx, p5.nodes ++ tr6 ++
              [tk6.addHint "`..` can only connect two string literals"]⟩
            p.nodes.length SyntaxKind.Range base hrg6.1 hg.1 hlen7
            (by decide) (by decide)
          have hrdW : ((⟨p6.lx, p5.nodes ++ tr6 ++
              [tk6.addHint "`..` can only connect two string literals"]⟩ : PState).wrap
              p.nodes.length SyntaxKind.Range).lx.remaining <
              p.lx.remaining := by
            rw [hwrap.1]
            show p6.lx.remaining < p.lx.remaining
            have := Step.remaining_le hst6
            omega
          obtain ⟨q, h1, h2, h3, h4, h5, h6, h7⟩ := itemF_arm_rest p
            ((⟨p6.lx, p5.nodes ++ tr6 ++
              [tk6.addHint "`..` can only connect two string literals"]⟩ : PState).wrap
              p.nodes.length SyntaxKind.Range) wrapper base hrdW
            (Step.trans2 hstq1 (Step.trans2 hst5 (Step.trans2 hst6
              (Step.trans2 (⟨rfl, le_refl _⟩ :
                Step p6 ⟨p6.lx, p5.nodes ++ tr6 ++
                  [tk6.addHint "`..` can only connect two string literals"]⟩)
                ⟨by rw [hwrap.1],
                  le_of_eq (congrArg Scanner.cursor hwrap.1).symm⟩))))
            hwrap.2.2.1
            (by
              rw [hwrap.2.2.2.1]
              show (p5.nodes ++ tr6 ++
                [tk6.addHint "`..` can only connect two string literals"]).take base = _
              rw [hrg6.2, ← hn6, htk6, htk5, htakeq1])
            (by rw [hwrap.2.2.2.2])
            (fun m k2 h => ⟨(hwq1 m k2 h).1, by
              rw [hwrap.2.2.2.2]
              have := (hw m k2 h).2.1
              omega, (hwq1 m k2 h).2.2.1, (hwq1 m k2 h).2.2.2⟩) hg
          have hval : itemF (f + 1) p wrapper = itemRest
              ((⟨p6.lx, p5.nodes ++ tr6 ++
                [tk6.addHint "`..` can only connect two string literals"]⟩ : PState).wrap
                p.nodes.length SyntaxKind.Range) wrapper := by
            rw [itemF, heat]
            simp [Option.bind, PState.marker, he5, he6, hhint6]
          refine ⟨true, q, by rw [hval]; exact h1, h2, h3, h4, ?_, ?_⟩
          · intro _
            exact ⟨h5, h6, h7⟩
          · intro hq
            exact absurd hq (by simp)
      | Integer =>
        obtain ⟨q2, q, hun, hrest, h2, h3, h4, h5, h6, h7⟩ :=
          itemF_arm_unx p q1 wrapper base (hremdec (by decide)) hstq1
            hgq1 htakeq1 hlenq1 hwq1 hg
        have hval : itemF (f + 1) p wrapper = itemRest q2 wrapper := by
          rw [itemF, heat]
          simp [Option.bind, hun]
        refine ⟨true, q, by rw [hval]; exact hrest, h2, h3, h4, ?_, ?_⟩
        · intro _
          exact ⟨h5, h6, h7⟩
        · intro hq
          exact absurd hq (by simp)
      | Meta =>
        have hval : itemF (f + 1) p wrapper = itemRest q1 wrapper := by
          rw [itemF, heat]
          simp [Option.bind]
        obtain ⟨q, h1, h2, h3, h4, h5, h6, h7⟩ := itemF_arm_rest p q1
          wrapper base (hremdec (by decide)) hstq1 hgq1 htakeq1 hlenq1
          hwq1 hg
        refine ⟨true, q, by rw [hval]; exact h1, h2, h3, h4, ?_, ?_⟩
        · intro _
          exact ⟨h5, h6, h7⟩
        · intro hq
          exact absurd hq (by simp)
      | Operation =>
        obtain ⟨q2, q, hun, hrest, h2, h3, h4, h5, h6, h7⟩ :=
          itemF_arm_unx p q1 wrapper base (hremdec (by decide)) hstq1
            hgq1 htakeq1 hlenq1 hwq1 hg
        have hval : itemF (f + 1) p wrapper = itemRest q2 wrapper := by
          rw [itemF, heat]
          simp [Option.bind, hun]
        refine ⟨true, q, by rw [hval]; exact hrest, h2, h3, h4, ?_, ?_⟩
        · intro _
          exact ⟨h5, h6, h7⟩
        · intro hq
          exact absurd hq (by simp)
      | If =>
        obtain ⟨q2, q, hun, hrest, h2, h3, h4, h5, h6, h7⟩ :=
          itemF_arm_unx p q1 wrapper base (hremdec (by decide)) hstq1
            hgq1 htakeq1 hlenq1 hwq1 hg
        have hval : itemF (f + 1) p wrapper = itemRest q2 wrapper := by
          rw [itemF, heat]
          simp [Option.bind, hun]
        refine ⟨true, q, by rw [hval]; exact hrest, h2, h3, h4, ?_, ?_⟩
        · intro _
          exact ⟨h5, h6, h7⟩
        · intro hq
          exact absurd hq (by simp)
      | Colon =>
        obtain ⟨q2, q, hun, hrest, h2, h3, h4, h5, h6, h7⟩ :=
          itemF_arm_unx p q1 wrapper base (hremdec (by decide)) hstq1
            hgq1 htakeq1 hlenq1 hwq1 hg
        have hval : itemF (f + 1) p wrapper = itemRest q2 wrapper := by
          rw [itemF, heat]
          simp [Option.bind, hun]
        refine ⟨true, q, by rw [hval]; exact hrest, h2, h3, h4, ?_, ?_⟩
        · intro _
          exact ⟨h5, h6, h7⟩
        · intro hq
          exact absurd hq (by simp)
      | SemiColon =>
        have hun := uneat_after_eat q1 p.nodes tr tok hnodes
        have hval : itemF (f + 1) p wrapper = some (false,
            ⟨q1.lx.jump tok.spanStart, p.nodes ++ tr⟩) := by
          rw [itemF, heat]
          simp [Option.bind, hun]
        have hgp := GoodSt_append base p hg (q1.lx.jump tok.spanStart) tr
          (fun n h => ⟨(htr n h).2, isTrivia_ne_rule _ (htr n h).1⟩)
        refine ⟨false, _, hval, ⟨hin, hsp1⟩, hgp.1, hgp.2, ?_, ?_⟩
        · intro hq
          exact absurd hq (by simp)
        · intro _
          exact ⟨tr, rfl⟩
      | Arrow =>
        obtain ⟨q2, q, hun, hrest, h2, h3, h4, h5, h6, h7⟩ :=
          itemF_arm_unx p q1 wrapper base (hremdec (by decide)) hstq1
            hgq1 htakeq1 hlenq1 hwq1 hg
        have hval : itemF (f + 1) p wrapper = itemRest q2 wrapper := by
          rw [itemF, heat]
          simp [Option.bind, hun]
        refine ⟨true, q, by rw [hval]; exact hrest, h2, h3, h4, ?_, ?_⟩
        · intro _
          exact ⟨h5, h6, h7⟩
        · intro hq
          exact absurd hq (by simp)
      | LeftBracket =>
        obtain ⟨q2, q, hun, hrest, h2, h3, h4, h5, h6, h7⟩ :=
          itemF_arm_unx p q1 wrapper base (hremdec (by decide)) hstq1
            hgq1 htakeq1 hlenq1 hwq1 hg
        have hval : itemF (f + 1) p wrapper = itemRest q2 wrapper := by
          rw [itemF, heat]
          simp [Option.bind, hun]
        refine ⟨true, q, by rw [hval]; exact hrest, h2, h3, h4, ?_, ?_⟩
        · intro _
          exact ⟨h5, h6, h7⟩
        · intro hq
          exact absurd hq (by simp)
      | RightBracket =>
        obtain ⟨q2, q, hun, hrest, h2, h3, h4, h5, h6, h7⟩ :=
          itemF_arm_unx p q1 wrapper base (hremdec (by decide)) hstq1
            hgq1 htakeq1 hlenq1 hwq1 hg
        have hval : itemF (f + 1) p wrapper = itemRest q2 wrapper := by
          rw [itemF, heat]
          simp [Option.bind, hun]
        refine ⟨true, q, by rw [hval]; exact hrest, h2, h3, h4, ?_, ?_⟩
        · intro _
          exact ⟨h5, h6, h7⟩
        · intro hq
          exact absurd hq (by simp)
      | LeftParen =>
        have hrdq1 := hremdec (by decide)
        obtain ⟨b5, p5, he5, hst5, hg5, htk5, hlm5, -, -⟩ :=
          eatIf_spec q1 (patFn SyntaxKind.isLooking) base hgq1
        have hfE : 2 * p5.lx.remaining + 2 ≤ f := by
          have := Step.remaining_le hst5
          omega
        obtain ⟨p6, he6, hst6, hg6, htk6, hlm6⟩ := ihE p5 base hfE hg5
        obtain ⟨p7, tr7, tk7, he7, hst7, hg7, htk7, -, hn7, -, -, -, -⟩ :=
          expect_spec p6 (patKind SyntaxKind.RightParen) base rfl hg6
        have hkd1 : (if b5 then SyntaxKind.Looking else
            SyntaxKind.Group).isError = false := by
          cases b5 <;> rfl
        have hkd2 : (if b5 then SyntaxKind.Looking else
            SyntaxKind.Group) ≠ SyntaxKind.Rule := by
          cases b5 <;> decide
        have hlen7 : p.nodes.length ≤ p7.nodes.length := by
          rw [hn7]
          simp only [List.length_append, List.length_cons, List.length_nil]
          omega
        have hwrap := wrap_good p7 p.nodes.length (if b5 then
            SyntaxKind.Looking else SyntaxKind.Group) base hg7 hg.1 hlen7
          hkd1 hkd2
        have hrdW : (p7.wrap p.nodes.length (if b5 then SyntaxKind.Looking
            else SyntaxKind.Group)).lx.remaining < p.lx.remaining := by
          rw [hwrap.1]
          have := Step.remaining_le hst5
          have := Step.remaining_le hst6
          have := Step.remaining_le hst7
          omega
        obtain ⟨q, h1, h2, h3, h4, h5, h6, h7⟩ := itemF_arm_rest p
          (p7.wrap p.nodes.length (if b5 then SyntaxKind.Looking else
            SyntaxKind.Group)) wrapper base hrdW
          (Step.trans2 hstq1 (Step.trans2 hst5 (Step.trans2 hst6
            (Step.trans2 hst7 ⟨by rw [hwrap.1],
              le_of_eq (congrArg Scanner.cursor hwrap.1).symm⟩))))
          hwrap.2.2.1
          (by rw [hwrap.2.2.2.1, htk7, htk6, htk5, htakeq1])
          (by rw [hwrap.2.2.2.2])
          (fun m k2 h => ⟨(hwq1 m k2 h).1, by
            rw [hwrap.2.2.2.2]
            have := (hw m k2 h).2.1
            omega, (hwq1 m k2 h).2.2.1, (hwq1 m k2 h).2.2.2⟩) hg
        have hval : itemF (f + 1) p wrapper = itemRest
            (p7.wrap p.nodes.length (if b5 then SyntaxKind.Looking else
              SyntaxKind.Group)) wrapper := by
          rw [itemF, heat]
          simp [Option.bind, PState.marker, he5, he6, he7]
        refine ⟨true, q, by rw [hval]; exact h1, h2, h3, h4, ?_, ?_⟩
        · intro _
          exact ⟨h5, h6, h7⟩
        · intro hq
          exact absurd hq (by simp)
      | RightParen =>
        have hun := uneat_after_eat q1 p.nodes tr tok hnodes
        have hval : itemF (f + 1) p wrapper = some (false,
            ⟨q1.lx.jump tok.spanStart, p.nodes ++ tr⟩) := by
          rw [itemF, heat]
          simp [Option.bind, hun]
        have hgp := GoodSt_append base p hg (q1.lx.jump tok.spanStart) tr
          (fun n h => ⟨(htr n h).2, isTrivia_ne_rule _ (htr n h).1⟩)
        refine ⟨false, _, hval, ⟨hin, hsp1⟩, hgp.1, hgp.2, ?_, ?_⟩
        · intro hq
          exact absurd hq (by simp)
        · intro _
          exact ⟨tr, rfl⟩
      | LeftBrace =>
        obtain ⟨q2, q, hun, hrest, h2, h3, h4, h5, h6, h7⟩ :=
          itemF_arm_unx_hint p q1 wrapper base
            "range should be attached to an expression"
            (hremdec (by decide)) hstq1 hgq1 htakeq1 hlenq1 hwq1 hg
        have hval : itemF (f + 1) p wrapper =
            itemRest (q2.hintLast
              "range should be attached to an expression") wrapper := by
          rw [itemF, heat]
          simp [Option.bind, hun]
        refine ⟨true, q, by rw [hval]; exact hrest, h2, h3, h4, ?_, ?_⟩
        · intro _
          exact ⟨h5, h6, h7⟩
        · intro hq
          exact absurd hq (by simp)
      | RightBrace =>
        obtain ⟨q2, q, hun, hrest, h2, h3, h4, h5, h6, h7⟩ :=
          itemF_arm_unx_hint p q1 wrapper base
            "consider starting a range with `\x7b`"
            (hremdec (by decide)) hstq1 hgq1 htakeq1 hlenq1 hwq1 hg
        have hval : itemF (f + 1) p wrapper =
            itemRest (q2.hintLast
              "consider starting a range with `\x7b`") wrapper := by
          rw [itemF, heat]
          simp [Option.bind, hun]
        refine ⟨true, q, by rw [hval]; exact hrest, h2, h3, h4, ?_, ?_⟩
        · intro _
          exact ⟨h5, h6, h7⟩
        · intro hq
          exact absurd hq (by simp)
      | Comma =>
        obtain ⟨q2, q, hun, hrest, h2, h3, h4, h5, h6, h7⟩ :=
          itemF_arm_unx p q1 wrapper base (hremdec (by decide)) hstq1
            hgq1 htakeq1 hlenq1 hwq1 hg
        have hval : itemF (f + 1) p wrapper = itemRest q2 wrapper := by
          rw [itemF, heat]
          simp [Option.bind, hun]
        refine ⟨true, q, by rw [hval]; exact hrest, h2, h3, h4, ?_, ?_⟩
        · intro _
          exact ⟨h5, h6, h7⟩
        · intro hq
          exact absurd hq (by simp)
      | Bar =>
        have hval : itemF (f + 1) p wrapper = itemRest q1 wrapper := by
          rw [itemF, heat]
          simp [Option.bind]
        obtain ⟨q, h1, h2, h3, h4, h5, h6, h7⟩ := itemF_arm_rest p q1
          wrapper base (hremdec (by decide)) hstq1 hgq1 htakeq1 hlenq1
          hwq1 hg
        refine ⟨true, q, by rw [hval]; exact h1, h2, h3, h4, ?_, ?_⟩
        · intro _
          exact ⟨h5, h6, h7⟩
        · intro hq
          exact absurd hq (by simp)
      | Tilde =>
        have hrdq1 := hremdec (by decide)
        have hfin : 2 * q1.lx.remaining + 1 ≤ f := by omega
        obtain ⟨bI, qI, hI, hstI, hgI, htkI, hbtI, hbfI⟩ := ihI q1
          (some (p.nodes.length, SyntaxKind.Converse)) base hfin hgq1
          (fun m k2 h => by
            have h2 := Option.some.inj h
            have hm : p.nodes.length = m := congrArg Prod.fst h2
            have hk : SyntaxKind.Converse = k2 := congrArg Prod.snd h2
            subst hm
            subst hk
            exact ⟨hg.1, by omega, by decide, by decide⟩)
        cases bI with
        | true =>
          obtain ⟨hrdI, hwlenI, -⟩ := hbtI rfl
          have hlenI : p.nodes.length + 1 ≤ qI.nodes.length :=
            hwlenI p.nodes.length SyntaxKind.Converse rfl
          have hval : itemF (f + 1) p wrapper = itemRest qI wrapper := by
            rw [itemF, heat]
            simp [Option.bind, PState.marker, hI]
          obtain ⟨q, h1, h2, h3, h4, h5, h6, h7⟩ := itemF_arm_rest p qI
            wrapper base (by omega) (Step.trans2 hstq1 hstI) hgI
            (htkI.trans htakeq1) hlenI
            (fun m k2 h => ⟨(hw m k2 h).1, by
              have := (hw m k2 h).2.1
              omega, (hw m k2 h).2.2.1, (hw m k2 h).2.2.2⟩) hg
          refine ⟨true, q, by rw [hval]; exact h1, h2, h3, h4, ?_, ?_⟩
          · intro _
            exact ⟨h5, h6, h7⟩
          · intro hq
            exact absurd hq (by simp)
        | false =>
          obtain ⟨trI, htrI⟩ := hbfI rfl
          have hlenI : p.nodes.length + 1 ≤ qI.nodes.length := by
            rw [htrI]
            simp only [List.length_append]
            omega
          obtain ⟨q2, q, hun, hrest, h2, h3, h4, h5, h6, h7⟩ :=
            itemF_arm_unx_hint p qI wrapper base
              "consider using converse indicator `~` before an expression"
              (by have := Step.remaining_le hstI; omega)
              (Step.trans2 hstq1 hstI) hgI (htkI.trans htakeq1) hlenI
              (fun m k2 h => ⟨(hw m k2 h).1, by
                have := (hw m k2 h).2.1
                omega, (hw m k2 h).2.2.1, (hw m k2 h).2.2.2⟩) hg
          have hval : itemF (f + 1) p wrapper = itemRest (q2.hintLast
              "consider using converse indicator `~` before an expression") wrapper := by
            rw [itemF, heat]
            simp [Option.bind, PState.marker, hI, hun]
          refine ⟨true, q, by rw [hval]; exact hrest, h2, h3, h4, ?_, ?_⟩
          · intro _
            exact ⟨h5, h6, h7⟩
          · intro hq
            exact absurd hq (by simp)
      | Dot =>
        have hval : itemF (f + 1) p wrapper = itemRest q1 wrapper := by
          rw [itemF, heat]
          simp [Option.bind]
        obtain ⟨q, h1, h2, h3, h4, h5, h6, h7⟩ := itemF_arm_rest p q1
          wrapper base (hremdec (by decide)) hstq1 hgq1 htakeq1 hlenq1
          hwq1 hg
        refine ⟨true, q, by rw [hval]; exact h1, h2, h3, h4, ?_, ?_⟩
        · intro _
          exact ⟨h5, h6, h7⟩
        · intro hq
          exact absurd hq (by simp)
      | Question =>
        obtain ⟨q2, q, hun, hrest, h2, h3, h4, h5, h6, h7⟩ :=
          itemF_arm_unx p q1 wrapper base (hremdec (by decide)) hstq1
            hgq1 htakeq1 hlenq1 hwq1 hg
        have hval : itemF (f + 1) p wrapper = itemRest q2 wrapper := by
          rw [itemF, heat]
          simp [Option.bind, hun]
        refine ⟨true, q, by rw [hval]; exact hrest, h2, h3, h4, ?_, ?_⟩
        · intro _
          exact ⟨h5, h6, h7⟩
        · intro hq
          exact absurd hq (by simp)
      | Star =>
        obtain ⟨q2, q, hun, hrest, h2, h3, h4, h5, h6, h7⟩ :=
          itemF_arm_unx p q1 wrapper base (hremdec (by decide)) hstq1
            hgq1 htakeq1 hlenq1 hwq1 hg
        have hval : itemF (f + 1) p wrapper = itemRest q2 wrapper := by
          rw [itemF, heat]
          simp [Option.bind, hun]
        refine ⟨true, q, by rw [hval]; exact hrest, h2, h3, h4, ?_, ?_⟩
        · intro _
          exact ⟨h5, h6, h7⟩
        · intro hq
          exact absurd hq (by simp)
      | Plus =>
        obtain ⟨q2, q, hun, hrest, h2, h3, h4, h5, h6, h7⟩ :=
          itemF_arm_unx p q1 wrapper base (hremdec (by decide)) hstq1
            hgq1 htakeq1 hlenq1 hwq1 hg
        have hval : itemF (f + 1) p wrapper = itemRest q2 wrapper := by
          rw [itemF, heat]
          simp [Option.bind, hun]
        refine ⟨true, q, by rw [hval]; exact hrest, h2, h3, h4, ?_, ?_⟩
        · intro _
          exact ⟨h5, h6, h7⟩
        · intro hq
          exact absurd hq (by simp)
      | Dots =>
        obtain ⟨q2, q, hun, hrest, h2, h3, h4, h5, h6, h7⟩ :=
          itemF_arm_unx p q1 wrapper base (hremdec (by decide)) hstq1
            hgq1 htakeq1 hlenq1 hwq1 hg
        have hval : itemF (f + 1) p wrapper = itemRest q2 wrapper := by
          rw [itemF, heat]
          simp [Option.bind, hun]
        refine ⟨true, q, by rw [hval]; exact hrest, h2, h3, h4, ?_, ?_⟩
        · intro _
          exact ⟨h5, h6, h7⟩
        · intro hq
          exact absurd hq (by simp)
      | LookAheadPos =>
        obtain ⟨q2, q, hun, hrest, h2, h3, h4, h5, h6, h7⟩ :=
          itemF_arm_unx p q1 wrapper base (hremdec (by decide)) hstq1
            hgq1 htakeq1 hlenq1 hwq1 hg
        have hval : itemF (f + 1) p wrapper = itemRest q2 wrapper := by
          rw [itemF, heat]
          simp [Option.bind, hun]
        refine ⟨true, q, by rw [hval]; exact hrest, h2, h3, h4, ?_, ?_⟩
        · intro _
          exact ⟨h5, h6, h7⟩
        · intro hq
          exact absurd hq (by simp)
      | LookAheadNeg =>
        obtain ⟨q2, q, hun, hrest, h2, h3, h4, h5, h6, h7⟩ :=
          itemF_arm_unx p q1 wrapper base (hremdec (by decide)) hstq1
            hgq1 htakeq1 hlenq1 hwq1 hg
        have hval : itemF (f + 1) p wrapper = itemRest q2 wrapper := by
          rw [itemF, heat]
          simp [Option.bind, hun]
        refine ⟨true, q, by rw [hval]; exact hrest, h2, h3, h4, ?_, ?_⟩
        · intro _
          exact ⟨h5, h6, h7⟩
        · intro hq
          exact absurd hq (by simp)
      | LookBehindPos =>
        obtain ⟨q2, q, hun, hrest, h2, h3, h4, h5, h6, h7⟩ :=
          itemF_arm_unx p q1 wrapper base (hremdec (by decide)) hstq1
            hgq1 htakeq1 hlenq1 hwq1 hg
        have hval : itemF (f + 1) p wrapper = itemRest q2 wrapper := by
          rw [itemF, heat]
          simp [Option.bind, hun]
        refine ⟨true, q, by rw [hval]; exact hrest, h2, h3, h4, ?_, ?_⟩
        · intro _
          exact ⟨h5, h6, h7⟩
        · intro hq
          exact absurd hq (by simp)
      | LookBehindNeg =>
        obtain ⟨q2, q, hun, hrest, h2, h3, h4, h5, h6, h7⟩ :=
          itemF_arm_unx p q1 wrapper base (hremdec (by decide)) hstq1
            hgq1 htakeq1 hlenq1 hwq1 hg
        have hval : itemF (f + 1) p wrapper = itemRest q2 wrapper := by
          rw [itemF, heat]
          simp [Option.bind, hun]
        refine ⟨true, q, by rw [hval]; exact hrest, h2, h3, h4, ?_, ?_⟩
        · intro _
          exact ⟨h5, h6, h7⟩
        · intro hq
          exact absurd hq (by simp)
      | Rule =>
        obtain ⟨q2, q, hun, hrest, h2, h3, h4, h5, h6, h7⟩ :=
          itemF_arm_unx p q1 wrapper base (hremdec (by decide)) hstq1
            hgq1 htakeq1 hlenq1 hwq1 hg
        have hval : itemF (f + 1) p wrapper = itemRest q2 wrapper := by
          rw [itemF, heat]
          simp [Option.bind, hun]
        refine ⟨true, q, by rw [hval]; exact hrest, h2, h3, h4, ?_, ?_⟩
        · intro _
          exact ⟨h5, h6, h7⟩
        · intro hq
          exact absurd hq (by simp)
      | Param =>
        obtain ⟨q2, q, hun, hrest, h2, h3, h4, h5, h6, h7⟩ :=
          itemF_arm_unx p q1 wrapper base (hremdec (by decide)) hstq1
            hgq1 htakeq1 hlenq1 hwq1 hg
        have hval : itemF (f + 1) p wrapper = itemRest q2 wrapper := by
          rw [itemF, heat]
          simp [Option.bind, hun]
        refine ⟨true, q, by rw [hval]; exact hrest, h2, h3, h4, ?_, ?_⟩
        · intro _
          exact ⟨h5, h6, h7⟩
        · intro hq
          exact absurd hq (by simp)
      | Definition =>
        obtain ⟨q2, q, hun, hrest, h2, h3, h4, h5, h6, h7⟩ :=
          itemF_arm_unx p q1 wrapper base (hremdec (by decide)) hstq1
            hgq1 htakeq1 hlenq1 hwq1 hg
        have hval : itemF (f + 1) p wrapper = itemRest q2 wrapper := by
          rw [itemF, heat]
          simp [Option.bind, hun]
        refine ⟨true, q, by rw [hval]; exact hrest, h2, h3, h4, ?_, ?_⟩
        · intro _
          exact ⟨h5, h6, h7⟩
        · intro hq
          exact absurd hq (by simp)
      | Group =>
        obtain ⟨q2, q, hun, hrest, h2, h3, h4, h5, h6, h7⟩ :=
          itemF_arm_unx p q1 wrapper base (hremdec (by decide)) hstq1
            hgq1 htakeq1 hlenq1 hwq1 hg
        have hval : itemF (f + 1) p wrapper = itemRest q2 wrapper := by
          rw [itemF, heat]
          simp [Option.bind, hun]
        refine ⟨true, q, by rw [hval]; exact hrest, h2, h3, h4, ?_, ?_⟩
        · intro _
          exact ⟨h5, h6, h7⟩
        · intro hq
          exact absurd hq (by simp)
      | Converse =>
        obtain ⟨q2, q, hun, hrest, h2, h3, h4, h5, h6, h7⟩ :=
          itemF_arm_unx p q1 wrapper base (hremdec (by decide)) hstq1
            hgq1 htakeq1 hlenq1 hwq1 hg
        have hval : itemF (f + 1) p wrapper = itemRest q2 wrapper := by
          rw [itemF, heat]
          simp [Option.bind, hun]
        refine ⟨true, q, by rw [hval]; exact hrest, h2, h3, h4, ?_, ?_⟩
        · intro _
          exact ⟨h5, h6, h7⟩
        · intro hq
          exact absurd hq (by simp)
      | Range =>
        obtain ⟨q2, q, hun, hrest, h2, h3, h4, h5, h6, h7⟩ :=
          itemF_arm_unx p q1 wrapper base (hremdec (by decide)) hstq1
            hgq1 htakeq1 hlenq1 hwq1 hg
        have hval : itemF (f + 1) p wrapper = itemRest q2 wrapper := by
          rw [itemF, heat]
          simp [Option.bind, hun]
        refine ⟨true, q, by rw [hval]; exact hrest, h2, h3, h4, ?_, ?_⟩
        · intro _
          exact ⟨h5, h6, h7⟩
        · intro hq
          exact absurd hq (by simp)
      | Repeating =>
        obtain ⟨q2, q, hun, hrest, h2, h3, h4, h5, h6, h7⟩ :=
          itemF_arm_unx p q1 wrapper base (hremdec (by decide)) hstq1
            hgq1 htakeq1 hlenq1 hwq1 hg
        have hval : itemF (f + 1) p wrapper = itemRest q2 wrapper := by
          rw [itemF, heat]
          simp [Option.bind, hun]
        refine ⟨true, q, by rw [hval]; exact hrest, h2, h3, h4, ?_, ?_⟩
        · intro _
          exact ⟨h5, h6, h7⟩
        · intro hq
          exact absurd hq (by simp)
      | BraceIndicator =>
        obtain ⟨q2, q, hun, hrest, h2, h3, h4, h5, h6, h7⟩ :=
          itemF_arm_unx p q1 wrapper base (hremdec (by decide)) hstq1
            hgq1 htakeq1 hlenq1 hwq1 hg
        have hval : itemF (f + 1) p wrapper = itemRest q2 wrapper := by
          rw [itemF, heat]
          simp [Option.bind, hun]
        refine ⟨true, q, by rw [hval]; exact hrest, h2, h3, h4, ?_, ?_⟩
        · intro _
          exact ⟨h5, h6, h7⟩
        · intro hq
          exact absurd hq (by simp)
      | Looking =>
        obtain ⟨q2, q, hun, hrest, h2, h3, h4, h5, h6, h7⟩ :=
          itemF_arm_unx p q1 wrapper base (hremdec (by decide)) hstq1
            hgq1 htakeq1 hlenq1 hwq1 hg
        have hval : itemF (f + 1) p wrapper = itemRest q2 wrapper := by
          rw [itemF, heat]
          simp [Option.bind, hun]
        refine ⟨true, q, by rw [hval]; exact hrest, h2, h3, h4, ?_, ?_⟩
        · intro _
          exact ⟨h5, h6, h7⟩
        · intro hq
          exact absurd hq (by simp)
      | Action =>
        have hun := uneat_after_eat q1 p.nodes tr tok hnodes
        have hval : itemF (f + 1) p wrapper = some (false,
            ⟨q1.lx.jump tok.spanStart, p.nodes ++ tr⟩) := by
          rw [itemF, heat]
          simp [Option.bind, hun]
        have hgp := GoodSt_append base p hg (q1.lx.jump tok.spanStart) tr
          (fun n h => ⟨(htr n h).2, isTrivia_ne_rule _ (htr n h).1⟩)
        refine ⟨false, _, hval, ⟨hin, hsp1⟩, hgp.1, hgp.2, ?_, ?_⟩
        · intro hq
          exact absurd hq (by simp)
        · intro _
          exact ⟨tr, rfl⟩
      | Reference =>
        obtain ⟨q2, q, hun, hrest, h2, h3, h4, h5, h6, h7⟩ :=
          itemF_arm_unx p q1 wrapper base (hremdec (by decide)) hstq1
            hgq1 htakeq1 hlenq1 hwq1 hg
        have hval : itemF (f + 1) p wrapper = itemRest q2 wrapper := by
          rw [itemF, heat]
          simp [Option.bind, hun]
        refine ⟨true, q, by rw [hval]; exact hrest, h2, h3, h4, ?_, ?_⟩
        · intro _
          exact ⟨h5, h6, h7⟩
        · intro hq
          exact absurd hq (by simp)
    · intro p base hf hg
      obtain ⟨b, p1, hi, hst1, hg1, htk1, hbt, hbf⟩ := ihI p none base
        (by omega) hg (fun m k h => absurd h (by simp))
      cases b with
      | true =>
        obtain ⟨hrdec, -, hlone⟩ := hbt rfl
        have hlen1 := hlone rfl
        obtain ⟨q, he, hst2, hg2, htk2, hlen2⟩ := ihE p1 base
          (by omega) hg1
        refine ⟨q, ?_, Step.trans2 hst1 hst2, hg2, htk2.trans htk1, ?_⟩
        · rw [expressionF, hi]
          simp [Option.bind, he]
        · omega
      | false =>
        obtain ⟨tr, htr⟩ := hbf rfl
        refine ⟨p1, ?_, hst1, hg1, htk1, ?_⟩
        · rw [expressionF, hi]
          simp [Option.bind]
        · rw [htr]
          simp [List.length_append]

/-! ### Rule, parse-loop, and renderer totality -/

theorem GoodSt_len (p : PState) : GoodSt p.nodes.length p := by
  refine ⟨Nat.le_refl _, ?_⟩
  intro n hn
  rw [List.drop_length] at hn
  exact absurd hn (List.not_mem_nil n)

theorem ruleF_spec (f : Nat) (p0 : PState)
    (hf : 2 * p0.lx.remaining + 2 ≤ f) :
    ∃ rn q, ruleF f p0 = some q ∧ Step p0 q ∧
      q.nodes = p0.nodes ++ [rn] ∧ HonestN rn ∧
      rn.kind = SyntaxKind.Rule ∧
      (rn.erroneous = false →
        (rn.children.find?
          (fun c => c.kind == SyntaxKind.Identifier)).isSome = true) ∧
      (p0.lx.rest ≠ [] → q.lx.remaining < p0.lx.remaining) := by
  obtain ⟨p1, tr1, tokA, he1, hst1, hg1, htk1, hcur1, hn1, htr1, hhA, hkA,
    hdA⟩ := expect_spec p0
    (patKinds [SyntaxKind.Identifier, SyntaxKind.If]) p0.nodes.length rfl
    (GoodSt_len p0)
  have hc2 := convert_concat p1 (p0.nodes ++ tr1) tokA
    SyntaxKind.Identifier hn1
  obtain ⟨p3, tr3, tokC, he3, hst3, hg3, htk3, hcur3, hn3, htr3, hhC, hkC,
    hdC⟩ := expect_spec (⟨p1.lx, p0.nodes ++ tr1 ++ [tokA.convertKind SyntaxKind.Identifier]⟩ : PState)
    (patKind SyntaxKind.Colon) _ rfl (GoodSt_len _)
  have hstP2 : Step p1 (⟨p1.lx, p0.nodes ++ tr1 ++ [tokA.convertKind SyntaxKind.Identifier]⟩ : PState) :=
    ⟨rfl, Nat.le_refl _⟩
  have hst03 : Step p0 p3 := Step.trans2 hst1 (Step.trans2 hstP2 hst3)
  have hfE : 2 * p3.lx.remaining + 2 ≤ f := by
    have := Step.remaining_le hst03
    omega
  obtain ⟨p4, he4, hst4, hg4, htk4, hlen4⟩ :=
    (itemF_expressionF_spec f).2 p3 p3.nodes.length hfE (GoodSt_len p3)
  have hwD := wrap_good p4 p3.nodes.length SyntaxKind.Definition
    p3.nodes.length hg4 (Nat.le_refl _) hlen4 (by decide) (by decide)
  have hp5nodes : (p4.wrap p3.nodes.length SyntaxKind.Definition).nodes = p3.nodes ++ [SyntaxNode.mkInner SyntaxKind.Definition (p4.nodes.drop p3.nodes.length)] := by
    rw [hwD.2.1, htk4, List.take_length]
  have hdefH : HonestN (SyntaxNode.mkInner SyntaxKind.Definition (p4.nodes.drop p3.nodes.length)) :=
    mkInner_honest _ _ (by decide) (fun c hc => (hg4.2 c hc).1)
  have hstW : Step p4 (p4.wrap p3.nodes.length SyntaxKind.Definition) :=
    ⟨by rw [hwD.1], le_of_eq (congrArg Scanner.cursor hwD.1).symm⟩
  have hst05 : Step p0 (p4.wrap p3.nodes.length SyntaxKind.Definition) :=
    Step.trans2 hst03 (Step.trans2 hst4 hstW)
  have hrem5 : (p4.wrap p3.nodes.length SyntaxKind.Definition).lx.remaining < f := by
    have := Step.remaining_le hst05
    omega
  obtain ⟨p6, he6, hst6, hg6, htk6, tr6, hn6, htr6⟩ := eatWhileF_spec f
    (patKind SyntaxKind.Action) (p4.wrap p3.nodes.length SyntaxKind.Definition) _ (by decide) hrem5 (GoodSt_len _)
  obtain ⟨p7, tr7, tok7, he7, hst7, hg7, htk7, hcur7, hn7, htr7, hh7, hk7,
    hd7⟩ := expect_spec p6 (patKind SyntaxKind.SemiColon) p6.nodes.length
    rfl (GoodSt_len p6)
  have hh8 := hintLast_concat p7 (p6.nodes ++ tr7) tok7
    "consider ending the rule with `;`" hn7
  have hst07 : Step p0 p7 := Step.trans2 hst05 (Step.trans2 hst6 hst7)
  have hst17 : Step p1 p7 := Step.trans2 hstP2 (Step.trans2 hst3
    (Step.trans2 hst4 (Step.trans2 hstW (Step.trans2 hst6 hst7))))
  have hP8nodes : p6.nodes ++ tr7 ++ [tok7.addHint "consider ending the rule with `;`"] = p0.nodes ++ (tr1 ++ [tokA.convertKind SyntaxKind.Identifier] ++ tr3 ++ [tokC] ++ [SyntaxNode.mkInner SyntaxKind.Definition (p4.nodes.drop p3.nodes.length)] ++ tr6 ++ tr7 ++ [tok7.addHint "consider ending the rule with `;`"]) := by
    rw [hn6, hp5nodes, hn3]
    simp [List.append_assoc]
  have ht1 : (p0.nodes ++ (tr1 ++ [tokA.convertKind SyntaxKind.Identifier] ++ tr3 ++ [tokC] ++ [SyntaxNode.mkInner SyntaxKind.Definition (p4.nodes.drop p3.nodes.length)] ++ tr6 ++ tr7 ++ [tok7.addHint "consider ending the rule with `;`"])).take p0.nodes.length = p0.nodes := by
    rw [List.take_append_of_le_length (Nat.le_refl _), List.take_length]
  have hd1 : (p0.nodes ++ (tr1 ++ [tokA.convertKind SyntaxKind.Identifier] ++ tr3 ++ [tokC] ++ [SyntaxNode.mkInner SyntaxKind.Definition (p4.nodes.drop p3.nodes.length)] ++ tr6 ++ tr7 ++ [tok7.addHint "consider ending the rule with `;`"])).drop p0.nodes.length = tr1 ++ [tokA.convertKind SyntaxKind.Identifier] ++ tr3 ++ [tokC] ++ [SyntaxNode.mkInner SyntaxKind.Definition (p4.nodes.drop p3.nodes.length)] ++ tr6 ++ tr7 ++ [tok7.addHint "consider ending the rule with `;`"] := by
    rw [List.drop_append_of_le_length (Nat.le_refl _), List.drop_length]
    rfl
  have hminS : min p0.nodes.length (p0.nodes ++ (tr1 ++ [tokA.convertKind SyntaxKind.Identifier] ++ tr3 ++ [tokC] ++ [SyntaxNode.mkInner SyntaxKind.Definition (p4.nodes.drop p3.nodes.length)] ++ tr6 ++ tr7 ++ [tok7.addHint "consider ending the rule with `;`"])).length =
      p0.nodes.length := by
    refine Nat.min_eq_left ?_
    simp
  have hfinal : (⟨p7.lx, p6.nodes ++ tr7 ++ [tok7.addHint "consider ending the rule with `;`"]⟩ : PState).wrap
      p0.nodes.length SyntaxKind.Rule =
      ⟨p7.lx, p0.nodes ++ [SyntaxNode.mkInner SyntaxKind.Rule
        (tr1 ++ [tokA.convertKind SyntaxKind.Identifier] ++ tr3 ++ [tokC] ++ [SyntaxNode.mkInner SyntaxKind.Definition (p4.nodes.drop p3.nodes.length)] ++ tr6 ++ tr7 ++ [tok7.addHint "consider ending the rule with `;`"])]⟩ := by
    rw [PState.wrap]
    simp only [hP8nodes, hminS, ht1, hd1]
  have he3a := he3
  simp only [List.append_assoc] at he3a
  have hval : ruleF f p0 = some ((⟨p7.lx, p6.nodes ++ tr7 ++
      [tok7.addHint "consider ending the rule with `;`"]⟩ : PState).wrap p0.nodes.length SyntaxKind.Rule) := by
    rw [ruleF]
    simp [Option.bind, PState.marker, he1, hc2, he3a, he4, he6, he7, hh8]
  have hval2 : ruleF f p0 = some ⟨p7.lx, p0.nodes ++
      [SyntaxNode.mkInner SyntaxKind.Rule (tr1 ++ [tokA.convertKind SyntaxKind.Identifier] ++ tr3 ++ [tokC] ++ [SyntaxNode.mkInner SyntaxKind.Definition (p4.nodes.drop p3.nodes.length)] ++ tr6 ++ tr7 ++ [tok7.addHint "consider ending the rule with `;`"])]⟩ := by
    rw [hval, hfinal]
  refine ⟨SyntaxNode.mkInner SyntaxKind.Rule (tr1 ++ [tokA.convertKind SyntaxKind.Identifier] ++ tr3 ++ [tokC] ++ [SyntaxNode.mkInner SyntaxKind.Definition (p4.nodes.drop p3.nodes.length)] ++ tr6 ++ tr7 ++ [tok7.addHint "consider ending the rule with `;`"]), _, hval2, ?_, rfl,
    ?_, rfl, ?_, ?_⟩
  · exact ⟨hst07.1, hst07.2⟩
  · refine mkInner_honest _ _ (by decide) ?_
    intro c hc
    simp only [List.mem_append, List.mem_singleton] at hc
    rcases hc with (((((((h | h) | h) | h) | h) | h) | h) | h)
    · exact (htr1 c h).2
    · subst h
      exact convertKind_honest _ _ hhA (by decide)
    · exact (htr3 c h).2
    · subst h
      exact hhC
    · subst h
      exact hdefH
    · exact (htr6 c h).1
    · exact (htr7 c h).2
    · subst h
      exact addHint_honest _ _ hh7
  · intro herr
    rw [mkInner_erroneous] at herr
    rw [mkInner_children]
    have hmem : tokA.convertKind SyntaxKind.Identifier ∈ (tr1 ++ [tokA.convertKind SyntaxKind.Identifier] ++ tr3 ++ [tokC] ++ [SyntaxNode.mkInner SyntaxKind.Definition (p4.nodes.drop p3.nodes.length)] ++ tr6 ++ tr7 ++ [tok7.addHint "consider ending the rule with `;`"]) := by
      simp
    have hA2 := List.any_eq_false.mp herr _ hmem
    have hAerr : (tokA.convertKind SyntaxKind.Identifier).erroneous = false := by
      simpa using hA2
    have htokAerr : tokA.erroneous = false := by
      rw [convertKind_erroneous] at hAerr
      exact hAerr
    rcases hdA with ⟨htest, hnif⟩ | herr2
    · have htest2 := htest
      simp [patKinds] at htest2
      have hkid : tokA.kind = SyntaxKind.Identifier := by
        rcases htest2 with h | h
        · exact h
        · exact absurd h hnif
      have hk9 : (tokA.convertKind SyntaxKind.Identifier).kind = SyntaxKind.Identifier :=
        convertKind_kind _ _ (by rw [hkid]; decide)
      refine List.find?_isSome.mpr ⟨tokA.convertKind SyntaxKind.Identifier, ?_, ?_⟩
      · simp
      · simp [hk9]
    · rw [herr2] at htokAerr
      exact absurd htokAerr (by simp)
  · intro hrne
    have h1 := hcur1 hrne
    have hlt := (Scanner.rest_ne_nil_iff p0.lx).mp hrne
    have h2 := hst17.2
    show p7.lx.remaining < p0.lx.remaining
    rw [Scanner.remaining, Scanner.remaining, hst07.1]
    omega

theorem parseLoopF_spec (f : Nat) : ∀ (p : PState),
    2 * p.lx.remaining + 3 ≤ f → NodesOk p.nodes →
    ∃ t, parseLoopF f p = some t ∧ t.kind = SyntaxKind.Root ∧
      NodesOk t.children := by
  induction f with
  | zero =>
    intro p hf _
    omega
  | succ f ih =>
    intro p hf hnp
    obtain ⟨p1, he1, hst1, -, -, tr1, hn1, htr1⟩ := eatWhileF_spec f
      (patFn SyntaxKind.isTrivia) p p.nodes.length (by decide)
      (by omega) (GoodSt_len p)
    have hnp1 : NodesOk p1.nodes := by
      intro n hn
      rw [hn1] at hn
      rcases List.mem_append.mp hn with h | h
      · exact hnp n h
      · exact ⟨(htr1 n h).1, fun hk _ => absurd hk (htr1 n h).2⟩
    by_cases hdone : p1.lx.done = true
    · refine ⟨SyntaxNode.mkInner SyntaxKind.Root p1.nodes, ?_, rfl, ?_⟩
      · rw [parseLoopF]
        simp [Option.bind, he1, hdone]
      · rw [mkInner_children]
        exact hnp1
    · have hrne : p1.lx.rest ≠ [] := by
        intro h
        apply hdone
        rw [Scanner.done, h]
        rfl
      have hrem1 := Step.remaining_le hst1
      obtain ⟨rn, q, her, hster, hqnodes, hrH, hrK, hrF, hrdec⟩ :=
        ruleF_spec f p1 (by omega)
      have hdec := hrdec hrne
      have hnpq : NodesOk q.nodes := by
        intro n hn
        rw [hqnodes] at hn
        rcases List.mem_append.mp hn with h | h
        · exact hnp1 n h
        · rcases List.mem_singleton.mp h with rfl
          exact ⟨hrH, fun _ herr => hrF herr⟩
      obtain ⟨t, hrec, htk, htc⟩ := ih q (by omega) hnpq
      refine ⟨t, ?_, htk, htc⟩
      rw [parseLoopF]
      simp [Option.bind, he1, hdone, her, hrec]

theorem parse_spec (input : List Char) :
    ∃ t, parse input = some t ∧ t.kind = SyntaxKind.Root ∧
      NodesOk t.children := by
  obtain ⟨t, hv, hk, hc⟩ := parseLoopF_spec (2 * input.length + 4)
    ⟨⟨input, 0⟩, []⟩
    (by
      show 2 * ((⟨input, 0⟩ : Scanner).remaining) + 3 ≤
        2 * input.length + 4
      rw [show (⟨input, 0⟩ : Scanner).remaining = input.length from rfl]
      omega)
    (fun n hn => absurd hn (List.not_mem_nil n))
  exact ⟨t, by rw [parse]; exact hv, hk, hc⟩

theorem rulesAdd_ok (rules : Rules) (name href : String)
    (h : RulesOk rules) : RulesOk (rulesAdd rules name href) := by
  intro e he
  rw [rulesAdd] at he
  by_cases hf : (rules.find? (fun e => e.1 == name)).isSome = true
  · rw [if_pos hf] at he
    rcases List.mem_map.mp he with ⟨e0, he0, heq⟩
    by_cases hn : (e0.1 == name) = true
    · rw [if_pos hn] at heq
      rw [← heq]
      simp
    · rw [if_neg hn] at heq
      rw [← heq]
      exact h e0 he0
  · rw [if_neg hf] at he
    rcases List.mem_append.mp he with h2 | h2
    · exact h e h2
    · rcases List.mem_singleton.mp h2 with rfl
      simp

theorem foldl_rulesOk {α : Type} (g : Rules → α → Rules)
    (hpres : ∀ t a, RulesOk t → RulesOk (g t a)) :
    ∀ (l : List α) (t : Rules), RulesOk t → RulesOk (l.foldl g t) := by
  intro l
  induction l with
  | nil =>
    intro t h
    exact h
  | cons a as ih =>
    intro t h
    rw [List.foldl_cons]
    exact ih (g t a) (hpres t a h)

theorem findRulesNode_ok (page : Page) (root : String) (t : Rules)
    (node : SyntaxNode) (h : RulesOk t) :
    RulesOk (findRulesNode page root t node) := by
  rw [findRulesNode]
  by_cases hc : (node.kind == SyntaxKind.Rule && !node.erroneous) = true
  · rw [if_pos hc]
    cases hfind : node.children.find?
        (fun sub => sub.kind == SyntaxKind.Identifier) with
    | none => exact h
    | some sub => exact rulesAdd_ok t _ _ h
  · rw [if_neg hc]
    exact h

theorem findRulesItem_ok (page : Page) (root : String) (t : Rules)
    (item : Item) (h : RulesOk t) :
    RulesOk (findRulesItem page root t item) := by
  cases item with
  | text s =>
    rw [findRulesItem]
    · exact h
    · intro code hcon
      exact Item.noConfusion hcon
  | code code =>
    rw [findRulesItem]
    exact foldl_rulesOk (findRulesNode page root)
      (fun t2 nd h2 => findRulesNode_ok page root t2 nd h2)
      code.children t h

theorem findRulesPage_ok (root : String) (t : Rules) (page : Page)
    (h : RulesOk t) : RulesOk (findRulesPage root t page) := by
  rw [findRulesPage]
  exact foldl_rulesOk (findRulesItem page root)
    (fun t2 it h2 => findRulesItem_ok page root t2 it h2) page.items t h

theorem findRules_ok (pages : List Page) (root : String) :
    RulesOk (findRules pages root) := by
  rw [findRules]
  exact foldl_rulesOk (findRulesPage root)
    (fun t pg h => findRulesPage_ok root t pg h) pages []
    (fun e he => absurd he (List.not_mem_nil e))

theorem rulesGet_ne_nil (rules : Rules) (h : RulesOk rules)
    (name : String) : rulesGet rules name ≠ some [] := by
  rw [rulesGet]
  intro hc
  cases hfind : rules.find? (fun e => e.1 == name) with
  | none =>
    rw [hfind] at hc
    exact absurd hc (by simp)
  | some e =>
    rw [hfind] at hc
    simp at hc
    exact h e (List.mem_of_find?_eq_some hfind) hc

theorem wrapIdentifier_some (rules : Rules) (node : SyntaxNode)
    (h : RulesOk rules) : (wrapIdentifier rules node).isSome = true := by
  cases hget : rulesGet rules ⟨node.text⟩ with
  | none => simp [wrapIdentifier, hget]
  | some hrefs =>
    by_cases hl : hrefs.length > 1
    · simp [wrapIdentifier, hget, hl]
    · cases hrefs with
      | nil => exact absurd hget (rulesGet_ne_nil rules h _)
      | cons a as =>
        simp only [wrapIdentifier, hget]
        split
        · rfl
        · rfl

theorem mapM_loop_isSome (f : SyntaxNode → Option String) :
    ∀ (l : List SyntaxNode) (acc : List String),
    (∀ x ∈ l, (f x).isSome = true) →
    (List.mapM.loop f l acc).isSome = true := by
  intro l
  induction l with
  | nil =>
    intro acc h
    rfl
  | cons a as ih =>
    intro acc h
    rw [List.mapM.loop]
    obtain ⟨b, hb⟩ := Option.isSome_iff_exists.mp (h a (by simp))
    rw [hb]
    exact ih (b :: acc) (fun x hx => h x (by simp [hx]))

theorem mapM_option_isSome (f : SyntaxNode → Option String)
    (l : List SyntaxNode) (h : ∀ x ∈ l, (f x).isSome = true) :
    (l.mapM f).isSome = true := by
  show (List.mapM.loop f l []).isSome = true
  exact mapM_loop_isSome f l [] h

theorem honest_error_asError (n : SyntaxNode) (hn : HonestN n)
    (hk : n.kind = SyntaxKind.Error) : n.asError.isSome = true := by
  cases hn with
  | leaf k t sp hk2 =>
    rw [show (SyntaxNode.leaf k t sp).kind = k from rfl] at hk
    rw [hk] at hk2
    exact absurd hk2 (by decide)
  | error e t sp => rfl
  | inner k sp er cs hk2 hcs =>
    rw [show (SyntaxNode.inner k sp er cs).kind = k from rfl] at hk
    rw [hk] at hk2
    exact absurd hk2 (by decide)

theorem wrapDispatch_some (rules : Rules) (node : SyntaxNode)
    (sub : Unit → Option (List String)) (hr : RulesOk rules)
    (hn : HonestN node) (hsub : (sub ()).isSome = true) :
    (wrapDispatch rules node sub).isSome = true := by
  rw [wrapDispatch]
  by_cases h1 : (node.kind == SyntaxKind.Error) = true
  · rw [if_pos h1, wrapError]
    obtain ⟨e, he⟩ := Option.isSome_iff_exists.mp
      (honest_error_asError node hn (by simpa using h1))
    rw [he]
    rfl
  · rw [if_neg h1]
    by_cases h2 : (node.kind == SyntaxKind.Comment) = true
    · rw [if_pos h2]
      rfl
    · rw [if_neg h2]
      by_cases h3 : (node.kind == SyntaxKind.Whitespace) = true
      · rw [if_pos h3]
        rfl
      · rw [if_neg h3]
        by_cases h4 : (node.kind == SyntaxKind.Identifier) = true
        · rw [if_pos h4]
          exact wrapIdentifier_some rules node hr
        · rw [if_neg h4]
          by_cases h5 : (node.kind == SyntaxKind.String) = true
          · rw [if_pos h5]
            rfl
          · rw [if_neg h5]
            by_cases h6 : (node.kind == SyntaxKind.Integer) = true
            · rw [if_pos h6]
              rfl
            · rw [if_neg h6]
              by_cases h7 : (node.kind == SyntaxKind.Meta) = true
              · rw [if_pos h7]
                rfl
              · rw [if_neg h7]
                by_cases h8 : (node.kind == SyntaxKind.Operation) = true
                · rw [if_pos h8]
                  rfl
                · rw [if_neg h8]
                  by_cases h9 : (node.kind == SyntaxKind.If) = true
                  · rw [if_pos h9]
                    rfl
                  · rw [if_neg h9]
                    by_cases h10 : node.kind.isOperator = true
                    · rw [if_pos h10]
                      rfl
                    · rw [if_neg h10]
                      obtain ⟨v, hv⟩ := Option.isSome_iff_exists.mp hsub
                      rw [hv]
                      rfl

theorem wrapList_isSome (rules : Rules) :
    ∀ (cs : List SyntaxNode),
    (∀ c ∈ cs, (wrapN rules c).isSome = true) →
    (wrapList rules cs).isSome = true := by
  intro cs
  induction cs with
  | nil =>
    intro h
    rw [wrapList]
    rfl
  | cons a as ih =>
    intro h
    rw [wrapList]
    obtain ⟨b, hb⟩ := Option.isSome_iff_exists.mp (h a (by simp))
    obtain ⟨bs, hbs⟩ := Option.isSome_iff_exists.mp
      (ih (fun x hx => h x (by simp [hx])))
    simp [Option.bind, hb, hbs]

theorem wrapN_some (rules : Rules) (hr : RulesOk rules) :
    ∀ (node : SyntaxNode), HonestN node →
    (wrapN rules node).isSome = true := by
  intro node hn
  induction hn with
  | leaf k t sp hk =>
    rw [wrapN]
    · exact wrapDispatch_some rules _ _ hr (HonestN.leaf k t sp hk) rfl
    · intro kind span er cs hcon
      exact SyntaxNode.noConfusion hcon
  | error e t sp =>
    rw [wrapN]
    · exact wrapDispatch_some rules _ _ hr (HonestN.error e t sp) rfl
    · intro kind span er cs hcon
      exact SyntaxNode.noConfusion hcon
  | inner k sp er cs hk hcs ih =>
    rw [wrapN]
    refine wrapDispatch_some rules _ _ hr
      (HonestN.inner k sp er cs hk hcs) ?_
    exact wrapList_isSome rules cs ih

theorem parseRule_some (rules : Rules) (rule : SyntaxNode)
    (hr : RulesOk rules) (hH : HonestN rule)
    (hfind : (rule.children.find?
      (fun n => n.kind == SyntaxKind.Identifier)).isSome = true) :
    (parseRule rules rule).isSome = true := by
  rw [parseRule]
  obtain ⟨idn, hidn⟩ := Option.isSome_iff_exists.mp hfind
  obtain ⟨s, hs⟩ := Option.isSome_iff_exists.mp
    (wrapN_some rules hr rule hH)
  simp [Option.bind, hidn, hs]

theorem parseCode_some (rules : Rules) (code : SyntaxNode)
    (hr : RulesOk rules) (hch : NodesOk code.children) :
    (parseCode rules code).isSome = true := by
  rw [parseCode]
  have hpt : ∀ x ∈ code.children,
      (if x.kind == SyntaxKind.Rule && !x.erroneous
        then parseRule rules x else wrapN rules x).isSome = true := by
    intro x hx
    by_cases hc : (x.kind == SyntaxKind.Rule && !x.erroneous) = true
    · rw [if_pos hc]
      have hc2 := hc
      simp only [Bool.and_eq_true, beq_iff_eq, Bool.not_eq_true'] at hc2
      exact parseRule_some rules x hr (hch x hx).1
        ((hch x hx).2 hc2.1 hc2.2)
    · rw [if_neg hc]
      exact wrapN_some rules hr x (hch x hx).1
  obtain ⟨parts, hparts⟩ := Option.isSome_iff_exists.mp
    (mapM_option_isSome _ code.children hpt)
  rw [hparts]
  rfl

/-! ### Rule-table lemmas -/

theorem rulesGet_cons (e : String × List String) (t : Rules) (m : String) :
    rulesGet (e :: t) m = if e.1 == m then some e.2 else rulesGet t m := by
  by_cases h : (e.1 == m) = true
  · simp [rulesGet, List.find?_cons_of_pos _ h, h]
  · have h' : ¬ (fun x : String × List String => x.1 == m) e = true := h
    simp only [rulesGet, List.find?_cons_of_neg _ h']
    simp [h]

theorem rulesUpd_pos (e : String × List String) (n v : String)
    (he : (e.1 == n) = true) :
    (if e.1 == n then (e.1, e.2 ++ [v]) else e) = (e.1, e.2 ++ [v]) :=
  if_pos he

theorem rulesUpd_neg (e : String × List String) (n v : String)
    (he : ¬ (e.1 == n) = true) :
    (if e.1 == n then (e.1, e.2 ++ [v]) else e) = e :=
  if_neg he

theorem rulesGet_map_ne (t : Rules) (n v m : String) (h : n ≠ m) :
    rulesGet (t.map (fun e => if e.1 == n then (e.1, e.2 ++ [v]) else e)) m =
      rulesGet t m := by
  induction t with
  | nil => rfl
  | cons e t ih =>
    simp only [List.map_cons]
    by_cases he : (e.1 == n) = true
    · have he' : e.1 = n := by simpa using he
      have hm : ¬ (e.1 == m) = true := by simp [he', h]
      rw [rulesUpd_pos e n v he, rulesGet_cons, rulesGet_cons,
        if_neg hm, if_neg hm, ih]
    · rw [rulesUpd_neg e n v he, rulesGet_cons, rulesGet_cons, ih]

theorem rulesGet_rulesAdd (t : Rules) (n v m : String) :
    rulesGet (rulesAdd t n v) m =
      if n = m then some ((rulesGet t n).getD [] ++ [v])
      else rulesGet t m := by
  induction t with
  | nil =>
    by_cases h : n = m
    · simp [rulesAdd, rulesGet, List.find?, h]
    · have h' : (n == m) = false := by simp [h]
      simp [rulesAdd, rulesGet, List.find?, h, h']
  | cons e t ih =>
    by_cases he : (e.1 == n) = true
    · have he' : e.1 = n := by simpa using he
      have hsome : (e :: t).find? (fun x => x.1 == n) = some e :=
        List.find?_cons_of_pos t he
      have hfind : ((e :: t).find? (fun x => x.1 == n)).isSome = true := by
        rw [hsome]; rfl
      rw [rulesAdd, if_pos hfind]
      simp only [List.map_cons]
      rw [rulesUpd_pos e n v he, rulesGet_cons]
      by_cases hm : n = m
      · subst hm
        rw [if_pos he, if_pos rfl, rulesGet_cons, if_pos he]
        rfl
      · have hm' : ¬ (e.1 == m) = true := by simp [he', hm]
        rw [if_neg hm', rulesGet_map_ne t n v m hm, if_neg hm,
          rulesGet_cons, if_neg hm']
    · have hfcons : (e :: t).find? (fun x => x.1 == n) =
          t.find? (fun x => x.1 == n) :=
        List.find?_cons_of_neg t he
      by_cases hf : ((t.find? (fun x => x.1 == n)).isSome) = true
      · have hfind : ((e :: t).find? (fun x => x.1 == n)).isSome = true := by
          rw [hfcons]; exact hf
        rw [rulesAdd, if_pos hfind]
        simp only [List.map_cons]
        rw [rulesUpd_neg e n v he, rulesGet_cons]
        have hmap : t.map
            (fun e => if e.1 == n then (e.1, e.2 ++ [v]) else e) =
            rulesAdd t n v := by
          rw [rulesAdd, if_pos hf]
        by_cases hem : (e.1 == m) = true
        · have hem' : e.1 = m := by simpa using hem
          have hnm : ¬ n = m := fun hh =>
            absurd (by simp [hem', hh] : (e.1 == n) = true) he
          rw [if_pos hem, if_neg hnm, rulesGet_cons, if_pos hem]
        · rw [if_neg hem, hmap, ih]
          by_cases hm : n = m
          · rw [if_pos hm, if_pos hm, rulesGet_cons, if_neg he]
          · rw [if_neg hm, if_neg hm, rulesGet_cons, if_neg hem]
      · have hfind : ¬ ((e :: t).find? (fun x => x.1 == n)).isSome = true := by
          rw [hfcons]; exact hf
        have htail : rulesAdd t n v = t ++ [(n, [v])] := by
          rw [rulesAdd, if_neg hf]
        rw [rulesAdd, if_neg hfind, List.cons_append, ← htail, rulesGet_cons]
        by_cases hem : (e.1 == m) = true
        · have hem' : e.1 = m := by simpa using hem
          have hnm : ¬ n = m := fun hh =>
            absurd (by simp [hem', hh] : (e.1 == n) = true) he
          rw [if_pos hem, if_neg hnm, rulesGet_cons, if_pos hem]
        · rw [if_neg hem, ih]
          by_cases hm : n = m
          · rw [if_pos hm, if_pos hm, rulesGet_cons, if_neg he]
          · rw [if_neg hm, if_neg hm, rulesGet_cons, if_neg hem]

theorem rulesCombine_append (o : Option (List String)) (l1 l2 : List String) :
    rulesCombine o (l1 ++ l2) = rulesCombine (rulesCombine o l1) l2 := by
  cases l1 with
  | nil => simp [rulesCombine]
  | cons x l1 =>
    cases l2 with
    | nil => simp [rulesCombine]
    | cons y l2 => simp [rulesCombine, List.append_assoc]

theorem findRulesNode_get (page : Page) (root name : String) (t : Rules)
    (node : SyntaxNode) :
    rulesGet (findRulesNode page root t node) name =
      rulesCombine (rulesGet t name)
        (if c4RuleMatches name node then
          [root ++ page.href ++ "#" ++ ruleHash name] else []) := by
  by_cases hk : (node.kind == SyntaxKind.Rule && !node.erroneous) = true
  · rcases hf : node.children.find?
        (fun sub => sub.kind == SyntaxKind.Identifier) with _ | sub
    · have hcm : c4RuleMatches name node = false := by
        rw [c4RuleMatches]
        simp [hk, hf]
      have hfr : findRulesNode page root t node = t := by
        rw [findRulesNode, if_pos hk, hf]
      rw [hfr, hcm]
      rfl
    · by_cases hn : ((⟨sub.text⟩ : String) == name) = true
      · have hn' : (⟨sub.text⟩ : String) = name := by simpa using hn
        have hcm : c4RuleMatches name node = true := by
          rw [c4RuleMatches]
          simp [hk, hf, hn]
        have hfr : findRulesNode page root t node =
            rulesAdd t name (root ++ page.href ++ "#" ++ ruleHash name) := by
          rw [findRulesNode, if_pos hk, hf]
          rw [show (match some sub with
            | some sub =>
              rulesAdd t (⟨sub.text⟩ : String)
                (root ++ page.href ++ "#" ++ ruleHash (⟨sub.text⟩ : String))
            | none => t) = rulesAdd t (⟨sub.text⟩ : String)
              (root ++ page.href ++ "#" ++
                ruleHash (⟨sub.text⟩ : String)) from rfl, hn']
        rw [hfr, hcm, if_pos rfl, rulesGet_rulesAdd, if_pos rfl]
        rfl
      · have hn' : ¬ (⟨sub.text⟩ : String) = name := by simpa using hn
        have hcm : c4RuleMatches name node = false := by
          rw [c4RuleMatches]
          simp [hk, hf, hn]
        have hfr : findRulesNode page root t node =
            rulesAdd t (⟨sub.text⟩ : String)
              (root ++ page.href ++ "#" ++
                ruleHash (⟨sub.text⟩ : String)) := by
          rw [findRulesNode, if_pos hk, hf]
        rw [hfr, hcm, rulesGet_rulesAdd, if_neg hn']
        rfl
  · have hcm : c4RuleMatches name node = false := by
      rw [c4RuleMatches]
      simp [hk]
    have hfr : findRulesNode page root t node = t := by
      rw [findRulesNode, if_neg hk]
    rw [hfr, hcm]
    rfl

theorem findRulesNode_fold (page : Page) (root name : String)
    (cs : List SyntaxNode) : ∀ (t : Rules),
    rulesGet (cs.foldl (findRulesNode page root) t) name =
      rulesCombine (rulesGet t name)
        ((cs.filter (c4RuleMatches name)).map
          (fun _ => root ++ page.href ++ "#" ++ ruleHash name)) := by
  induction cs with
  | nil => intro t; rfl
  | cons node cs ih =>
    intro t
    rw [List.foldl_cons, ih, findRulesNode_get]
    by_cases hm : c4RuleMatches name node = true
    · rw [if_pos hm, List.filter_cons_of_pos hm, List.map_cons,
        ← rulesCombine_append]
      rfl
    · rw [if_neg hm, List.filter_cons_of_neg (by simp [hm])]
      rfl

theorem findRulesItem_get (page : Page) (root name : String) (t : Rules)
    (item : Item) :
    rulesGet (findRulesItem page root t item) name =
      rulesCombine (rulesGet t name) (c4ItemLocs page root name item) := by
  cases item with
  | text l => rfl
  | code code => exact findRulesNode_fold page root name code.children t

theorem findRulesItem_fold (page : Page) (root name : String)
    (items : List Item) : ∀ (t : Rules),
    rulesGet (items.foldl (findRulesItem page root) t) name =
      rulesCombine (rulesGet t name)
        ((items.map (c4ItemLocs page root name)).flatten) := by
  induction items with
  | nil => intro t; rfl
  | cons item items ih =>
    intro t
    rw [List.foldl_cons, ih, findRulesItem_get, List.map_cons,
      List.flatten_cons, rulesCombine_append]

theorem findRulesPage_fold (root name : String) (pages : List Page) :
    ∀ (t : Rules),
    rulesGet (pages.foldl (findRulesPage root) t) name =
      rulesCombine (rulesGet t name)
        ((pages.map (fun page =>
          (page.items.map (c4ItemLocs page root name)).flatten)).flatten) := by
  induction pages with
  | nil => intro t; rfl
  | cons page pages ih =>
    intro t
    rw [List.foldl_cons, ih, List.map_cons, List.flatten_cons,
      rulesCombine_append, findRulesPage, findRulesItem_fold]

/-! ### Segmenter lemmas -/

theorem isPrefixOf_append_self (l t : List Char) :
    l.isPrefixOf (l ++ t) = true := by
  induction l with
  | nil => simp [List.isPrefixOf]
  | cons c l ih => simp [List.isPrefixOf, ih]

theorem replicate_isPrefixOf_append_false (inner : List Char) :
    ∀ (n : Nat) (Y : List Char), 1 ≤ n → inner ≠ [] →
    (List.replicate n '\x60').isPrefixOf inner = false →
    inner.getLast? ≠ some '\x60' →
    (List.replicate n '\x60').isPrefixOf (inner ++ Y) = false := by
  induction inner with
  | nil => intro n Y _ hne _ _; exact absurd rfl hne
  | cons c inner ih =>
    intro n Y hn hne hpre hlast
    obtain ⟨m, rfl⟩ : ∃ m, n = m + 1 := ⟨n - 1, by omega⟩
    rw [List.replicate_succ, List.cons_append]
    rw [List.replicate_succ] at hpre
    by_cases hc : ('\x60' == c) = true
    · have hc' : c = '\x60' := by
        have := (beq_iff_eq.mp hc).symm
        exact this
      rcases inner with _ | ⟨d, inner⟩
      · exact absurd (by rw [hc']; rfl) hlast
      · rcases Nat.eq_zero_or_pos m with hm | hm
        · subst hm
          rw [show List.replicate 0 '\x60' = [] from rfl] at hpre
          simp [List.isPrefixOf, hc] at hpre
        · have hpre' : (List.replicate m '\x60').isPrefixOf (d :: inner) =
              false := by
            cases hq : (List.replicate m '\x60').isPrefixOf (d :: inner)
            · rfl
            · rw [show ('\x60' :: List.replicate m '\x60').isPrefixOf
                  (c :: d :: inner) =
                  (('\x60' == c) && (List.replicate m '\x60').isPrefixOf
                    (d :: inner)) from rfl, hq, hc] at hpre
              simp at hpre
          have hlast' : (d :: inner).getLast? ≠ some '\x60' := by
            rw [List.getLast?_cons_cons] at hlast
            exact hlast
          have hres := ih m Y hm (by simp) hpre' hlast'
          rw [show ('\x60' :: List.replicate m '\x60').isPrefixOf
              (c :: ((d :: inner) ++ Y)) =
              (('\x60' == c) && (List.replicate m '\x60').isPrefixOf
                ((d :: inner) ++ Y)) from rfl, hres]
          simp
    · rw [show ('\x60' :: List.replicate m '\x60').isPrefixOf
          (c :: (inner ++ Y)) =
          (('\x60' == c) && (List.replicate m '\x60').isPrefixOf
            (inner ++ Y)) from rfl]
      simp [hc]

theorem countUntilStr_boundary (n : Nat) (hn : 1 ≤ n)
    (inner rest : List Char)
    (hsub : substrB (List.replicate n '\x60') inner = false)
    (hlast : inner.getLast? ≠ some '\x60') :
    countUntilStr (List.replicate n '\x60')
      (inner ++ (List.replicate n '\x60' ++ rest)) = inner.length := by
  induction inner with
  | nil =>
    obtain ⟨m, hm⟩ : ∃ m, n = m + 1 := ⟨n - 1, by omega⟩
    subst hm
    rw [List.nil_append, List.replicate_succ, List.cons_append,
      countUntilStr]
    have hcond : ('\x60' :: List.replicate m '\x60').isPrefixOf
        ('\x60' :: (List.replicate m '\x60' ++ rest)) = true := by
      rw [show ('\x60' :: (List.replicate m '\x60' ++ rest)) =
        ('\x60' :: List.replicate m '\x60') ++ rest by simp]
      exact isPrefixOf_append_self _ _
    rw [if_pos hcond]
    rfl
  | cons c inner ih =>
    have h0 : (List.replicate n '\x60').isPrefixOf (c :: inner) = false := by
      cases hq : (List.replicate n '\x60').isPrefixOf (c :: inner)
      · rfl
      · rw [substrB, hq] at hsub
        simp at hsub
    have hsub' : substrB (List.replicate n '\x60') inner = false := by
      cases hq : substrB (List.replicate n '\x60') inner
      · rfl
      · rw [substrB, hq] at hsub
        simp at hsub
    have hfalse : (List.replicate n '\x60').isPrefixOf
        ((c :: inner) ++ (List.replicate n '\x60' ++ rest)) = false :=
      replicate_isPrefixOf_append_false (c :: inner) n _ hn (by simp) h0 hlast
    rw [List.cons_append] at hfalse
    rw [List.cons_append, countUntilStr, if_neg (by rw [hfalse]; simp)]
    have hlast' : inner.getLast? ≠ some '\x60' := by
      rcases inner with _ | ⟨d, t⟩
      · simp
      · rw [List.getLast?_cons_cons] at hlast
        exact hlast
    rw [ih hsub' hlast', List.length_cons]

theorem parseContentStep_char (c : Char) (rest : List Char)
    (hc : c ≠ '\x60') :
    parseContentStep (c :: rest) = some (Sum.inr (c, rest)) := by
  have ht : fenceTicks (c :: rest) = 0 := by
    rw [fenceTicks, countWhile]
    simp [List.takeWhile_cons, hc]
  rw [parseContentStep]
  simp [ht]

theorem parseContentStep_of_fence (rem : List Char) (hne : rem ≠ [])
    (hg : (3 ≤ fenceTicks rem &&
      "syntax\n".data.isPrefixOf (rem.drop (fenceTicks rem))) = true) :
    parseContentStep rem =
      some (Sum.inl (fenceInner rem, fenceAfterClose rem)) := by
  rcases rem with _ | ⟨c, rest⟩
  · exact absurd rfl hne
  · rw [parseContentStep, if_pos hg]

theorem parseContentStep_fence (n : Nat) (inner rest : List Char)
    (hn : 3 ≤ n)
    (hsub : substrB (List.replicate n '\x60') inner = false)
    (hlast : inner.getLast? ≠ some '\x60') :
    parseContentStep
      (List.replicate n '\x60' ++ ("syntax\n".data ++
        (inner ++ (List.replicate n '\x60' ++ rest)))) =
      some (Sum.inl (inner, rest)) := by
  have hb : ∀ x, x ∈ List.replicate n '\x60' → (x == '\x60') = true := by
    intro x hx
    rw [List.eq_of_mem_replicate hx]
    simp
  have hticks : fenceTicks (List.replicate n '\x60' ++ ("syntax\n".data ++
      (inner ++ (List.replicate n '\x60' ++ rest)))) = n := by
    rw [fenceTicks,
      show ("syntax\n".data ++ (inner ++ (List.replicate n '\x60' ++ rest))) =
        's' :: ("yntax\n".data ++ (inner ++ (List.replicate n '\x60' ++ rest)))
        from rfl,
      countWhile_append _ _ _ _ hb (by decide), List.length_replicate]
  have hdrop : (List.replicate n '\x60' ++ ("syntax\n".data ++
      (inner ++ (List.replicate n '\x60' ++ rest)))).drop n =
      "syntax\n".data ++ (inner ++ (List.replicate n '\x60' ++ rest)) :=
    List.drop_left' (by simp)
  have hafter : fenceAfterOpen (List.replicate n '\x60' ++ ("syntax\n".data ++
      (inner ++ (List.replicate n '\x60' ++ rest)))) =
      inner ++ (List.replicate n '\x60' ++ rest) := by
    rw [fenceAfterOpen, hticks, hdrop]
    exact List.drop_left' (by rfl)
  have hinlen : fenceInnerLen (List.replicate n '\x60' ++ ("syntax\n".data ++
      (inner ++ (List.replicate n '\x60' ++ rest)))) = inner.length := by
    rw [fenceInnerLen, hticks, hafter]
    exact countUntilStr_boundary n (by omega) inner rest hsub hlast
  have hinner : fenceInner (List.replicate n '\x60' ++ ("syntax\n".data ++
      (inner ++ (List.replicate n '\x60' ++ rest)))) = inner := by
    rw [fenceInner, hafter, hinlen]
    exact List.take_left inner _
  have hai : (fenceAfterOpen (List.replicate n '\x60' ++ ("syntax\n".data ++
      (inner ++ (List.replicate n '\x60' ++ rest))))).drop
      (fenceInnerLen (List.replicate n '\x60' ++ ("syntax\n".data ++
        (inner ++ (List.replicate n '\x60' ++ rest))))) =
      List.replicate n '\x60' ++ rest := by
    rw [hafter, hinlen]
    exact List.drop_left inner _
  have hclose : fenceAfterClose (List.replicate n '\x60' ++ ("syntax\n".data ++
      (inner ++ (List.replicate n '\x60' ++ rest)))) = rest := by
    rw [fenceAfterClose, hai, hticks, if_pos (isPrefixOf_append_self _ _)]
    exact List.drop_left' (by simp)
  have hguard : (3 ≤ fenceTicks (List.replicate n '\x60' ++ ("syntax\n".data ++
      (inner ++ (List.replicate n '\x60' ++ rest)))) &&
      "syntax\n".data.isPrefixOf
        ((List.replicate n '\x60' ++ ("syntax\n".data ++
          (inner ++ (List.replicate n '\x60' ++ rest)))).drop
          (fenceTicks (List.replicate n '\x60' ++ ("syntax\n".data ++
            (inner ++ (List.replicate n '\x60' ++ rest))))))) = true := by
    rw [hticks, hdrop]
    simp [hn, isPrefixOf_append_self]
  rw [parseContentStep_of_fence _ (by simp) hguard, hinner, hclose]

theorem parseContentStep_inl (rem inner ac : List Char)
    (h : parseContentStep rem = some (Sum.inl (inner, ac))) :
    ac.length < rem.length := by
  rcases rem with _ | ⟨c, rest⟩
  · rw [parseContentStep] at h
    exact absurd h (by simp)
  rw [parseContentStep] at h
  by_cases hg : (3 ≤ fenceTicks (c :: rest) &&
      "syntax\n".data.isPrefixOf
        ((c :: rest).drop (fenceTicks (c :: rest)))) = true
  · rw [if_pos hg] at h
    have h3 : 3 ≤ fenceTicks (c :: rest) := by
      have := (Bool.and_eq_true _ _).mp hg
      exact of_decide_eq_true this.1
    simp only [Option.some.injEq, Sum.inl.injEq, Prod.mk.injEq] at h
    obtain ⟨-, hac⟩ := h
    subst hac
    rw [fenceAfterClose]
    by_cases hp : ((List.replicate (fenceTicks (c :: rest)) '\x60').isPrefixOf
        ((fenceAfterOpen (c :: rest)).drop
          (fenceInnerLen (c :: rest)))) = true
    · rw [if_pos hp]
      simp only [fenceAfterOpen, List.length_drop, List.length_cons]
      omega
    · rw [if_neg hp]
      simp only [fenceAfterOpen, List.length_drop, List.length_cons]
      omega
  · rw [if_neg hg] at h
    exact absurd h (by simp)

theorem parseContentStep_inr (rem : List Char) (c : Char) (rest : List Char)
    (h : parseContentStep rem = some (Sum.inr (c, rest))) :
    rem = c :: rest := by
  rcases rem with _ | ⟨c2, rest2⟩
  · rw [parseContentStep] at h
    exact absurd h (by simp)
  rw [parseContentStep] at h
  by_cases hg : (3 ≤ fenceTicks (c2 :: rest2) &&
      "syntax\n".data.isPrefixOf
        ((c2 :: rest2).drop (fenceTicks (c2 :: rest2)))) = true
  · rw [if_pos hg] at h
    exact absurd h (by simp)
  · rw [if_neg hg] at h
    simp only [Option.some.injEq, Sum.inr.injEq, Prod.mk.injEq] at h
    rw [h.1, h.2]

theorem parseContentGo_fence_step (f : Nat) (rem acc inner ac : List Char)
    (h : parseContentStep rem = some (Sum.inl (inner, ac))) :
    parseContentGo (f + 1) rem acc =
      (parse inner).bind (fun tr => (parseContentGo f ac []).bind
        (fun items =>
          some (Item.text acc.reverse :: Item.code tr :: items))) := by
  simp only [parseContentGo, h]
  rfl

theorem parseContentGo_congr (f : Nat) : ∀ (g : Nat) (rem acc : List Char),
    rem.length < f → rem.length < g →
    parseContentGo f rem acc = parseContentGo g rem acc := by
  induction f with
  | zero => intro g rem acc hf _; omega
  | succ f ih =>
    intro g rem acc hf hg
    rcases g with _ | g
    · omega
    simp only [parseContentGo]
    rcases hstep : parseContentStep rem with _ | x
    · rfl
    rcases x with ⟨inner, ac⟩ | ⟨c, rest⟩
    · have hlt := parseContentStep_inl rem inner ac hstep
      show (parse inner).bind (fun tr => (parseContentGo f ac []).bind
          (fun items =>
            some (Item.text acc.reverse :: Item.code tr :: items))) =
        (parse inner).bind (fun tr => (parseContentGo g ac []).bind
          (fun items =>
            some (Item.text acc.reverse :: Item.code tr :: items)))
      rw [ih g ac [] (by omega) (by omega)]
    · have hc := parseContentStep_inr rem c rest hstep
      show parseContentGo f rest (c :: acc) = parseContentGo g rest (c :: acc)
      have hlen : rest.length < rem.length := by
        rw [hc, List.length_cons]
        omega
      exact ih g rest (c :: acc) (by omega) (by omega)

theorem parseContentGo_text (pre : List Char) :
    ∀ (f : Nat) (X acc : List Char), '\x60' ∉ pre →
    parseContentGo (f + pre.length) (pre ++ X) acc =
      parseContentGo f X (pre.reverse ++ acc) := by
  induction pre with
  | nil => intro f X acc _; simp
  | cons c pre ih =>
    intro f X acc hp
    have hc : c ≠ '\x60' := fun h => hp (by simp [h])
    have hstep := parseContentStep_char c (pre ++ X) hc
    show parseContentGo ((f + pre.length) + 1) (c :: (pre ++ X)) acc = _
    simp only [parseContentGo, hstep]
    show parseContentGo (f + pre.length) (pre ++ X) (c :: acc) = _
    rw [ih f X (c :: acc) (fun h => hp (by simp [h]))]
    simp [List.append_assoc]

/-! ## Claim theorems -/

/-- C8: one call to the lexer's `next` either consumes at least one
character of the remaining input (strictly advancing the cursor) or,
exactly when the remaining input is empty, returns a zero-width `End` leaf
without advancing; every further call at the end of input returns `End`
again. -/
theorem c8_lexer_liveness (s : Scanner) :
    (s.rest ≠ [] → s.cursor < (lexNext s).2.cursor) ∧
    (s.rest = [] →
      lexNext s =
        (SyntaxNode.leaf SyntaxKind.End [] (s.cursor, s.cursor), s) ∧
      lexNext (lexNext s).2 = lexNext s) := by
  refine ⟨fun h => lexNext_progress s h, fun h => ?_⟩
  have he := lexNext_end s h
  exact ⟨he, by simp [he]⟩

/-- C10: converting a node that is already an error node to an error leaves
it completely unchanged — message, hints, text and span are all preserved —
so the first error recorded for a token survives any later
`expect()`/`unexpected()` call, whose conversion reaches the last node
through `Parser::error` (here `PState.errorLast`). -/
theorem c10_convert_to_error_preserves (e : SyntaxError) (t : List Char)
    (sp : Nat × Nat) (msg msg2 : String) (lx : Scanner)
    (ns : List SyntaxNode) :
    (SyntaxNode.error e t sp).convertToError msg = SyntaxNode.error e t sp ∧
    PState.errorLast ⟨lx, ns ++ [SyntaxNode.error e t sp]⟩ msg2 =
      some ⟨lx, ns ++ [SyntaxNode.error e t sp]⟩ := by
  refine ⟨rfl, ?_⟩
  simp [PState.errorLast, PState.modifyLast, SyntaxNode.convertToError,
    List.getLast?_concat, List.dropLast_concat]

/-- C2, evaluated at the failing input `-> x;`: the `Action` token rejected
in rule-name position is converted to an error node, and a composite's own
text is empty, so the concatenated leaf/error text of the parsed tree is
`;` — the input is not reproduced. -/
theorem c2_fulltext_loses_action_text :
    (parse "-> x;".data).map SyntaxNode.fullText = some ";".data ∧
    ";".data ≠ "-> x;".data := by
  have h : parse "-> x;".data = some (.inner .Root (0, 5) true
      [.inner .Rule (0, 5) true
        [.error ⟨"expected identifier or if, found action", []⟩ "".data
          (0, 4),
         .error ⟨"expected `:`, found `;`", []⟩ ";".data (4, 5),
         .inner .Definition (0, 0) false [],
         .error ⟨"expected `;`, found end",
           ["consider ending the rule with `;`"]⟩ "".data (5, 5)]]) := by
    rfl
  rw [h]
  refine ⟨?_, by decide⟩
  simp [SyntaxNode.fullText, SyntaxNode.fullTextList]

/-- C3, evaluated at the failing input `if: x;`: the lexer wraps `if` into
an `Action` composite whose kind is `Action`, so the parser's
`expect([Identifier, If])` rejects it and converts it to an error node —
the rule does not parse with `if` as its name, and the `Rule` node is
erroneous. -/
theorem c3_if_rule_name_rejected :
    parse "if: x;".data = some (.inner .Root (0, 6) true
      [.inner .Rule (0, 6) true
        [.error ⟨"expected identifier or if, found action", []⟩ "".data
          (0, 5),
         .error ⟨"expected `:`, found `;`", []⟩ ";".data (5, 6),
         .inner .Definition (0, 0) false [],
         .error ⟨"expected `;`, found end",
           ["consider ending the rule with `;`"]⟩ "".data (6, 6)]]) := by
  rfl

/-- C9's counterexample: lexing the string literal `"\a"` (an unsupported
escape letter) yields an error token whose hint list is empty — the claim's
"with a descriptive hint" fails for this error class. -/
theorem c9_invalid_escape_has_no_hint :
    (lexNext ⟨"\"\\a\"".data, 0⟩).1 =
      SyntaxNode.error ⟨"invalid escape sequence", []⟩ "\"\\a\"".data
        (0, 4) := by
  rfl

/-- C5's counterexample: an identifier that resolves to zero locations is
annotated with the message `rule ` ++ backquoted name ++ ` does not
exist` — the claim's message with straight quotes, "rule 'x' does not
exist", does not occur in the output. -/
theorem c5_message_uses_backticks :
    wrapIdentifier []
        (SyntaxNode.leaf SyntaxKind.Identifier "x".data (0, 1)) =
      some ("<span class=\"syntax-error\" message=\"rule `x` does not " ++
        "exist\" hints=\"[]\">x</span>") ∧
    substrB "rule 'x' does not exist".data
      ("<span class=\"syntax-error\" message=\"rule `x` does not " ++
        "exist\" hints=\"[]\">x</span>").data = false := by
  exact ⟨rfl, by decide⟩

/-- C5 as amended: for an Identifier node rendered against a rule table,
zero locations yield an error annotation with the message
`rule `name` does not exist` (backticks around the name and no hints),
exactly one location yields a hyperlink to it wrapping a styled identifier
span, and two or more locations yield an error annotation with the message
`found multiple definitions for rule `name`` — carrying no location
list. -/
theorem c5_identifier_resolution (rules : Rules) (t : List Char)
    (sp : Nat × Nat) :
    (rulesGet rules ⟨t⟩ = none →
      wrapIdentifier rules (SyntaxNode.leaf SyntaxKind.Identifier t sp) =
        some (wrapErrorRaw ⟨t⟩
          ⟨"rule `" ++ (⟨t⟩ : String) ++ "` does not exist", []⟩)) ∧
    (∀ href, rulesGet rules ⟨t⟩ = some [href] →
      wrapIdentifier rules (SyntaxNode.leaf SyntaxKind.Identifier t sp) =
        some ("<a class=\"syntax-link\" href=\"" ++ href ++ "\">" ++
          wrapNodeRaw ⟨t⟩ "identifier" ++ "</a>")) ∧
    (∀ hrefs, rulesGet rules ⟨t⟩ = some hrefs → 2 ≤ hrefs.length →
      wrapIdentifier rules (SyntaxNode.leaf SyntaxKind.Identifier t sp) =
        some (wrapErrorRaw ⟨t⟩
          ⟨"found multiple definitions for rule `" ++ (⟨t⟩ : String) ++ "`",
           []⟩)) := by
  refine ⟨fun h => ?_, fun href h => ?_, fun hrefs h h2 => ?_⟩
  · simp [wrapIdentifier, SyntaxNode.text, h, SyntaxError.new]
  · simp [wrapIdentifier, SyntaxNode.text, h]
  · simp only [wrapIdentifier, SyntaxNode.text, h]
    rw [if_pos (by omega)]
    simp [SyntaxError.new]

/-- C6, evaluated at a non-erroneous rule `foo` on page `/c.md`: the named
anchor `parse_rule` emits carries `name="#syntax-rule-foo"` — a leading `#`
before the hash — so no anchor whose name attribute equals the hash
`syntax-rule-foo` exists, while the locations `find_rules` builds (and the
claim) point at `…#syntax-rule-foo`, i.e. at an anchor named
`syntax-rule-foo`. -/
theorem c6_anchor_name_has_hash_prefix :
    parseRule [("foo", ["/c.md#syntax-rule-foo"])]
        (SyntaxNode.inner SyntaxKind.Rule (0, 3) false
          [SyntaxNode.leaf SyntaxKind.Identifier "foo".data (0, 3)]) =
      some ("<span class=\"syntax-rule\" rule=\"syntax-rule-foo\">" ++
        "<a name=\"#syntax-rule-foo\"></a>" ++
        "<a class=\"syntax-link\" href=\"/c.md#syntax-rule-foo\">" ++
        "<span class=\"syntax-identifier\">foo</span></a></span>") ∧
    substrB "name=\"#syntax-rule-foo\"".data
      ("<span class=\"syntax-rule\" rule=\"syntax-rule-foo\">" ++
        "<a name=\"#syntax-rule-foo\"></a>" ++
        "<a class=\"syntax-link\" href=\"/c.md#syntax-rule-foo\">" ++
        "<span class=\"syntax-identifier\">foo</span></a></span>").data =
      true ∧
    substrB "name=\"syntax-rule-foo\"".data
      ("<span class=\"syntax-rule\" rule=\"syntax-rule-foo\">" ++
        "<a name=\"#syntax-rule-foo\"></a>" ++
        "<a class=\"syntax-link\" href=\"/c.md#syntax-rule-foo\">" ++
        "<span class=\"syntax-identifier\">foo</span></a></span>").data =
      false := by
  refine ⟨?_, by decide, by decide⟩
  simp only [parseRule, wrapN, wrapList]
  rfl

/-- C7's counterexample: with an opening run of three backticks, the fence
`` ```syntax\na````b``` `` is closed inside the four-backtick run (at its
first three backticks) — not only at a run of exactly the opening length —
so the Code item holds `parse "a"`, not `parse "a````b"`. -/
theorem c7_longer_run_closes_fence :
    parseContent "```syntax\na````b```".data =
      some [Item.text [],
        Item.code (.inner .Root (0, 1) true
          [.inner .Rule (0, 1) true
            [.leaf .Identifier "a".data (0, 1),
             .error ⟨"expected `:`, found end", []⟩ "".data (1, 1),
             .inner .Definition (0, 0) false [],
             .error ⟨"expected `;`, found end",
               ["consider ending the rule with `;`"]⟩ "".data (1, 1)]]),
        Item.text "`b```".data] ∧
    SyntaxNode.fullText (.inner .Root (0, 1) true
      [.inner .Rule (0, 1) true
        [.leaf .Identifier "a".data (0, 1),
         .error ⟨"expected `:`, found end", []⟩ "".data (1, 1),
         .inner .Definition (0, 0) false [],
         .error ⟨"expected `;`, found end",
           ["consider ending the rule with `;`"]⟩ "".data (1, 1)]]) =
      "a".data ∧
    "a".data ≠ "a````b".data := by
  refine ⟨by rfl, ?_, by decide⟩
  simp [SyntaxNode.fullText, SyntaxNode.fullTextList]

/-- C9 (amended): while lexing a string literal, a `\u` escape with no
opening brace takes the next 4 characters and accepts exactly when
`u64::from_str_radix(·, 16)` accepts them — which also admits a leading
`+`, so acceptance is not literally "4 hex digits" — while the braced form
takes a run of alphanumeric characters and accepts exactly when that run
is hex-parseable and the next character closes the brace; a failed value
parse records the "invalid unicode escape" error (hint "unicode must be a
hex number"), a missing closing brace records the "unclosed unicode
escape" error with its closing hint, but an unsupported escape letter
records "invalid escape sequence" with NO hint, contrary to the claim's
"descriptive hint"; and a string with no closing quote before end of
input leaves the error cell at "unclosed string literal", so the token
becomes an Error node holding that error. -/
theorem c9_string_escape_semantics :
    (∀ (c1 c2 c3 c4 : Char) (rest : List Char) (err : Option SyntaxError),
      c1 ≠ '\x7b' →
      lexStringStep ('\\' :: 'u' :: c1 :: c2 :: c3 :: c4 :: rest) err =
        Sum.inr (6,
          (if fromStrRadix16Ok [c1, c2, c3, c4] then err
            else some invalidUnicodeErr), rest)) ∧
    fromStrRadix16Ok ['+', '0', '1', 'f'] = true ∧
    fromStrRadix16Ok [] = false ∧
    (∀ (body rest : List Char) (err : Option SyntaxError),
      (∀ x, x ∈ body → rustIsAlphanumeric x = true) →
      lexStringStep (('\\' :: 'u' :: '\x7b' :: body) ++ '\x7d' :: rest) err =
        Sum.inr (body.length + 4,
          (if fromStrRadix16Ok body then err else some invalidUnicodeErr),
          rest)) ∧
    (∀ (body : List Char) (c : Char) (rest : List Char)
      (err : Option SyntaxError),
      (∀ x, x ∈ body → rustIsAlphanumeric x = true) →
      rustIsAlphanumeric c = false → c ≠ '\x7d' →
      lexStringStep (('\\' :: 'u' :: '\x7b' :: body) ++ c :: rest) err =
        Sum.inr (body.length + 3, some unclosedUnicodeErr, c :: rest)) ∧
    (∀ (c2 : Char) (l2 : List Char) (err : Option SyntaxError),
      c2 ≠ 'n' → c2 ≠ 'r' → c2 ≠ 't' → c2 ≠ 'b' → c2 ≠ 'f' → c2 ≠ '\\' →
      c2 ≠ '"' → c2 ≠ 'u' →
      lexStringStep ('\\' :: c2 :: l2) err =
        Sum.inr (2, some invalidEscapeErr, l2)) ∧
    invalidEscapeErr.hints = [] ∧
    invalidUnicodeErr.hints = ["unicode must be a hex number"] ∧
    unclosedUnicodeErr.hints =
      ["consider closing the unicode escape with `\x7d`"] ∧
    (∀ (l : List Char) (err : Option SyntaxError), '"' ∉ l →
      (lexStringGo l err).2 = some unclosedStringErr) ∧
    (∀ (s : Scanner) (l : List Char) (e : SyntaxError),
      s.rest = '"' :: l → (lexStringGo l none).2 = some e →
      (lexNext s).1 = SyntaxNode.error e
        (s.rest.take (1 + (lexStringGo l none).1))
        (s.cursor, s.cursor + (1 + (lexStringGo l none).1))) := by
  refine ⟨?_, by decide, by decide, ?_, ?_, ?_, rfl, rfl, rfl, ?_, ?_⟩
  · intro c1 c2 c3 c4 rest err h1
    have h1' : ((c1 :: c2 :: c3 :: c4 :: rest).head? == some '\x7b') =
        false := by
      simp [beq_eq_false_iff_ne, h1]
    rw [lexStringStep, if_neg (by decide), if_pos (by decide), lexStringEsc,
      if_neg (by decide), if_pos (by decide),
      if_neg (by rw [h1']; exact Bool.false_ne_true)]
    rfl
  · intro body rest err hb
    have hk : countWhile rustIsAlphanumeric (body ++ '\x7d' :: rest) =
        body.length := countWhile_append _ body _ rest hb (by decide)
    have hd : (body ++ '\x7d' :: rest).drop body.length = '\x7d' :: rest :=
      List.drop_left body _
    have ht : (body ++ '\x7d' :: rest).take body.length = body :=
      List.take_left body _
    have hd2 : (body ++ '\x7d' :: rest).drop (body.length + 1) = rest := by
      rw [show body ++ '\x7d' :: rest = (body ++ ['\x7d']) ++ rest by simp]
      exact List.drop_left' (by simp)
    have hc1 : (('\x7b' :: (body ++ '\x7d' :: rest)).head? ==
        some '\x7b') = true := rfl
    show lexStringStep
        ('\\' :: 'u' :: '\x7b' :: (body ++ '\x7d' :: rest)) err = _
    rw [lexStringStep, if_neg (by decide), if_pos (by decide), lexStringEsc,
      if_neg (by decide), if_pos (by decide), if_pos hc1]
    simp only [List.drop_succ_cons, List.drop_zero, hk, hd, ht, hd2]
    rw [if_pos (show (('\x7d' :: rest).head? == some '\x7d') = true
      from rfl)]
  · intro body c rest err hb hc hne
    have hk : countWhile rustIsAlphanumeric (body ++ c :: rest) =
        body.length := countWhile_append _ body _ rest hb hc
    have hd : (body ++ c :: rest).drop body.length = c :: rest :=
      List.drop_left body _
    have hc1 : (('\x7b' :: (body ++ c :: rest)).head? ==
        some '\x7b') = true := rfl
    show lexStringStep ('\\' :: 'u' :: '\x7b' :: (body ++ c :: rest)) err = _
    rw [lexStringStep, if_neg (by decide), if_pos (by decide), lexStringEsc,
      if_neg (by decide), if_pos (by decide), if_pos hc1]
    simp only [List.drop_succ_cons, List.drop_zero, hk, hd]
    rw [if_neg (by simp [hne])]
  · intro c2 l2 err h1 h2 h3 h4 h5 h6 h7 h8
    rw [lexStringStep, if_neg (by decide), if_pos (by decide), lexStringEsc,
      if_neg (by simp [h1, h2, h3, h4, h5, h6, h7]), if_neg (by simp [h8])]
  · intro l err hq
    exact lexStringGoF_unclosed (l.length + 1) l err (by omega) hq
  · intro s l e hr he
    rw [lexNext_eq_cons s '"' l hr]
    have hcons : lexNextCons s '"' l =
        mkTok s SyntaxKind.String (1 + (lexStringGo l none).1)
          (lexStringGo l none).2 := rfl
    rw [hcons, he]
    simp [mkTok, hr]


/-- C4: for every collection of pages and every root prefix, `find_rules`
maps each rule name to exactly the list of locations
root ++ href ++ "#" ++ "syntax-rule-" ++ name, one entry per non-erroneous
top-level `Rule` child of a stored tree whose first `Identifier` child
reads that name, in page/item/rule iteration order; erroneous rules
contribute nothing, nothing is deduplicated or filtered, and a name with
no such rule is absent from the table (lookup gives none). -/
theorem c4_find_rules_mapping (pages : List Page) (root name : String) :
    rulesGet (findRules pages root) name =
      if c4SpecLocations pages root name = [] then none
      else some (c4SpecLocations pages root name) := by
  rw [findRules, findRulesPage_fold root name pages]
  show rulesCombine (rulesGet ([] : Rules) name)
      (c4SpecLocations pages root name) =
    if c4SpecLocations pages root name = [] then none
    else some (c4SpecLocations pages root name)
  rcases hl : c4SpecLocations pages root name with _ | ⟨x, l⟩
  · rfl
  · simp [rulesCombine, rulesGet]


/-- C7 (amended): a fence opened by a run of n >= 3 backticks immediately
followed by the literal `syntax` and a newline is closed at the FIRST
occurrence of n consecutive backticks — not at the first backtick run of
exactly length n.  When the inner content holds no n consecutive backticks
(and, to keep the opening of the closing run unambiguous, does not itself
end in a backtick), the fence closes at the appended n-backtick marker:
the document splits into the preceding text, one Code item holding the
parse of the inner content, and the segmentation of the remainder. -/
theorem c7_fence_inner_to_first_run (n : Nat) (pre inner rest : List Char)
    (hn : 3 ≤ n) (hpre : '\x60' ∉ pre)
    (hsub : substrB (List.replicate n '\x60') inner = false)
    (hlast : inner.getLast? ≠ some '\x60') :
    parseContent (pre ++ List.replicate n '\x60' ++ "syntax\n".data ++
        inner ++ List.replicate n '\x60' ++ rest) =
      (parse inner).bind (fun tr => (parseContent rest).map
        (fun items => Item.text pre :: Item.code tr :: items)) := by
  have hassoc : pre ++ List.replicate n '\x60' ++ "syntax\n".data ++ inner ++
      List.replicate n '\x60' ++ rest =
      pre ++ (List.replicate n '\x60' ++ ("syntax\n".data ++
        (inner ++ (List.replicate n '\x60' ++ rest)))) := by
    simp [List.append_assoc]
  rw [parseContent, hassoc]
  have hlen : (pre ++ (List.replicate n '\x60' ++ ("syntax\n".data ++
      (inner ++ (List.replicate n '\x60' ++ rest))))).length + 1 =
      ((List.replicate n '\x60' ++ ("syntax\n".data ++
        (inner ++ (List.replicate n '\x60' ++ rest)))).length + 1) +
        pre.length := by
    simp only [List.length_append]
    omega
  rw [hlen, parseContentGo_text pre
    ((List.replicate n '\x60' ++ ("syntax\n".data ++
      (inner ++ (List.replicate n '\x60' ++ rest)))).length + 1)
    (List.replicate n '\x60' ++ ("syntax\n".data ++
      (inner ++ (List.replicate n '\x60' ++ rest)))) [] hpre]
  have hstep := parseContentStep_fence n inner rest hn hsub hlast
  rw [parseContentGo_fence_step
    (List.replicate n '\x60' ++ ("syntax\n".data ++
      (inner ++ (List.replicate n '\x60' ++ rest)))).length
    (List.replicate n '\x60' ++ ("syntax\n".data ++
      (inner ++ (List.replicate n '\x60' ++ rest))))
    (pre.reverse ++ []) inner rest hstep]
  have hcongr : parseContentGo (List.replicate n '\x60' ++ ("syntax\n".data ++
      (inner ++ (List.replicate n '\x60' ++ rest)))).length rest [] =
      parseContentGo (rest.length + 1) rest [] := by
    apply parseContentGo_congr
    · simp only [List.length_append, List.length_replicate]
      omega
    · omega
  rw [hcongr]
  simp only [List.append_nil, List.reverse_reverse]
  rw [parseContent]
  cases parse inner with
  | none => rfl
  | some tr =>
    cases parseContentGo (rest.length + 1) rest [] with
    | none => rfl
    | some items => rfl

theorem c7_fence_inner_to_first_run_witness :
    parseContent (['x', ' '] ++ List.replicate 3 '\x60' ++ "syntax\n".data ++
        "a: .;".data ++ List.replicate 3 '\x60' ++ "tail".data) =
      (parse "a: .;".data).bind (fun tr => (parseContent "tail".data).map
        (fun items => Item.text ['x', ' '] :: Item.code tr :: items)) :=
  c7_fence_inner_to_first_run 3 ['x', ' '] "a: .;".data "tail".data
    (by decide) (by decide) (by decide) (by decide)

/-- C1: for every input text (as a list of characters), for every page
collection and root prefix, parsing runs to completion within its fixed
budget and returns a `Root` tree, and the renderer's `parse_code` renders
that tree against the extracted rule table without hitting a panicking
unwrap: lexing, parsing, rule extraction, and rendering are total, every
failure having been recorded as an error node inside the returned tree. -/
theorem c1_totality (input : List Char) (pages : List Page)
    (root : String) :
    ∃ t, parse input = some t ∧ t.kind = SyntaxKind.Root ∧
      (parseCode (findRules pages root) t).isSome = true := by
  obtain ⟨t, hv, hk, hc⟩ := parse_spec input
  exact ⟨t, hv, hk, parseCode_some _ t (findRules_ok pages root) hc⟩

end MdbookGrammar
